import Mathlib

/-!
Shallow embedding of parts of the pyrocko support library
(`src/util.py` and `src/fdsn/enhanced_sacpz.py`) together with proofs
about the claims of its specification.

Conventions used throughout:
* Python strings are embedded as `List Char`.
* Python floats are embedded as `ℚ` (exact arithmetic); timestamps are
  `ℤ` seconds plus a `ℚ` fractional part.
* Fallible Python code (functions that can raise) returns `Except`/`Option`.
* Diagnostic message payloads of exceptions are not modelled; only the
  exception kind is.
-/

set_option autoImplicit false
set_option maxRecDepth 16000

namespace Pyrocko

/-! ### Consistency checking and merging (`util.consistency_check`,
`util.mostfrequent`, `util.consistency_merge`) -/

/-- The exception kinds raised by the consistency helpers:
`Inconsistency` (raised by `consistency_check`) and the generic bare
`Exception('cannot merge empty sequence')` of `consistency_merge`. -/
inductive MergeErr where
  | inconsistency : MergeErr
  | genericError : MergeErr
deriving DecidableEq

/-- The `error=` keyword argument of `consistency_merge`; the Python
code asserts it is one of `'raise'`, `'warn'`, `'ignore'`. -/
inductive ErrorPolicy where
  | raise : ErrorPolicy
  | warn : ErrorPolicy
  | ignore : ErrorPolicy
deriving DecidableEq

/-- `util.consistency_check(list_of_tuples, message)`: a record is a
`(label, value1, value2, ...)` tuple, embedded as `L × List V`.  If at
least two records are present and some record's value tuple differs
from the first record's, raise `Inconsistency`; otherwise return. -/
def consistency_check {L V : Type} [DecidableEq V]
    (lot : List (L × List V)) : Except MergeErr Unit :=
  match lot with
  | [] => .ok ()
  | [_] => .ok ()
  | t0 :: rest =>
    if ∀ t ∈ rest, t.2 = t0.2 then .ok () else .error .inconsistency

/-- Count-ascending stable insertion: an element is inserted after all
elements of count less than or equal to its own, which models the
stability of Python's `sorted`. -/
def insertByCount {V : Type} (cnt : V → ℕ) (a : V) : List V → List V
  | [] => [a]
  | b :: bs => if cnt a < cnt b then a :: b :: bs else b :: insertByCount cnt a bs

/-- Stable insertion sort by count, ascending. -/
def sortByCount {V : Type} (cnt : V → ℕ) : List V → List V
  | [] => []
  | a :: as => insertByCount cnt a (sortByCount cnt as)

/-- `util.mostfrequent(x)`: counts occurrences, sorts the distinct
values by ascending count and takes the last.  The Python dictionary's
key iteration order is unspecified; the model fixes first-occurrence
order, which only affects which value wins a tie.  Returns `none` for
an empty input (Python raises `IndexError` there). -/
def mostfrequent {V : Type} [DecidableEq V] (x : List V) : Option V :=
  let keys := x.foldl (fun ks e => if e ∈ ks then ks else ks ++ [e]) []
  (sortByCount (fun k => x.count k) keys).getLast?

/-- `mostfrequent` as a total function (junk value on the empty list,
which `consistency_merge` never passes to it). -/
def mostfrequentD {V : Type} [DecidableEq V] (d : V) (x : List V) : V :=
  (mostfrequent x).getD d

/-- The per-column fallback of `consistency_merge`:
`tuple([merge(x) for x in zip(*list_of_tuples)[1:]])`.  Python's `zip`
truncates to the shortest record, and `[1:]` drops the label column. -/
def mergeColumns {L V : Type} (merge : List V → V)
    (lot : List (L × List V)) : List V :=
  let m := ((lot.map (fun t => t.2.length)).min?).getD 0
  (List.range m).map (fun j => merge (lot.filterMap (fun t => t.2[j]?)))

/-- `util.consistency_merge(list_of_tuples, message, error, merge)`.
The returned `Bool` records whether a warning was logged.  An empty
input raises the generic error; agreement returns the first record's
values; disagreement raises, warns and merges, or silently merges
according to `error`. -/
def consistency_merge {L V : Type} [DecidableEq V]
    (lot : List (L × List V)) (error : ErrorPolicy) (merge : List V → V) :
    Except MergeErr (List V × Bool) :=
  match lot with
  | [] => .error .genericError
  | t0 :: _ =>
    match consistency_check lot with
    | .ok _ => .ok (t0.2, false)
    | .error e =>
      match error with
      | .raise => .error e
      | .warn => .ok (mergeColumns merge lot, true)
      | .ignore => .ok (mergeColumns merge lot, false)

/-! ### Decimation sequence table (`util.mk_decitab`, `util.decitab`) -/

/-- A 5-tuple of decimation sub-factors. -/
abbrev Quint := ℕ × ℕ × ℕ × ℕ × ℕ

/-- The decimation table: an association list from target factor to its
sub-factor quintuple; the first binding for a key wins, matching the
`if p not in tab` guard of `mk_decitab`. -/
abbrev DTab := List (ℕ × Quint)

/-- Insert a binding only when the key is absent, as
`if p not in tab: tab[p] = (i,j,k,l,m)` does. -/
def dtabInsert (tab : DTab) (p : ℕ) (t : Quint) : DTab :=
  if (tab.lookup p).isSome then tab else (p, t) :: tab

/-- The list `[1, 2, ..., n]`, the embedding of Python `range(1, n+1)`. -/
def range1 (n : ℕ) : List ℕ := List.range' 1 n

/-- Innermost loop of `mk_decitab`: `for m in range(1,l+1)` with the
`if p > nmax: break` pruning. -/
def decitabLoopM (nmax i j k l : ℕ) : List ℕ → DTab → DTab
  | [], tab => tab
  | m :: ms, tab =>
    if i * j * k * l * m > nmax then tab
    else decitabLoopM nmax i j k l ms (dtabInsert tab (i * j * k * l * m) (i, j, k, l, m))

/-- `for l in range(1,k+1)` loop of `mk_decitab`, with its trailing
`if i*j*k*l > nmax: break`. -/
def decitabLoopL (nmax i j k : ℕ) : List ℕ → DTab → DTab
  | [], tab => tab
  | l :: ls, tab =>
    let tab2 := decitabLoopM nmax i j k l (range1 l) tab
    if i * j * k * l > nmax then tab2
    else decitabLoopL nmax i j k ls tab2

/-- `for k in range(1,j+1)` loop of `mk_decitab`. -/
def decitabLoopK (nmax i j : ℕ) : List ℕ → DTab → DTab
  | [], tab => tab
  | k :: ks, tab =>
    let tab2 := decitabLoopL nmax i j k (range1 k) tab
    if i * j * k > nmax then tab2
    else decitabLoopK nmax i j ks tab2

/-- `for j in range(1,i+1)` loop of `mk_decitab`. -/
def decitabLoopJ (nmax i : ℕ) : List ℕ → DTab → DTab
  | [], tab => tab
  | j :: js, tab =>
    let tab2 := decitabLoopK nmax i j (range1 j) tab
    if i * j > nmax then tab2
    else decitabLoopJ nmax i js tab2

/-- `for i in range(1,10)` loop of `mk_decitab`. -/
def decitabLoopI (nmax : ℕ) : List ℕ → DTab → DTab
  | [], tab => tab
  | i :: is, tab =>
    let tab2 := decitabLoopJ nmax i (range1 i) tab
    if i > nmax then tab2
    else decitabLoopI nmax is tab2

/-- `util.mk_decitab(nmax)` run on a table `tab` (the process-global
`GlobalVars.decitab`). -/
def mk_decitab (nmax : ℕ) (tab : DTab) : DTab :=
  decitabLoopI nmax (range1 9) tab

/-- `util.decitab(n)` on a fresh process (the global table empty,
`decitab_nmax = 0`): since `n > 0`, `mk_decitab(n*2)` is called first,
then the table is consulted; an absent entry raises
`UnavailableDecimation`. -/
def decitab (n : ℕ) : Except Unit Quint :=
  let tab : DTab := if n > 0 then mk_decitab (2 * n) [] else []
  match tab.lookup n with
  | some t => .ok t
  | none => .error ()

/-- `n` is expressible as a product of five factors, each between 1
and 9 inclusive. -/
def HasQuintDecomp (n : ℕ) : Prop :=
  ∃ i < 10, ∃ j < 10, ∃ k < 10, ∃ l < 10, ∃ m < 10,
    1 ≤ i ∧ 1 ≤ j ∧ 1 ≤ k ∧ 1 ≤ l ∧ 1 ≤ m ∧ i * j * k * l * m = n

instance (n : ℕ) : Decidable (HasQuintDecomp n) := by
  unfold HasQuintDecomp; infer_instance

/-- The invariant of every table entry produced by `mk_decitab`:
the stored quintuple is descending, bounded by 9, positive, and
multiplies to the key. -/
def DEntryOk (e : ℕ × Quint) : Prop :=
  match e with
  | (p, (i, j, k, l, m)) =>
    1 ≤ m ∧ m ≤ l ∧ l ≤ k ∧ k ≤ j ∧ j ≤ i ∧ i ≤ 9 ∧ i * j * k * l * m = p

theorem mem_range1 {n x : ℕ} (h : x ∈ range1 n) : 1 ≤ x ∧ x ≤ n := by
  unfold range1 at h
  rw [List.mem_range'_1] at h
  omega

theorem dtabInsert_mem {tab : DTab} {p : ℕ} {t : Quint} {e : ℕ × Quint}
    (h : e ∈ dtabInsert tab p t) : e = (p, t) ∨ e ∈ tab := by
  unfold dtabInsert at h
  split at h
  · exact Or.inr h
  · rcases List.mem_cons.mp h with h2 | h2
    · exact Or.inl h2
    · exact Or.inr h2

theorem decitabLoopM_inv {nmax i j k l : ℕ} {ms : List ℕ} {tab : DTab}
    (hi : i ≤ 9) (hj : j ≤ i) (hk : k ≤ j) (hl : l ≤ k)
    (hms : ∀ m ∈ ms, 1 ≤ m ∧ m ≤ l)
    (htab : ∀ e ∈ tab, DEntryOk e) :
    ∀ e ∈ decitabLoopM nmax i j k l ms tab, DEntryOk e := by
  induction ms generalizing tab with
  | nil => simpa [decitabLoopM] using htab
  | cons m ms ih =>
    simp only [decitabLoopM]
    split
    · exact htab
    · apply ih (fun x hx => hms x (List.mem_cons_of_mem m hx))
      intro e he
      rcases dtabInsert_mem he with rfl | he
      · have hm := hms m (List.mem_cons_self m ms)
        exact ⟨hm.1, hm.2, hl, hk, hj, hi, rfl⟩
      · exact htab e he

theorem decitabLoopL_inv {nmax i j k : ℕ} {ls : List ℕ} {tab : DTab}
    (hi : i ≤ 9) (hj : j ≤ i) (hk : k ≤ j)
    (hls : ∀ l ∈ ls, 1 ≤ l ∧ l ≤ k)
    (htab : ∀ e ∈ tab, DEntryOk e) :
    ∀ e ∈ decitabLoopL nmax i j k ls tab, DEntryOk e := by
  induction ls generalizing tab with
  | nil => simpa [decitabLoopL] using htab
  | cons l ls ih =>
    simp only [decitabLoopL]
    have hl := hls l (List.mem_cons_self l ls)
    have h2 : ∀ e ∈ decitabLoopM nmax i j k l (range1 l) tab, DEntryOk e :=
      decitabLoopM_inv hi hj hk hl.2 (fun m hm => mem_range1 hm) htab
    split
    · exact h2
    · exact ih (fun x hx => hls x (List.mem_cons_of_mem l hx)) h2

theorem decitabLoopK_inv {nmax i j : ℕ} {ks : List ℕ} {tab : DTab}
    (hi : i ≤ 9) (hj : j ≤ i)
    (hks : ∀ k ∈ ks, 1 ≤ k ∧ k ≤ j)
    (htab : ∀ e ∈ tab, DEntryOk e) :
    ∀ e ∈ decitabLoopK nmax i j ks tab, DEntryOk e := by
  induction ks generalizing tab with
  | nil => simpa [decitabLoopK] using htab
  | cons k ks ih =>
    simp only [decitabLoopK]
    have hk := hks k (List.mem_cons_self k ks)
    have h2 : ∀ e ∈ decitabLoopL nmax i j k (range1 k) tab, DEntryOk e :=
      decitabLoopL_inv hi hj hk.2 (fun l hl => mem_range1 hl) htab
    split
    · exact h2
    · exact ih (fun x hx => hks x (List.mem_cons_of_mem k hx)) h2

theorem decitabLoopJ_inv {nmax i : ℕ} {js : List ℕ} {tab : DTab}
    (hi : i ≤ 9)
    (hjs : ∀ j ∈ js, 1 ≤ j ∧ j ≤ i)
    (htab : ∀ e ∈ tab, DEntryOk e) :
    ∀ e ∈ decitabLoopJ nmax i js tab, DEntryOk e := by
  induction js generalizing tab with
  | nil => simpa [decitabLoopJ] using htab
  | cons j js ih =>
    simp only [decitabLoopJ]
    have hj := hjs j (List.mem_cons_self j js)
    have h2 : ∀ e ∈ decitabLoopK nmax i j (range1 j) tab, DEntryOk e :=
      decitabLoopK_inv hi hj.2 (fun k hk => mem_range1 hk) htab
    split
    · exact h2
    · exact ih (fun x hx => hjs x (List.mem_cons_of_mem j hx)) h2

theorem decitabLoopI_inv {nmax : ℕ} {is : List ℕ} {tab : DTab}
    (his : ∀ i ∈ is, 1 ≤ i ∧ i ≤ 9)
    (htab : ∀ e ∈ tab, DEntryOk e) :
    ∀ e ∈ decitabLoopI nmax is tab, DEntryOk e := by
  induction is generalizing tab with
  | nil => simpa [decitabLoopI] using htab
  | cons i is ih =>
    simp only [decitabLoopI]
    have hi := his i (List.mem_cons_self i is)
    have h2 : ∀ e ∈ decitabLoopJ nmax i (range1 i) tab, DEntryOk e :=
      decitabLoopJ_inv hi.2 (fun j hj => mem_range1 hj) htab
    split
    · exact h2
    · exact ih (fun x hx => his x (List.mem_cons_of_mem i hx)) h2

theorem mk_decitab_inv (nmax : ℕ) :
    ∀ e ∈ mk_decitab nmax [], DEntryOk e :=
  decitabLoopI_inv (fun i hi => mem_range1 hi) (by intro e he; cases he)

theorem lookup_mem {α β : Type} [BEq α] [LawfulBEq α] {l : List (α × β)}
    {a : α} {b : β} (h : l.lookup a = some b) : (a, b) ∈ l := by
  induction l with
  | nil => simp [List.lookup] at h
  | cons e es ih =>
    rw [List.lookup] at h
    cases hk : (a == e.1) with
    | true =>
      simp only [hk] at h
      have ha := eq_of_beq hk
      cases e
      simp_all
    | false =>
      simp only [hk] at h
      exact List.mem_cons_of_mem e (ih h)

theorem dtabInsert_preserves {tab : DTab} {p q : ℕ} {t : Quint}
    (h : (tab.lookup q).isSome) : ((dtabInsert tab p t).lookup q).isSome := by
  unfold dtabInsert
  split
  · exact h
  · rw [List.lookup]
    cases hq : (q == p)
    · simpa using h
    · simp

theorem dtabInsert_self {tab : DTab} {p : ℕ} {t : Quint} :
    ((dtabInsert tab p t).lookup p).isSome := by
  unfold dtabInsert
  split
  case isTrue h => exact h
  case isFalse h =>
    rw [List.lookup]
    simp

theorem decitabLoopM_preserves {nmax i j k l q : ℕ} {ms : List ℕ} {tab : DTab}
    (h : (tab.lookup q).isSome) :
    ((decitabLoopM nmax i j k l ms tab).lookup q).isSome := by
  induction ms generalizing tab with
  | nil => simpa [decitabLoopM] using h
  | cons m ms ih =>
    simp only [decitabLoopM]
    split
    · exact h
    · exact ih (dtabInsert_preserves h)

theorem decitabLoopL_preserves {nmax i j k q : ℕ} {ls : List ℕ} {tab : DTab}
    (h : (tab.lookup q).isSome) :
    ((decitabLoopL nmax i j k ls tab).lookup q).isSome := by
  induction ls generalizing tab with
  | nil => simpa [decitabLoopL] using h
  | cons l ls ih =>
    simp only [decitabLoopL]
    split
    · exact decitabLoopM_preserves h
    · exact ih (decitabLoopM_preserves h)

theorem decitabLoopK_preserves {nmax i j q : ℕ} {ks : List ℕ} {tab : DTab}
    (h : (tab.lookup q).isSome) :
    ((decitabLoopK nmax i j ks tab).lookup q).isSome := by
  induction ks generalizing tab with
  | nil => simpa [decitabLoopK] using h
  | cons k ks ih =>
    simp only [decitabLoopK]
    split
    · exact decitabLoopL_preserves h
    · exact ih (decitabLoopL_preserves h)

theorem decitabLoopJ_preserves {nmax i q : ℕ} {js : List ℕ} {tab : DTab}
    (h : (tab.lookup q).isSome) :
    ((decitabLoopJ nmax i js tab).lookup q).isSome := by
  induction js generalizing tab with
  | nil => simpa [decitabLoopJ] using h
  | cons j js ih =>
    simp only [decitabLoopJ]
    split
    · exact decitabLoopK_preserves h
    · exact ih (decitabLoopK_preserves h)

theorem decitabLoopI_preserves {nmax q : ℕ} {is : List ℕ} {tab : DTab}
    (h : (tab.lookup q).isSome) :
    ((decitabLoopI nmax is tab).lookup q).isSome := by
  induction is generalizing tab with
  | nil => simpa [decitabLoopI] using h
  | cons i is ih =>
    simp only [decitabLoopI]
    split
    · exact decitabLoopJ_preserves h
    · exact ih (decitabLoopJ_preserves h)

theorem decitabLoopM_hits {nmax i j k l m : ℕ} {ms : List ℕ} {tab : DTab}
    (hsort : List.Sorted (· ≤ ·) ms) (hmem : m ∈ ms)
    (hle : i * j * k * l * m ≤ nmax) :
    ((decitabLoopM nmax i j k l ms tab).lookup (i * j * k * l * m)).isSome := by
  induction ms generalizing tab with
  | nil => cases hmem
  | cons x ms ih =>
    simp only [decitabLoopM]
    rcases List.mem_cons.mp hmem with rfl | hmem2
    · rw [if_neg (by omega)]
      exact decitabLoopM_preserves dtabInsert_self
    · have hxm : x ≤ m := (List.sorted_cons.mp hsort).1 m hmem2
      have hxle : i * j * k * l * x ≤ i * j * k * l * m :=
        Nat.mul_le_mul_left _ hxm
      rw [if_neg (by omega)]
      exact ih (List.sorted_cons.mp hsort).2 hmem2

theorem decitabLoopL_hits {nmax i j k l m : ℕ} {ls : List ℕ} {tab : DTab}
    (hsort : List.Sorted (· ≤ ·) ls) (hmem : l ∈ ls)
    (hm1 : 1 ≤ m) (hml : m ≤ l)
    (hle : i * j * k * l * m ≤ nmax) :
    ((decitabLoopL nmax i j k ls tab).lookup (i * j * k * l * m)).isSome := by
  induction ls generalizing tab with
  | nil => cases hmem
  | cons x ls ih =>
    simp only [decitabLoopL]
    rcases List.mem_cons.mp hmem with rfl | hmem2
    · have hin : ((decitabLoopM nmax i j k l (range1 l) tab).lookup
          (i * j * k * l * m)).isSome := by
        apply decitabLoopM_hits _ _ hle
        · exact (List.pairwise_lt_range' 1 l).imp le_of_lt
        · unfold range1; rw [List.mem_range'_1]; omega
      split
      · exact hin
      · exact decitabLoopL_preserves hin
    · have hxl : x ≤ l := (List.sorted_cons.mp hsort).1 l hmem2
      have hxle : i * j * k * x ≤ i * j * k * l * m := by
        calc i * j * k * x ≤ i * j * k * l := Nat.mul_le_mul_left _ hxl
        _ = i * j * k * l * 1 := by ring
        _ ≤ i * j * k * l * m := Nat.mul_le_mul_left _ hm1
      rw [if_neg (by omega)]
      exact ih (List.sorted_cons.mp hsort).2 hmem2

theorem decitabLoopK_hits {nmax i j k l m : ℕ} {ks : List ℕ} {tab : DTab}
    (hsort : List.Sorted (· ≤ ·) ks) (hmem : k ∈ ks)
    (hm1 : 1 ≤ m) (hml : m ≤ l) (hl1 : 1 ≤ l) (hlk : l ≤ k)
    (hle : i * j * k * l * m ≤ nmax) :
    ((decitabLoopK nmax i j ks tab).lookup (i * j * k * l * m)).isSome := by
  induction ks generalizing tab with
  | nil => cases hmem
  | cons x ks ih =>
    simp only [decitabLoopK]
    rcases List.mem_cons.mp hmem with rfl | hmem2
    · have hin : ((decitabLoopL nmax i j k (range1 k) tab).lookup
          (i * j * k * l * m)).isSome := by
        apply decitabLoopL_hits _ _ hm1 hml hle
        · exact (List.pairwise_lt_range' 1 k).imp le_of_lt
        · unfold range1; rw [List.mem_range'_1]; omega
      split
      · exact hin
      · exact decitabLoopK_preserves hin
    · have hxk : x ≤ k := (List.sorted_cons.mp hsort).1 k hmem2
      have hxle : i * j * x ≤ i * j * k * l * m := by
        calc i * j * x ≤ i * j * k := Nat.mul_le_mul_left _ hxk
        _ = i * j * k * 1 * 1 := by ring
        _ ≤ i * j * k * l * m := Nat.mul_le_mul (Nat.mul_le_mul_left _ hl1) hm1
      rw [if_neg (by omega)]
      exact ih (List.sorted_cons.mp hsort).2 hmem2

theorem decitabLoopJ_hits {nmax i j k l m : ℕ} {js : List ℕ} {tab : DTab}
    (hsort : List.Sorted (· ≤ ·) js) (hmem : j ∈ js)
    (hm1 : 1 ≤ m) (hml : m ≤ l) (hl1 : 1 ≤ l) (hlk : l ≤ k)
    (hk1 : 1 ≤ k) (hkj : k ≤ j)
    (hle : i * j * k * l * m ≤ nmax) :
    ((decitabLoopJ nmax i js tab).lookup (i * j * k * l * m)).isSome := by
  induction js generalizing tab with
  | nil => cases hmem
  | cons x js ih =>
    simp only [decitabLoopJ]
    rcases List.mem_cons.mp hmem with rfl | hmem2
    · have hin : ((decitabLoopK nmax i j (range1 j) tab).lookup
          (i * j * k * l * m)).isSome := by
        apply decitabLoopK_hits _ _ hm1 hml hl1 hlk hle
        · exact (List.pairwise_lt_range' 1 j).imp le_of_lt
        · unfold range1; rw [List.mem_range'_1]; omega
      split
      · exact hin
      · exact decitabLoopJ_preserves hin
    · have hxj : x ≤ j := (List.sorted_cons.mp hsort).1 j hmem2
      have hxle : i * x ≤ i * j * k * l * m := by
        calc i * x ≤ i * j := Nat.mul_le_mul_left _ hxj
        _ = i * j * 1 * 1 * 1 := by ring
        _ ≤ i * j * k * l * m :=
          Nat.mul_le_mul (Nat.mul_le_mul (Nat.mul_le_mul_left _ hk1) hl1) hm1
      rw [if_neg (by omega)]
      exact ih (List.sorted_cons.mp hsort).2 hmem2

theorem decitabLoopI_hits {nmax i j k l m : ℕ} {is : List ℕ} {tab : DTab}
    (hsort : List.Sorted (· ≤ ·) is) (hmem : i ∈ is)
    (hm1 : 1 ≤ m) (hml : m ≤ l) (hl1 : 1 ≤ l) (hlk : l ≤ k)
    (hk1 : 1 ≤ k) (hkj : k ≤ j) (hj1 : 1 ≤ j) (hji : j ≤ i)
    (hle : i * j * k * l * m ≤ nmax) :
    ((decitabLoopI nmax is tab).lookup (i * j * k * l * m)).isSome := by
  induction is generalizing tab with
  | nil => cases hmem
  | cons x is ih =>
    simp only [decitabLoopI]
    rcases List.mem_cons.mp hmem with rfl | hmem2
    · have hin : ((decitabLoopJ nmax i (range1 i) tab).lookup
          (i * j * k * l * m)).isSome := by
        apply decitabLoopJ_hits _ _ hm1 hml hl1 hlk hk1 hkj hle
        · exact (List.pairwise_lt_range' 1 i).imp le_of_lt
        · unfold range1; rw [List.mem_range'_1]; omega
      split
      · exact hin
      · exact decitabLoopI_preserves hin
    · have hxi : x ≤ i := (List.sorted_cons.mp hsort).1 i hmem2
      have hxle : x ≤ i * j * k * l * m := by
        calc x ≤ i := hxi
        _ = i * 1 * 1 * 1 * 1 := by ring
        _ ≤ i * j * k * l * m :=
          Nat.mul_le_mul (Nat.mul_le_mul (Nat.mul_le_mul
            (Nat.mul_le_mul_left _ hj1) hk1) hl1) hm1
      rw [if_neg (by omega)]
      exact ih (List.sorted_cons.mp hsort).2 hmem2

theorem mk_decitab_complete {nmax i j k l m : ℕ}
    (hm1 : 1 ≤ m) (hml : m ≤ l) (hlk : l ≤ k) (hkj : k ≤ j) (hji : j ≤ i)
    (hi9 : i ≤ 9) (hle : i * j * k * l * m ≤ nmax) :
    ((mk_decitab nmax []).lookup (i * j * k * l * m)).isSome := by
  apply decitabLoopI_hits _ _ hm1 hml (by omega) hlk (by omega) hkj (by omega)
      hji hle
  · exact (List.pairwise_lt_range' 1 9).imp le_of_lt
  · unfold range1; rw [List.mem_range'_1]; omega

theorem sorted_quint_of_decomp {n : ℕ} (h : HasQuintDecomp n) :
    ∃ i j k l m : ℕ, 1 ≤ m ∧ m ≤ l ∧ l ≤ k ∧ k ≤ j ∧ j ≤ i ∧ i ≤ 9 ∧
      i * j * k * l * m = n := by
  obtain ⟨a, ha, b, hb, c, hc, d, hd, e, he, ha1, hb1, hc1, hd1, he1, hprod⟩ := h
  have hperm : (List.insertionSort (· ≥ ·) [a, b, c, d, e]).Perm [a, b, c, d, e] :=
    List.perm_insertionSort _ _
  have hsort : List.Sorted (· ≥ ·) (List.insertionSort (· ≥ ·) [a, b, c, d, e]) :=
    List.sorted_insertionSort _ _
  have hlen : (List.insertionSort (· ≥ ·) [a, b, c, d, e]).length = 5 := by
    rw [hperm.length_eq]; rfl
  have hprodeq : (List.insertionSort (· ≥ ·) [a, b, c, d, e]).prod
      = [a, b, c, d, e].prod := hperm.prod_eq
  have hmem : ∀ x ∈ List.insertionSort (· ≥ ·) [a, b, c, d, e],
      1 ≤ x ∧ x ≤ 9 := by
    intro x hx
    have hx2 := hperm.mem_iff.mp hx
    simp only [List.mem_cons, List.not_mem_nil, or_false] at hx2
    rcases hx2 with rfl | rfl | rfl | rfl | rfl <;> omega
  match hL : List.insertionSort (· ≥ ·) [a, b, c, d, e], hlen with
  | [i, j, k, l, m], _ =>
    rw [hL] at hsort hprodeq hmem
    obtain ⟨hi, hsort2⟩ := List.sorted_cons.mp hsort
    obtain ⟨hj, hsort3⟩ := List.sorted_cons.mp hsort2
    obtain ⟨hk, hsort4⟩ := List.sorted_cons.mp hsort3
    obtain ⟨hl, _⟩ := List.sorted_cons.mp hsort4
    refine ⟨i, j, k, l, m, (hmem m (by simp)).1, hl m (by simp),
      hk l (by simp), hj k (by simp), hi j (by simp),
      (hmem i (by simp)).2, ?_⟩
    simp only [List.prod_cons, List.prod_nil] at hprodeq
    calc i * j * k * l * m = i * (j * (k * (l * (m * 1)))) := by ring
    _ = a * (b * (c * (d * (e * 1)))) := hprodeq
    _ = n := by rw [← hprod]; ring

theorem decitab_error_of_not_decomp {n : ℕ} (h : ¬ HasQuintDecomp n) :
    decitab n = .error () := by
  unfold decitab
  simp only
  split
  case h_1 t heq =>
    exfalso
    apply h
    have hmem : (n, t) ∈ (if n > 0 then mk_decitab (2 * n) [] else []) :=
      lookup_mem heq
    split at hmem
    · have hok := mk_decitab_inv (2 * n) (n, t) hmem
      obtain ⟨i, j, k, l, m⟩ := t
      obtain ⟨h1, h2, h3, h4, h5, h6, h7⟩ := hok
      exact ⟨i, by omega, j, by omega, k, by omega, l, by omega, m, by omega,
        by omega, by omega, by omega, by omega, by omega, h7⟩
    · cases hmem
  case h_2 => rfl

theorem decitab_ok_of_decomp {n : ℕ} (h : HasQuintDecomp n) :
    ∃ i j k l m : ℕ, decitab n = .ok (i, j, k, l, m) ∧
      1 ≤ m ∧ m ≤ l ∧ l ≤ k ∧ k ≤ j ∧ j ≤ i ∧ i ≤ 9 ∧ i * j * k * l * m = n := by
  obtain ⟨a, b, c, d, e, he1, hed, hdc, hcb, hba, ha9, hprod⟩ :=
    sorted_quint_of_decomp h
  have hpos : 0 < n := by
    have h1 : 0 < a * b * c * d * e := by
      have : 0 < a := by omega
      have : 0 < b := by omega
      have : 0 < c := by omega
      have : 0 < d := by omega
      positivity
    omega
  have hsome : (((mk_decitab (2 * n) []).lookup n)).isSome := by
    have h2 : a * b * c * d * e ≤ 2 * n := by omega
    have h3 := mk_decitab_complete he1 hed hdc hcb hba ha9 h2
    rwa [hprod] at h3
  rw [Option.isSome_iff_exists] at hsome
  obtain ⟨t, ht⟩ := hsome
  have hok := mk_decitab_inv (2 * n) (n, t) (lookup_mem ht)
  obtain ⟨i, j, k, l, m⟩ := t
  obtain ⟨h1, h2, h3, h4, h5, h6, h7⟩ := hok
  refine ⟨i, j, k, l, m, ?_, h1, h2, h3, h4, h5, h6, h7⟩
  unfold decitab
  simp only [if_pos hpos]
  rw [ht]

/-- Claim C3 (corrected): for every `n` in `1..100` that has a
decomposition into five factors each between 1 and 9, `decitab(n)`
returns a quintuple `(i,j,k,l,m)` with `i≥j≥k≥l≥m≥1`, components at
most 9 and product `n` (the original claim asserted this for every `n`
in `1..100`, but e.g. `n = 11` has no such decomposition); for every
`n` without such a decomposition, `decitab(n)` raises
`UnavailableDecimation`. -/
theorem decitab_spec :
    (∀ n : ℕ, 1 ≤ n → n ≤ 100 → HasQuintDecomp n →
      ∃ i j k l m : ℕ, decitab n = .ok (i, j, k, l, m) ∧
        1 ≤ m ∧ m ≤ l ∧ l ≤ k ∧ k ≤ j ∧ j ≤ i ∧ i ≤ 9 ∧
        i * j * k * l * m = n) ∧
    (∀ n : ℕ, ¬ HasQuintDecomp n → decitab n = .error ()) :=
  ⟨fun _ _ _ h => decitab_ok_of_decomp h, fun _ h => decitab_error_of_not_decomp h⟩

theorem not_decomp_11 : ¬ HasQuintDecomp 11 := by
  rintro ⟨i, hi, j, hj, k, hk, l, hl, m, hm, hi1, hj1, hk1, hl1, hm1, hprod⟩
  have hp : Nat.Prime 11 := by norm_num
  have hdi : i ∣ 11 := ⟨j * k * l * m, by rw [← hprod]; ring⟩
  have hdj : j ∣ 11 := ⟨i * k * l * m, by rw [← hprod]; ring⟩
  have hdk : k ∣ 11 := ⟨i * j * l * m, by rw [← hprod]; ring⟩
  have hdl : l ∣ 11 := ⟨i * j * k * m, by rw [← hprod]; ring⟩
  have hdm : m ∣ 11 := ⟨i * j * k * l, by rw [← hprod]; ring⟩
  have h1 : i = 1 := by rcases (Nat.Prime.eq_one_or_self_of_dvd hp i hdi) with h | h <;> omega
  have h2 : j = 1 := by rcases (Nat.Prime.eq_one_or_self_of_dvd hp j hdj) with h | h <;> omega
  have h3 : k = 1 := by rcases (Nat.Prime.eq_one_or_self_of_dvd hp k hdk) with h | h <;> omega
  have h4 : l = 1 := by rcases (Nat.Prime.eq_one_or_self_of_dvd hp l hdl) with h | h <;> omega
  have h5 : m = 1 := by rcases (Nat.Prime.eq_one_or_self_of_dvd hp m hdm) with h | h <;> omega
  subst h1 h2 h3 h4 h5
  simp at hprod

/-- Witness for `decitab_spec`: evaluated at `n = 60` (decomposable)
and `n = 11` (not decomposable). -/
theorem decitab_spec_witness :
    (∃ i j k l m : ℕ, decitab 60 = .ok (i, j, k, l, m) ∧
      1 ≤ m ∧ m ≤ l ∧ l ≤ k ∧ k ≤ j ∧ j ≤ i ∧ i ≤ 9 ∧
      i * j * k * l * m = 60) ∧
    decitab 11 = .error () :=
  ⟨decitab_spec.1 60 (by omega) (by omega)
      ⟨5, by omega, 4, by omega, 3, by omega, 1, by omega, 1, by omega,
        by omega, by omega, by omega, by omega, by omega, by omega⟩,
    decitab_spec.2 11 not_decomp_11⟩

/-- Counterexample to claim C3 as stated: `n = 11` lies in `1..100`
yet `decitab(11)` raises `UnavailableDecimation` instead of returning
a quintuple. -/
theorem decitab_claim_counterexample :
    1 ≤ 11 ∧ 11 ≤ 100 ∧ decitab 11 = .error () :=
  ⟨by omega, by omega, by rfl⟩

/-! ### Claims C7 and C9: consistency utilities -/

theorem foldl_min_const {k : ℕ} : ∀ (l : List ℕ), (∀ x ∈ l, x = k) →
    l.foldl min k = k
  | [], _ => rfl
  | a :: as, h => by
    have ha : a = k := h a (List.mem_cons_self a as)
    subst ha
    rw [List.foldl_cons, min_self]
    exact foldl_min_const as (fun x hx => h x (List.mem_cons_of_mem a hx))

theorem min?_const {l : List ℕ} {k : ℕ} (hne : l ≠ []) (h : ∀ x ∈ l, x = k) :
    l.min? = some k := by
  cases l with
  | nil => cases hne rfl
  | cons a as =>
    have ha : a = k := h a (List.mem_cons_self a as)
    subst ha
    rw [List.min?_cons']
    rw [foldl_min_const as (fun x hx => h x (List.mem_cons_of_mem a hx))]

theorem filterMap_getElem_eq_map_getD {L V : Type} {j k : ℕ} (v0 : V)
    (hj : j < k) :
    ∀ (lot : List (L × List V)), (∀ t ∈ lot, t.2.length = k) →
      lot.filterMap (fun t => t.2[j]?) = lot.map (fun t => t.2.getD j v0)
  | [], _ => rfl
  | t :: ts, h => by
    have hlen : t.2.length = k := h t (List.mem_cons_self t ts)
    have hjt : j < t.2.length := by omega
    have hsome : t.2[j]? = some t.2[j] := List.getElem?_eq_getElem hjt
    simp only [List.filterMap_cons, List.map_cons, hsome]
    rw [List.getD_eq_getElem?_getD, hsome, Option.getD_some]
    rw [filterMap_getElem_eq_map_getD v0 hj ts
      (fun x hx => h x (List.mem_cons_of_mem t hx))]

theorem mergeColumns_of_const_arity {L V : Type} {k : ℕ}
    (merge : List V → V) (v0 : V) (t0 : L × List V) (rest : List (L × List V))
    (h : ∀ t ∈ t0 :: rest, t.2.length = k) :
    mergeColumns merge (t0 :: rest) =
      (List.range k).map
        (fun j => merge ((t0 :: rest).map (fun t => t.2.getD j v0))) := by
  unfold mergeColumns
  have hmin : ((t0 :: rest).map (fun t => t.2.length)).min? = some k := by
    apply min?_const (by simp)
    intro x hx
    rw [List.mem_map] at hx
    obtain ⟨t, ht, rfl⟩ := hx
    exact h t ht
  rw [hmin]
  apply List.map_congr_left
  intro j hj
  rw [List.mem_range] at hj
  rw [filterMap_getElem_eq_map_getD v0 hj (t0 :: rest) h]

/-- Claim C7: given a non-empty list of records of equal arity,
`consistency_merge` returns the first record's value tuple under every
policy when all records agree; when some record disagrees,
`error='raise'` raises `Inconsistency`, `error='warn'` logs and
returns the per-column merge, `error='ignore'` returns the per-column
merge without logging; the empty list fails with the generic error. -/
theorem consistency_merge_spec :
    ∀ (L V : Type) [inst : DecidableEq V] (merge : List V → V) (v0 : V),
    (∀ pol, consistency_merge ([] : List (L × List V)) pol merge =
      .error .genericError) ∧
    ∀ (t0 : L × List V) (rest : List (L × List V)) (k : ℕ),
      (∀ t ∈ t0 :: rest, t.2.length = k) →
      ((∀ t ∈ rest, t.2 = t0.2) →
        ∀ pol, consistency_merge (t0 :: rest) pol merge = .ok (t0.2, false)) ∧
      ((∃ t ∈ rest, t.2 ≠ t0.2) →
        consistency_merge (t0 :: rest) .raise merge = .error .inconsistency ∧
        consistency_merge (t0 :: rest) .warn merge =
          .ok ((List.range k).map
            (fun j => merge ((t0 :: rest).map (fun t => t.2.getD j v0))), true) ∧
        consistency_merge (t0 :: rest) .ignore merge =
          .ok ((List.range k).map
            (fun j => merge ((t0 :: rest).map (fun t => t.2.getD j v0))), false)) := by
  intro L V inst merge v0
  refine ⟨fun pol => rfl, fun t0 rest k harity => ⟨?_, ?_⟩⟩
  · intro hagree pol
    have hcheck : consistency_check (t0 :: rest) = .ok () := by
      cases rest with
      | nil => rfl
      | cons t1 ts =>
        simp only [consistency_check]
        rw [if_pos hagree]
    unfold consistency_merge
    rw [hcheck]
  · intro hdis
    have hcheck : consistency_check (t0 :: rest) = .error .inconsistency := by
      cases rest with
      | nil => obtain ⟨t, ht, _⟩ := hdis; cases ht
      | cons t1 ts =>
        simp only [consistency_check]
        rw [if_neg]
        intro hall
        obtain ⟨t, ht, hne⟩ := hdis
        exact hne (hall t ht)
    have hmc := mergeColumns_of_const_arity merge v0 t0 rest harity
    unfold consistency_merge
    rw [hcheck, hmc]
    exact ⟨rfl, rfl, rfl⟩

/-- Witness for `consistency_merge_spec`: the empty list, two agreeing
records, and two disagreeing records under the three policies. -/
theorem consistency_merge_spec_witness :
    consistency_merge ([] : List (ℕ × List ℕ)) .warn (fun l => l.headD 0) =
      .error .genericError ∧
    consistency_merge [(1, [5, 6]), (2, [5, 6])] .raise (fun l => l.headD 0) =
      .ok ([5, 6], false) ∧
    consistency_merge [(1, [5]), (2, [7])] .raise (fun l => l.headD 0) =
      .error .inconsistency ∧
    consistency_merge [(1, [5]), (2, [7])] .warn (fun l => l.headD 0) =
      .ok ([5], true) ∧
    consistency_merge [(1, [5]), (2, [7])] .ignore (fun l => l.headD 0) =
      .ok ([5], false) := by
  have h := consistency_merge_spec ℕ ℕ (fun l => l.headD 0) 0
  have hagree := (h.2 (1, [5, 6]) [(2, [5, 6])] 2 (by decide)).1 (by decide)
  have hdis := (h.2 (1, [5]) [(2, [7])] 1 (by decide)).2
    ⟨(2, [7]), by decide, by decide⟩
  refine ⟨h.1 .warn, hagree .raise, hdis.1, ?_, ?_⟩
  · have h2 := hdis.2.1
    simpa using h2
  · have h2 := hdis.2.2
    simpa using h2

/-- Claim C9: `consistency_check` on fewer than two records returns
normally (never raises `Inconsistency`). -/
theorem consistency_check_short (L V : Type) [DecidableEq V]
    (lot : List (L × List V)) (h : lot.length < 2) :
    consistency_check lot = .ok () := by
  match lot with
  | [] => rfl
  | [_] => rfl
  | _ :: _ :: _ => simp at h; omega

/-- Witness for `consistency_check_short`: the empty list and a
one-record list. -/
theorem consistency_check_short_witness :
    consistency_check ([] : List (ℕ × List ℕ)) = .ok () ∧
    consistency_check [(1, [2, 3])] = .ok () :=
  ⟨consistency_check_short ℕ ℕ [] (by decide),
    consistency_check_short ℕ ℕ [(1, [2, 3])] (by decide)⟩

/-! ### UTC calendar arithmetic

Models of the external collaborators `time.gmtime`, `calendar.timegm`,
`time.strftime` and `time.strptime` as used by `util.py`.  These are
Python/C standard-library functions (not repository code), so they are
modelled by their documented proleptic-Gregorian UTC semantics:
`timegm` validates its year against `datetime.date`'s `1..9999` range
and its month against `1..12` and otherwise maps a calendar tuple to
seconds since the epoch purely arithmetically (out-of-range days and
seconds carry over); `gmtime` is its inverse, modelled here for
non-negative timestamps only (every theorem below stays in that
range). -/

/-- The first six fields of a Python `struct_time` (the only ones the
embedded code reads). -/
structure Tm where
  y : ℕ
  mon : ℕ
  mday : ℕ
  hh : ℕ
  mm : ℕ
  ss : ℕ
deriving DecidableEq

/-- Gregorian leap-year predicate. -/
def isLeap (y : ℕ) : Bool := y % 4 == 0 && (y % 100 != 0 || y % 400 == 0)

/-- Number of days in year `y`. -/
def yearDays (y : ℕ) : ℕ := if isLeap y then 366 else 365

/-- Number of days of month `m` (1-based; 0 for out-of-range months). -/
def monthDays (leap : Bool) : ℕ → ℕ
  | 1 => 31
  | 2 => if leap then 29 else 28
  | 3 => 31
  | 4 => 30
  | 5 => 31
  | 6 => 30
  | 7 => 31
  | 8 => 31
  | 9 => 30
  | 10 => 31
  | 11 => 30
  | 12 => 31
  | _ => 0

/-- Days of the year strictly before month `m`. -/
def daysBeforeMonth (leap : Bool) : ℕ → ℕ
  | 0 => 0
  | m + 1 => daysBeforeMonth leap m + monthDays leap m

/-- Total days in the years `1..n` (proleptic Gregorian), in closed
form: 365 per year plus one per leap year. -/
def daysUpTo (n : ℕ) : ℕ := 365 * n + n / 4 - n / 100 + n / 400

theorem isLeap_iff (y : ℕ) :
    isLeap y = true ↔ (y % 4 = 0 ∧ (y % 100 ≠ 0 ∨ y % 400 = 0)) := by
  unfold isLeap
  rw [Bool.and_eq_true, Bool.or_eq_true, beq_iff_eq, bne_iff_ne, beq_iff_eq]

set_option maxHeartbeats 1600000 in
theorem daysUpTo_succ (n : ℕ) : daysUpTo (n + 1) = daysUpTo n + yearDays (n + 1) := by
  unfold daysUpTo yearDays
  by_cases h4 : (n + 1) % 4 = 0
  · by_cases h100 : (n + 1) % 100 = 0
    · by_cases h400 : (n + 1) % 400 = 0
      · rw [if_pos ((isLeap_iff (n + 1)).mpr ⟨h4, Or.inr h400⟩)]
        omega
      · rw [if_neg (fun hc => by
          rcases ((isLeap_iff (n + 1)).mp hc).2 with hc2 | hc2 <;> omega)]
        omega
    · rw [if_pos ((isLeap_iff (n + 1)).mpr ⟨h4, Or.inl h100⟩)]
      omega
  · have h100 : (n + 1) % 100 ≠ 0 := fun hc => h4 (by omega)
    have h400 : (n + 1) % 400 ≠ 0 := fun hc => h4 (by omega)
    rw [if_neg (fun hc => h4 ((isLeap_iff (n + 1)).mp hc).1)]
    omega

/-- Model of `calendar.timegm` on the first six `struct_time` fields:
seconds since 1970-01-01T00:00:00Z.  A year outside `1..9999` or a
month outside `1..12` raises `ValueError` (via `datetime.date`);
out-of-range days/hours/minutes/seconds carry over arithmetically. -/
def timegm (t : Tm) : Option ℤ :=
  if 1 ≤ t.y ∧ t.y ≤ 9999 ∧ 1 ≤ t.mon ∧ t.mon ≤ 12 then
    some (86400 * ((daysUpTo (t.y - 1) : ℤ) - (daysUpTo 1969 : ℤ)
        + (daysBeforeMonth (isLeap t.y) t.mon : ℤ) + (t.mday : ℤ) - 1)
      + 3600 * (t.hh : ℤ) + 60 * (t.mm : ℤ) + (t.ss : ℤ))
  else none

/-- Locate the year containing absolute day `d` counted from the start
of year `y0`; returns the year and the day-of-year remainder. -/
def findYear (y0 d : ℕ) : ℕ × ℕ :=
  if h : d < yearDays y0 then (y0, d)
  else findYear (y0 + 1) (d - yearDays y0)
termination_by d
decreasing_by
  have h365 : 365 ≤ yearDays y0 := by unfold yearDays; split <;> omega
  omega

/-- Locate the month containing day-of-year `d` (0-based), starting the
search at month `m`; returns the month and day-of-month remainder
(0-based). -/
def findMonth (leap : Bool) (m d : ℕ) : ℕ × ℕ :=
  if 12 ≤ m then (m, d)
  else if d < monthDays leap m then (m, d)
  else findMonth leap (m + 1) (d - monthDays leap m)
termination_by 12 - m

/-- Model of `time.gmtime` for non-negative timestamps (the only range
the theorems below exercise). -/
def gmtime (t : ℤ) : Option Tm :=
  if t < 0 then none
  else
    let n := t.toNat
    let days := n / 86400
    let sod := n % 86400
    let yr := findYear 1970 days
    let mr := findMonth (isLeap yr.1) 1 yr.2
    some ⟨yr.1, mr.1, mr.2 + 1, sod / 3600, sod % 3600 / 60, sod % 60⟩

/-- Python `int()` applied to a float: truncation toward zero. -/
def pyTrunc (q : ℚ) : ℤ := if 0 ≤ q then ⌊q⌋ else -⌊-q⌋

/-- `util.day_start(timestamp)`: `time.gmtime(int(timestamp))` with the
time-of-day fields zeroed, fed back through `calendar.timegm`. -/
def day_start (t : ℚ) : Option ℚ := do
  let tm ← gmtime (pyTrunc t)
  let r ← timegm { tm with hh := 0, mm := 0, ss := 0 }
  pure (r : ℚ)

/-- `util.month_start(timestamp)`: additionally resets the day of month
to 1. -/
def month_start (t : ℚ) : Option ℚ := do
  let tm ← gmtime (pyTrunc t)
  let r ← timegm { tm with mday := 1, hh := 0, mm := 0, ss := 0 }
  pure (r : ℚ)

/-- `util.year_start(timestamp)`: additionally resets the month to
January. -/
def year_start (t : ℚ) : Option ℚ := do
  let tm ← gmtime (pyTrunc t)
  let r ← timegm { tm with mon := 1, mday := 1, hh := 0, mm := 0, ss := 0 }
  pure (r : ℚ)

/-- Fuel bound used to realize the unbounded `while` loops of the
range iterators as structural recursion; sufficiency is proved, not
assumed. -/
def iterFuel (tmax : ℚ) : ℕ := ⌈tmax⌉₊ / 86400 + 2

/-- One unit-advancing loop of `util.iter_days`/`iter_months`/
`iter_years`: `while t < tmax: tend = unit_start(t + over); yield
(t, tend); t = tend`.  `none` models a Python exception (or exhausted
fuel, which the theorems rule out). -/
def iterGo (unitStart : ℚ → Option ℚ) (over tmax : ℚ) : ℚ → ℕ → Option (List (ℚ × ℚ))
  | t, 0 => if t < tmax then none else some []
  | t, fuel + 1 =>
    if t < tmax then
      match unitStart (t + over) with
      | none => none
      | some tend => (iterGo unitStart over tmax tend fuel).map (fun L => (t, tend) :: L)
    else some []

/-- `util.iter_days(tmin, tmax)` materialized as a list. -/
def iter_days (tmin tmax : ℚ) : Option (List (ℚ × ℚ)) := do
  let t0 ← day_start tmin
  iterGo day_start (26 * 60 * 60) tmax t0 (iterFuel tmax)

/-- `util.iter_months(tmin, tmax)` materialized as a list. -/
def iter_months (tmin tmax : ℚ) : Option (List (ℚ × ℚ)) := do
  let t0 ← month_start tmin
  iterGo month_start (24 * 60 * 60 * 33) tmax t0 (iterFuel tmax)

/-- `util.iter_years(tmin, tmax)` materialized as a list. -/
def iter_years (tmin tmax : ℚ) : Option (List (ℚ × ℚ)) := do
  let t0 ← year_start tmin
  iterGo year_start (24 * 60 * 60 * 369) tmax t0 (iterFuel tmax)

/-! ### Strings, digit rendering and parsing -/

/-- Python strings are embedded as lists of characters. -/
abbrev Str := List Char

/-- The numeric value of a decimal digit character. -/
def charDigit (c : Char) : ℕ := c.toNat - 48

/-- Decimal rendering of a natural number (minimal width, at least one
digit). -/
def natStr (n : ℕ) : Str :=
  if n = 0 then ['0']
  else (Nat.digits 10 n).reverse.map (fun d => Char.ofNat (48 + d))

/-- Decimal rendering zero-padded to at least width `w`. -/
def natStrPad (w n : ℕ) : Str :=
  List.replicate (w - (natStr n).length) '0' ++ natStr n

/-- Value of a digit string, most significant digit first. -/
def parseNat (cs : Str) : ℕ := cs.foldl (fun a c => 10 * a + charDigit c) 0

/-- Parse exactly four digits (the `%Y` directive of Python's
regex-based `strptime`). -/
def parse4 (s : Str) : Option (ℕ × Str) :=
  match s with
  | a :: b :: c :: d :: rest =>
    if a.isDigit ∧ b.isDigit ∧ c.isDigit ∧ d.isDigit then
      some (parseNat [a, b, c, d], rest)
    else none
  | _ => none

/-- Parse one or two digits with a range check, preferring two, as the
two-digit-then-one-digit alternation of Python `strptime`'s field
regexes does on separator-delimited formats. -/
def parse2Flex (lo hi : ℕ) (s : Str) : Option (ℕ × Str) :=
  match s with
  | c1 :: c2 :: rest =>
    if c1.isDigit ∧ c2.isDigit then
      let v := 10 * charDigit c1 + charDigit c2
      if lo ≤ v ∧ v ≤ hi then some (v, rest) else none
    else if c1.isDigit then
      let v := charDigit c1
      if lo ≤ v ∧ v ≤ hi then some (v, c2 :: rest) else none
    else none
  | [c1] =>
    if c1.isDigit then
      let v := charDigit c1
      if lo ≤ v ∧ v ≤ hi then some (v, []) else none
    else none
  | [] => none

/-- Model of `time.strptime(s, fmt)` for formats built from literal
characters and the directives `%Y %m %d %H %M %S` (the only ones the
embedded code uses).  Unknown directives fail.  Unparsed defaults are
Python's: 1900-01-01 00:00:00. -/
def strptimeLoop : Str → Str → Tm → Option Tm
  | [], s, tm => if s = [] then some tm else none
  | '%' :: c :: fr, s, tm =>
    match c with
    | 'Y' =>
      match parse4 s with
      | some (v, rest) => strptimeLoop fr rest { tm with y := v }
      | none => none
    | 'm' =>
      match parse2Flex 1 12 s with
      | some (v, rest) => strptimeLoop fr rest { tm with mon := v }
      | none => none
    | 'd' =>
      match parse2Flex 1 31 s with
      | some (v, rest) => strptimeLoop fr rest { tm with mday := v }
      | none => none
    | 'H' =>
      match parse2Flex 0 23 s with
      | some (v, rest) => strptimeLoop fr rest { tm with hh := v }
      | none => none
    | 'M' =>
      match parse2Flex 0 59 s with
      | some (v, rest) => strptimeLoop fr rest { tm with mm := v }
      | none => none
    | 'S' =>
      match parse2Flex 0 61 s with
      | some (v, rest) => strptimeLoop fr rest { tm with ss := v }
      | none => none
    | '%' =>
      match s with
      | '%' :: sr => strptimeLoop fr sr tm
      | _ => none
    | _ => none
  | ch :: fr, s, tm =>
    match s with
    | c2 :: sr => if c2 = ch then strptimeLoop fr sr tm else none
    | [] => none

/-- `time.strptime(s, fmt)` (modelled). -/
def strptime (s fmt : Str) : Option Tm :=
  strptimeLoop fmt s ⟨1900, 1, 1, 0, 0, 0⟩

/-- Model of `time.strftime(fmt, tm)` for the same directive set; the
characters of unknown directives are kept verbatim, as glibc does. -/
def strftime : Str → Tm → Str
  | [], _ => []
  | '%' :: c :: fr, tm =>
    (match c with
     | 'Y' => natStr tm.y
     | 'm' => natStrPad 2 tm.mon
     | 'd' => natStrPad 2 tm.mday
     | 'H' => natStrPad 2 tm.hh
     | 'M' => natStrPad 2 tm.mm
     | 'S' => natStrPad 2 tm.ss
     | '%' => ['%']
     | _ => ['%', c]) ++ strftime fr tm
  | ch :: fr, tm => ch :: strftime fr tm

/-! ### `util.str_to_time` and `util.time_to_str`

The claims fix the algorithmic (non-`util_ext`) path as the
specification of correctness, so that path is what is embedded. -/

/-- The exception kinds of the time-string parser.
`fracSecondsMissing` and `fracSecondsWrongNumberOfDigits` are the two
dedicated `TimeStrError` subclasses; `timeStrError` is the generic
wrapper raised around `strptime`/`timegm` failures; `valueError` is an
unwrapped `ValueError` escaping from `float()`. -/
inductive TimeErr where
  | fracSecondsMissing
  | fracSecondsWrongNumberOfDigits
  | timeStrError
  | valueError
deriving DecidableEq

/-- Inner loop of `util._endswith_n`: try each ending in order,
reporting its index. -/
def endswithNFrom (s : Str) (i : ℕ) : List Str → Option ℕ
  | [] => none
  | e :: es => if e.isSuffixOf s then some i else endswithNFrom s (i + 1) es

/-- `util._endswith_n(s, endings)` with `some index` for Python's
index and `none` for `-1`. -/
def endswithN (s : Str) (endings : List Str) : Option ℕ :=
  endswithNFrom s 0 endings

/-- The `fixed_endings` tuple of `str_to_time`. -/
def fixedEndings : List Str :=
  [".FRAC".toList, ".1FRAC".toList, ".2FRAC".toList, ".3FRAC".toList]

/-- Python `s.rfind(c)`: index of the last occurrence, `none` for
`-1`. -/
def rfind (s : Str) (c : Char) : Option ℕ :=
  match s.reverse.findIdx? (· == c) with
  | some r => some (s.length - 1 - r)
  | none => none

/-- Model of Python `float(x)` for the arguments `str_to_time` passes
to it: a dot followed by the fractional digits.  Anything else raises
`ValueError` (the model does not cover exponent forms, signs or
whitespace, which cannot reach this call site under the formats the
repository uses). -/
def parseDotFrac (s : Str) : Option ℚ :=
  match s with
  | '.' :: ds =>
    if ds ≠ [] ∧ ds.all (fun c => c.isDigit) then
      some ((parseNat ds : ℚ) / ((10 : ℚ) ^ ds.length))
    else none
  | _ => none

/-- The final `calendar.timegm(time.strptime(s, format)) + fracsec` of
`str_to_time`, with the surrounding `except ValueError` that converts
both `strptime` and `timegm` failures into `TimeStrError`. -/
def stCore (s fmt : Str) (fracsec : ℚ) : Except TimeErr ℚ :=
  match strptime s fmt with
  | none => .error .timeStrError
  | some tm =>
    match timegm tm with
    | none => .error .timeStrError
    | some T => .ok ((T : ℚ) + fracsec)

/-- `util.str_to_time(s, format)`, algorithmic path. -/
def str_to_time (s fmt : Str) : Except TimeErr ℚ :=
  match endswithN fmt fixedEndings with
  | some iend =>
    match rfind s '.' with
    | none => .error .fracSecondsMissing
    | some dotpos =>
      if iend > 0 ∧ iend ≠ s.length - dotpos - 1 then
        .error .fracSecondsWrongNumberOfDigits
      else
        match parseDotFrac (s.drop dotpos) with
        | none => .error .valueError
        | some fracsec =>
          stCore (s.take dotpos) (fmt.take (fmt.length - (fixedEndings.get! iend).length)) fracsec
  | none =>
    if (".OPTFRAC".toList).isSuffixOf fmt then
      let fmt2 := fmt.take (fmt.length - 8)
      match rfind s '.' with
      | none => stCore s fmt2 0
      | some dotpos =>
        if (s.drop dotpos).length > 1 then
          match parseDotFrac (s.drop dotpos) with
          | none => .error .valueError
          | some fracsec => stCore (s.take dotpos) fmt2 fracsec
        else stCore (s.take dotpos) fmt2 0
    else stCore s fmt 0

/-- Round half to even on rationals (the rounding of Python's
``%``-float formatting on the exactly-representable values the
theorems exercise). -/
def rhe (q : ℚ) : ℤ :=
  if Int.fract q < 1 / 2 then ⌊q⌋
  else if 1 / 2 < Int.fract q then ⌊q⌋ + 1
  else if ⌊q⌋ % 2 = 0 then ⌊q⌋ else ⌊q⌋ + 1

/-- Model of ``'%.xf' % tfrac`` for `0 ≤ tfrac < 1`: the rounded value
with `x` digits after the dot (so `"0.…"`, or `"1.0…0"` when rounding
carries). -/
def formatFrac (x : ℕ) (tfrac : ℚ) : Str :=
  let n := (rhe (tfrac * 10 ^ x)).toNat
  natStr (n / 10 ^ x) ++ '.' :: natStrPad x (n % 10 ^ x)

/-- First match of the pattern `\.[1-9]FRAC` in a format string:
position and the digit. -/
def reFracSearch : Str → Option (ℕ × ℕ)
  | '.' :: c :: 'F' :: 'R' :: 'A' :: 'C' :: rest =>
    if 49 ≤ c.toNat ∧ c.toNat ≤ 57 then some (0, charDigit c)
    else (reFracSearch (c :: 'F' :: 'R' :: 'A' :: 'C' :: rest)).map
      (fun p => (p.1 + 1, p.2))
  | _ :: rest => (reFracSearch rest).map (fun p => (p.1 + 1, p.2))
  | [] => none

/-- `util.time_to_str(t, format)`, algorithmic path (the integer
`format` shorthand is not used by any claim and is not embedded). -/
def time_to_str (t : ℚ) (fmt : Str) : Option Str :=
  let ts : ℤ := ⌊t⌋
  let tfrac : ℚ := t - (ts : ℚ)
  match reFracSearch fmt with
  | some (pos, x) =>
    let sfrac := formatFrac x tfrac
    let ts2 := if sfrac.head? = some '1' then ts + 1 else ts
    let fmt2 := fmt.take pos ++ sfrac.drop 1 ++ fmt.drop (pos + 6)
    (gmtime ts2).map (strftime fmt2)
  | none => (gmtime ts).map (strftime fmt)

/-! ### Claims C4 and C10: fractional-second handling of `str_to_time` -/

theorem suffix_of_append_suffix {F0 e1 e2 : Str} (hlen : e1.length ≤ e2.length)
    (h : e1 <:+ F0 ++ e2) : e1 <:+ e2 := by
  obtain ⟨u, hu⟩ := h
  have hlen2 : u.length + e1.length = F0.length + e2.length := by
    have h3 := congrArg List.length hu
    simpa using h3
  refine ⟨u.drop F0.length, ?_⟩
  have h2 := congrArg (List.drop F0.length) hu
  rw [List.drop_append_eq_append_drop, List.drop_append_eq_append_drop] at h2
  have hF0u : F0.length ≤ u.length := by omega
  rw [Nat.sub_eq_zero_of_le hF0u, List.drop_zero, Nat.sub_self, List.drop_zero,
    List.drop_length, List.nil_append] at h2
  exact h2

theorem isSuffixOf_append_self (F0 e : Str) : (e.isSuffixOf (F0 ++ e)) = true := by
  rw [List.isSuffixOf_iff_suffix]
  exact List.suffix_append F0 e

theorem isSuffixOf_append_false {F0 e1 e2 : Str} (hlen : e1.length ≤ e2.length)
    (hnot : ¬ e1 <:+ e2) : (e1.isSuffixOf (F0 ++ e2)) = false := by
  rw [Bool.eq_false_iff]
  intro hc
  exact hnot (suffix_of_append_suffix hlen (List.isSuffixOf_iff_suffix.mp hc))

theorem endswithN_fixed1 (F0 : Str) :
    endswithN (F0 ++ ".1FRAC".toList) fixedEndings = some 1 := by
  unfold endswithN fixedEndings
  rw [endswithNFrom, if_neg (by
    rw [isSuffixOf_append_false (by decide) (by decide)]; simp)]
  rw [endswithNFrom, if_pos (isSuffixOf_append_self F0 _)]

theorem endswithN_fixed2 (F0 : Str) :
    endswithN (F0 ++ ".2FRAC".toList) fixedEndings = some 2 := by
  unfold endswithN fixedEndings
  rw [endswithNFrom, if_neg (by
    rw [isSuffixOf_append_false (by decide) (by decide)]; simp)]
  rw [endswithNFrom, if_neg (by
    rw [isSuffixOf_append_false (by decide) (by decide)]; simp)]
  rw [endswithNFrom, if_pos (isSuffixOf_append_self F0 _)]

theorem endswithN_fixed3 (F0 : Str) :
    endswithN (F0 ++ ".3FRAC".toList) fixedEndings = some 3 := by
  unfold endswithN fixedEndings
  rw [endswithNFrom, if_neg (by
    rw [isSuffixOf_append_false (by decide) (by decide)]; simp)]
  rw [endswithNFrom, if_neg (by
    rw [isSuffixOf_append_false (by decide) (by decide)]; simp)]
  rw [endswithNFrom, if_neg (by
    rw [isSuffixOf_append_false (by decide) (by decide)]; simp)]
  rw [endswithNFrom, if_pos (isSuffixOf_append_self F0 _)]

theorem endswithN_fixed0 (F0 : Str) :
    endswithN (F0 ++ ".FRAC".toList) fixedEndings = some 0 := by
  unfold endswithN fixedEndings
  rw [endswithNFrom, if_pos (isSuffixOf_append_self F0 _)]

theorem endswithN_optfrac (F0 : Str) :
    endswithN (F0 ++ ".OPTFRAC".toList) fixedEndings = none := by
  unfold endswithN fixedEndings
  rw [endswithNFrom, if_neg (by
    rw [isSuffixOf_append_false (by decide) (by decide)]; simp)]
  rw [endswithNFrom, if_neg (by
    rw [isSuffixOf_append_false (by decide) (by decide)]; simp)]
  rw [endswithNFrom, if_neg (by
    rw [isSuffixOf_append_false (by decide) (by decide)]; simp)]
  rw [endswithNFrom, if_neg (by
    rw [isSuffixOf_append_false (by decide) (by decide)]; simp)]
  rfl

theorem rfind_none_iff {s : Str} {c : Char} : rfind s c = none ↔ c ∉ s := by
  unfold rfind
  constructor
  · intro h hc
    cases hfi : s.reverse.findIdx? (· == c) with
    | none =>
      rw [List.findIdx?_eq_none_iff] at hfi
      have h2 := hfi c (List.mem_reverse.mpr hc)
      simp at h2
    | some r => rw [hfi] at h; cases h
  · intro hc
    have hnone : s.reverse.findIdx? (· == c) = none := by
      rw [List.findIdx?_eq_none_iff]
      intro x hx
      simp only [beq_eq_false_iff_ne, ne_eq]
      rintro rfl
      exact hc (List.mem_reverse.mp hx)
    rw [hnone]

theorem rfind_append_dot (s : Str) : rfind (s ++ ['.']) '.' = some s.length := by
  unfold rfind
  rw [List.reverse_append]
  simp only [List.reverse_cons, List.reverse_nil, List.nil_append, List.cons_append,
    List.singleton_append]
  rw [List.findIdx?_cons]
  simp only [beq_self_eq_true, cond_true]
  simp

/-- Claim C4: with a format ending in `.nFRAC` (`n` in 1..3), a string
containing a dot but with a number of characters after the last dot
different from `n` fails with `FractionalSecondsWrongNumberOfDigits`;
with a format ending in `.FRAC`, `.1FRAC`, `.2FRAC` or `.3FRAC`, a
string containing no dot fails with `FractionalSecondsMissing`. -/
theorem str_to_time_frac_errors :
    (∀ (s F0 : Str) (n dotpos : ℕ), n = 1 ∨ n = 2 ∨ n = 3 →
      rfind s '.' = some dotpos → s.length - dotpos - 1 ≠ n →
      str_to_time s (F0 ++ fixedEndings.get! n) =
        .error .fracSecondsWrongNumberOfDigits) ∧
    (∀ (s F0 : Str) (n : ℕ), n < 4 → rfind s '.' = none →
      str_to_time s (F0 ++ fixedEndings.get! n) = .error .fracSecondsMissing) := by
  constructor
  · intro s F0 n dotpos hn hdot hne
    unfold str_to_time
    have hend : endswithN (F0 ++ fixedEndings.get! n) fixedEndings = some n := by
      rcases hn with rfl | rfl | rfl
      · exact endswithN_fixed1 F0
      · exact endswithN_fixed2 F0
      · exact endswithN_fixed3 F0
    simp only [hend, hdot]
    rw [if_pos ⟨by omega, Ne.symm hne⟩]
  · intro s F0 n hn hdot
    unfold str_to_time
    have hend : endswithN (F0 ++ fixedEndings.get! n) fixedEndings = some n := by
      interval_cases n
      · exact endswithN_fixed0 F0
      · exact endswithN_fixed1 F0
      · exact endswithN_fixed2 F0
      · exact endswithN_fixed3 F0
    simp only [hend, hdot]

/-- Witness for `str_to_time_frac_errors`: the spec's own examples,
`"2020-01-02T03:04:05.12"` against a `.1FRAC` format and
`"2020-01-02T03:04:05"` against a `.FRAC` format. -/
theorem str_to_time_frac_errors_witness :
    str_to_time ("2020-01-02T03:04:05.12".toList)
      ("%Y-%m-%dT%H:%M:%S".toList ++ fixedEndings.get! 1) =
      .error .fracSecondsWrongNumberOfDigits ∧
    str_to_time ("2020-01-02T03:04:05".toList)
      ("%Y-%m-%dT%H:%M:%S".toList ++ fixedEndings.get! 0) =
      .error .fracSecondsMissing :=
  ⟨str_to_time_frac_errors.1 ("2020-01-02T03:04:05.12".toList)
      ("%Y-%m-%dT%H:%M:%S".toList) 1 19 (Or.inl rfl) (by rfl) (by decide),
    str_to_time_frac_errors.2 ("2020-01-02T03:04:05".toList)
      ("%Y-%m-%dT%H:%M:%S".toList) 0 (by omega) (by rfl)⟩

/-- Claim C10: with a format ending in `.OPTFRAC`, a string whose last
character is a dot parses as the same string without the trailing dot
and a fractional-second contribution of exactly zero (no failure on
the fractional part); the concrete conjunct shows a successful
end-to-end parse. -/
theorem str_to_time_optfrac_trailing_dot :
    (∀ (s F0 : Str),
      str_to_time (s ++ ['.']) (F0 ++ ".OPTFRAC".toList) = stCore s F0 0) ∧
    str_to_time ("2020-01-02 03:04:05.".toList)
      ("%Y-%m-%d %H:%M:%S.OPTFRAC".toList) = .ok 1577934245 := by
  have hgen : ∀ (s F0 : Str),
      str_to_time (s ++ ['.']) (F0 ++ ".OPTFRAC".toList) = stCore s F0 0 := by
    intro s F0
    have hdrop : (s ++ ['.']).drop s.length = ['.'] := by
      rw [List.drop_append_eq_append_drop, List.drop_length, Nat.sub_self,
        List.drop_zero, List.nil_append]
    have htake : (s ++ ['.']).take s.length = s := List.take_left s ['.']
    have htakef : (F0 ++ ".OPTFRAC".toList).take
        ((F0 ++ ".OPTFRAC".toList).length - 8) = F0 := by
      rw [List.length_append]
      have h8 : (".OPTFRAC".toList).length = 8 := by decide
      rw [h8, Nat.add_sub_cancel]
      exact List.take_left F0 _
    unfold str_to_time
    simp only [endswithN_optfrac F0, isSuffixOf_append_self, if_true,
      rfind_append_dot s, hdrop, htake, htakef, List.length_singleton]
    rw [if_neg (by omega)]
  refine ⟨hgen, ?_⟩
  have hs : "2020-01-02 03:04:05.".toList
      = "2020-01-02 03:04:05".toList ++ ['.'] := by decide
  have hf : "%Y-%m-%d %H:%M:%S.OPTFRAC".toList
      = "%Y-%m-%d %H:%M:%S".toList ++ ".OPTFRAC".toList := by decide
  rw [hs, hf, hgen]
  unfold stCore
  simp only [show strptime ("2020-01-02 03:04:05".toList) ("%Y-%m-%d %H:%M:%S".toList)
      = some ⟨2020, 1, 2, 3, 4, 5⟩ from by decide,
    show timegm ⟨2020, 1, 2, 3, 4, 5⟩ = some 1577934245 from by decide]
  norm_num

/-! ### Calendar round-trip lemmas -/

theorem yearDays_ge (y : ℕ) : 365 ≤ yearDays y := by
  unfold yearDays
  split <;> omega

theorem yearDays_le (y : ℕ) : yearDays y ≤ 366 := by
  unfold yearDays
  split <;> omega

/-- Total days of the `k` consecutive years starting at year `y0`. -/
def yearsSpan (y0 : ℕ) : ℕ → ℕ
  | 0 => 0
  | k + 1 => yearsSpan y0 k + yearDays (y0 + k)

theorem yearsSpan_head (y0 : ℕ) : ∀ (k : ℕ),
    yearsSpan y0 (k + 1) = yearDays y0 + yearsSpan (y0 + 1) k
  | 0 => by simp [yearsSpan]
  | k + 1 => by
    rw [show yearsSpan y0 (k + 1 + 1) = yearsSpan y0 (k + 1) + yearDays (y0 + (k + 1))
        from rfl,
      yearsSpan_head y0 k,
      show yearsSpan (y0 + 1) (k + 1) = yearsSpan (y0 + 1) k + yearDays (y0 + 1 + k)
        from rfl]
    have he : y0 + (k + 1) = y0 + 1 + k := by omega
    rw [he]
    omega

theorem yearsSpan_daysUpTo (y0 : ℕ) (h1 : 1 ≤ y0) : ∀ (k : ℕ),
    yearsSpan y0 k = daysUpTo (y0 - 1 + k) - daysUpTo (y0 - 1)
  | 0 => by simp [yearsSpan]
  | k + 1 => by
    rw [show yearsSpan y0 (k + 1) = yearsSpan y0 k + yearDays (y0 + k) from rfl,
      yearsSpan_daysUpTo y0 h1 k]
    have h2 : y0 - 1 + (k + 1) = (y0 - 1 + k) + 1 := by omega
    rw [h2, daysUpTo_succ]
    have h3 : y0 - 1 + k + 1 = y0 + k := by omega
    rw [h3]
    have h4 : daysUpTo (y0 - 1) ≤ daysUpTo (y0 - 1 + k) := by
      clear h2 h3
      induction k with
      | zero => simp
      | succ k ih =>
        have h5 : y0 - 1 + (k + 1) = (y0 - 1 + k) + 1 := by omega
        rw [h5, daysUpTo_succ]
        omega
    omega

theorem yearsSpan_mono (y0 : ℕ) {a b : ℕ} (h : a ≤ b) :
    yearsSpan y0 a ≤ yearsSpan y0 b := by
  induction b with
  | zero => simp_all
  | succ b ih =>
    rcases Nat.lt_or_ge a (b + 1) with h2 | h2
    · have h3 := ih (by omega)
      rw [show yearsSpan y0 (b + 1) = yearsSpan y0 b + yearDays (y0 + b) from rfl]
      omega
    · have h3 : a = b + 1 := by omega
      subst h3
      exact le_refl _

theorem findYear_forward : ∀ (k y0 r : ℕ), r < yearDays (y0 + k) →
    findYear y0 (yearsSpan y0 k + r) = (y0 + k, r)
  | 0, y0, r, h => by
    rw [findYear]
    rw [dif_pos (by simpa [yearsSpan] using h)]
    simp [yearsSpan]
  | k + 1, y0, r, h => by
    rw [findYear]
    rw [yearsSpan_head y0 k]
    have hge : ¬ (yearDays y0 + yearsSpan (y0 + 1) k + r < yearDays y0) := by omega
    rw [dif_neg hge]
    have harg : yearDays y0 + yearsSpan (y0 + 1) k + r - yearDays y0
        = yearsSpan (y0 + 1) k + r := by omega
    rw [harg]
    have hr : r < yearDays (y0 + 1 + k) := by
      have he : y0 + 1 + k = y0 + (k + 1) := by omega
      rw [he]; exact h
    rw [findYear_forward k (y0 + 1) r hr]
    refine congrArg (fun z => (z, r)) (by omega)

theorem findYear_backward (d : ℕ) : ∀ (y0 : ℕ),
    y0 ≤ (findYear y0 d).1 ∧ (findYear y0 d).2 < yearDays (findYear y0 d).1 ∧
      yearsSpan y0 ((findYear y0 d).1 - y0) + (findYear y0 d).2 = d := by
  induction d using Nat.strong_induction_on with
  | _ d ih =>
    intro y0
    rw [findYear]
    by_cases h : d < yearDays y0
    · rw [dif_pos h]
      simpa [yearsSpan] using h
    · rw [dif_neg h]
      have hlt : d - yearDays y0 < d := by
        have := yearDays_ge y0
        omega
      obtain ⟨h1, h2, h3⟩ := ih (d - yearDays y0) hlt (y0 + 1)
      refine ⟨by omega, h2, ?_⟩
      have hk : (findYear (y0 + 1) (d - yearDays y0)).1 - y0
          = ((findYear (y0 + 1) (d - yearDays y0)).1 - (y0 + 1)) + 1 := by omega
      rw [hk, yearsSpan_head]
      have hky : y0 + 1 + ((findYear (y0 + 1) (d - yearDays y0)).1 - (y0 + 1))
          = (findYear (y0 + 1) (d - yearDays y0)).1 := by omega
      omega

theorem daysBeforeMonth_mono (leap : Bool) {a b : ℕ} (h : a ≤ b) :
    daysBeforeMonth leap a ≤ daysBeforeMonth leap b := by
  induction b with
  | zero => simp_all
  | succ b ih =>
    rcases Nat.lt_or_ge a (b + 1) with h2 | h2
    · have h3 := ih (by omega)
      rw [show daysBeforeMonth leap (b + 1)
          = daysBeforeMonth leap b + monthDays leap b from rfl]
      omega
    · have h3 : a = b + 1 := by omega
      subst h3
      exact le_refl _

/-- `yearDays` through the leap flag: the months of a year sum to its
length. -/
theorem daysBeforeMonth_full (leap : Bool) :
    daysBeforeMonth leap 12 + monthDays leap 12
      = (if leap then 366 else 365) := by
  cases leap <;> decide

theorem monthDays_pos (leap : Bool) {m : ℕ} (h1 : 1 ≤ m) (h2 : m ≤ 12) :
    1 ≤ monthDays leap m := by
  interval_cases m <;> cases leap <;> decide

theorem findMonth_forward (leap : Bool) : ∀ (gap mon i r : ℕ), 1 ≤ i → i ≤ mon →
    mon ≤ 12 → mon - i = gap → r < monthDays leap mon →
    findMonth leap i (daysBeforeMonth leap mon - daysBeforeMonth leap i + r)
      = (mon, r)
  | 0, mon, i, r, h1, h2, h3, hgap, hr => by
    have he : i = mon := by omega
    subst he
    rw [findMonth, Nat.sub_self, Nat.zero_add]
    by_cases h12 : 12 ≤ i
    · rw [if_pos h12]
    · rw [if_neg h12, if_pos hr]
  | gap + 1, mon, i, r, h1, h2, h3, hgap, hr => by
    have hi12 : ¬ 12 ≤ i := by omega
    have hmono : daysBeforeMonth leap (i + 1) ≤ daysBeforeMonth leap mon :=
      daysBeforeMonth_mono leap (by omega)
    have hstep : daysBeforeMonth leap (i + 1)
        = daysBeforeMonth leap i + monthDays leap i := rfl
    rw [findMonth, if_neg hi12, if_neg (by omega)]
    have harg : daysBeforeMonth leap mon - daysBeforeMonth leap i + r
          - monthDays leap i
        = daysBeforeMonth leap mon - daysBeforeMonth leap (i + 1) + r := by
      omega
    rw [harg]
    exact findMonth_forward leap gap mon (i + 1) r (by omega) (by omega) h3
      (by omega) hr

theorem findMonth_backward (leap : Bool) : ∀ (gap i d : ℕ), 1 ≤ i → i ≤ 12 →
    12 - i = gap →
    daysBeforeMonth leap i + d < daysBeforeMonth leap 12 + monthDays leap 12 →
    i ≤ (findMonth leap i d).1 ∧ (findMonth leap i d).1 ≤ 12 ∧
      (findMonth leap i d).2 < monthDays leap (findMonth leap i d).1 ∧
      daysBeforeMonth leap (findMonth leap i d).1 + (findMonth leap i d).2
        = daysBeforeMonth leap i + d
  | 0, i, d, h1, h2, hgap, hbound => by
    have he : i = 12 := by omega
    subst he
    rw [findMonth, if_pos (le_refl 12)]
    refine ⟨le_refl 12, le_refl 12, show d < monthDays leap 12 by omega, rfl⟩
  | gap + 1, i, d, h1, h2, hgap, hbound => by
    have hi12 : ¬ 12 ≤ i := by omega
    rw [findMonth, if_neg hi12]
    by_cases hd : d < monthDays leap i
    · rw [if_pos hd]
      exact ⟨le_refl i, by omega, hd, rfl⟩
    · rw [if_neg hd]
      have hstep : daysBeforeMonth leap (i + 1)
          = daysBeforeMonth leap i + monthDays leap i := rfl
      obtain ⟨h3, h4, h5, h6⟩ := findMonth_backward leap gap (i + 1)
        (d - monthDays leap i) (by omega) (by omega) (by omega) (by omega)
      exact ⟨by omega, h4, h5, by omega⟩

theorem daysUpTo_add_yearsSpan (y0 : ℕ) (h1 : 1 ≤ y0) : ∀ (k : ℕ),
    daysUpTo (y0 - 1 + k) = daysUpTo (y0 - 1) + yearsSpan y0 k
  | 0 => by simp [yearsSpan]
  | k + 1 => by
    have h2 : y0 - 1 + (k + 1) = (y0 - 1 + k) + 1 := by omega
    rw [h2, daysUpTo_succ, daysUpTo_add_yearsSpan y0 h1 k,
      show yearsSpan y0 (k + 1) = yearsSpan y0 k + yearDays (y0 + k) from rfl,
      show y0 - 1 + k + 1 = y0 + k from by omega]
    omega

/-- A `struct_time` in the validity range of the round-trip theorems:
a real calendar date from 1970 on, with in-range time of day. -/
def ValidTm (tm : Tm) : Prop :=
  1970 ≤ tm.y ∧ tm.y ≤ 9999 ∧ 1 ≤ tm.mon ∧ tm.mon ≤ 12 ∧
    1 ≤ tm.mday ∧ tm.mday ≤ monthDays (isLeap tm.y) tm.mon ∧
    tm.hh ≤ 23 ∧ tm.mm ≤ 59 ∧ tm.ss ≤ 59

/-- The day-of-year of a valid date is within its year. -/
theorem doy_lt_yearDays {y mon mday : ℕ} (h3 : 1 ≤ mon) (h4 : mon ≤ 12)
    (h5 : 1 ≤ mday) (h6 : mday ≤ monthDays (isLeap y) mon) :
    daysBeforeMonth (isLeap y) mon + mday - 1 < yearDays y := by
  have hm : daysBeforeMonth (isLeap y) mon + monthDays (isLeap y) mon
      ≤ daysBeforeMonth (isLeap y) 12 + monthDays (isLeap y) 12 := by
    rcases Nat.lt_or_ge mon 12 with h7 | h7
    · have h8 : daysBeforeMonth (isLeap y) (mon + 1)
          ≤ daysBeforeMonth (isLeap y) 12 := daysBeforeMonth_mono _ (by omega)
      have h9 : daysBeforeMonth (isLeap y) (mon + 1)
          = daysBeforeMonth (isLeap y) mon + monthDays (isLeap y) mon := rfl
      omega
    · have h8 : mon = 12 := by omega
      subst h8
      exact le_refl _
  have hfull := daysBeforeMonth_full (isLeap y)
  have hyd : yearDays y = if isLeap y then 366 else 365 := rfl
  omega

theorem timegm_valid {tm : Tm} (h : ValidTm tm) :
    timegm tm = some
      (((86400 * (yearsSpan 1970 (tm.y - 1970)
          + (daysBeforeMonth (isLeap tm.y) tm.mon + tm.mday - 1))
        + (3600 * tm.hh + 60 * tm.mm + tm.ss) : ℕ) : ℤ)) := by
  obtain ⟨y, mon, mday, hh, mm, ss⟩ := tm
  obtain ⟨h1, h2, h3, h4, h5, h6, h7, h8, h9⟩ := h
  simp only at h1 h2 h3 h4 h5 h6 h7 h8 h9
  unfold timegm
  dsimp only
  rw [if_pos ⟨by omega, h2, h3, h4⟩]
  congr 1
  have hspan : daysUpTo (y - 1) = daysUpTo 1969 + yearsSpan 1970 (y - 1970) := by
    have hs := daysUpTo_add_yearsSpan 1970 (by omega) (y - 1970)
    norm_num at hs
    rwa [show 1969 + (y - 1970) = y - 1 from by omega] at hs
  push_cast
  omega

theorem gmtime_timegm {tm : Tm} (h : ValidTm tm) :
    ∃ T : ℤ, timegm tm = some T ∧ 0 ≤ T ∧ gmtime T = some tm := by
  have htg := timegm_valid h
  obtain ⟨y, mon, mday, hh, mm, ss⟩ := tm
  obtain ⟨h1, h2, h3, h4, h5, h6, h7, h8, h9⟩ := h
  simp only at h1 h2 h3 h4 h5 h6 h7 h8 h9 htg
  set r : ℕ := daysBeforeMonth (isLeap y) mon + mday - 1 with hr
  set D : ℕ := yearsSpan 1970 (y - 1970) + r with hD
  set sod : ℕ := 3600 * hh + 60 * mm + ss with hsod
  refine ⟨((86400 * D + sod : ℕ) : ℤ), htg, Int.natCast_nonneg _, ?_⟩
  unfold gmtime
  rw [if_neg (not_lt.mpr (Int.natCast_nonneg _))]
  have hn : ((86400 * D + sod : ℕ) : ℤ).toNat = 86400 * D + sod := Int.toNat_natCast _
  rw [hn]
  dsimp only
  have hsodlt : sod < 86400 := by omega
  have hdays : (86400 * D + sod) / 86400 = D := by omega
  have hmod : (86400 * D + sod) % 86400 = sod := by omega
  rw [hdays, hmod]
  have hrlt : r < yearDays y := by
    rw [hr]
    exact doy_lt_yearDays h3 h4 h5 h6
  have hfy : findYear 1970 D = (y, r) := by
    rw [hD]
    have hy : 1970 + (y - 1970) = y := by omega
    have := findYear_forward (y - 1970) 1970 r (by rw [hy]; exact hrlt)
    rw [hy] at this
    exact this
  rw [hfy]
  have hfm : findMonth (isLeap y) 1 r = (mon, mday - 1) := by
    have hdbm1 : daysBeforeMonth (isLeap y) 1 = 0 := rfl
    have harg : r = daysBeforeMonth (isLeap y) mon
        - daysBeforeMonth (isLeap y) 1 + (mday - 1) := by
      rw [hdbm1]; omega
    rw [harg]
    exact findMonth_forward (isLeap y) (mon - 1) mon 1 (mday - 1) (by omega) h3
      h4 (by omega) (by omega)
  rw [hfm]
  simp only [Option.some.injEq, Tm.mk.injEq]
  refine ⟨trivial, trivial, by omega, by omega, by omega, by omega⟩

/-- Seconds since the epoch at which year `y` (≥ 1970) starts. -/
def secsToYear (y : ℕ) : ℕ := 86400 * (daysUpTo (y - 1) - daysUpTo 1969)

/-- Seconds since the epoch at which month `mon` of year `y` starts. -/
def monthStartSec (y mon : ℕ) : ℕ :=
  86400 * (yearsSpan 1970 (y - 1970) + daysBeforeMonth (isLeap y) mon)

/-- Seconds since the epoch at which year `y` starts (via `yearsSpan`). -/
def yearStartSec (y : ℕ) : ℕ := 86400 * yearsSpan 1970 (y - 1970)

theorem secsToYear_eq {y : ℕ} (h : 1970 ≤ y) : secsToYear y = yearStartSec y := by
  unfold secsToYear yearStartSec
  have hs := daysUpTo_add_yearsSpan 1970 (by omega) (y - 1970)
  norm_num at hs
  rw [show 1969 + (y - 1970) = y - 1 from by omega] at hs
  omega

/-- Decomposition of an arbitrary non-negative timestamp by `gmtime`. -/
theorem gmtime_spec (n : ℕ) :
    ∃ tm : Tm, gmtime ((n : ℕ) : ℤ) = some tm ∧ 1970 ≤ tm.y ∧
      1 ≤ tm.mon ∧ tm.mon ≤ 12 ∧ 1 ≤ tm.mday ∧
      tm.mday ≤ monthDays (isLeap tm.y) tm.mon ∧
      tm.hh ≤ 23 ∧ tm.mm ≤ 59 ∧ tm.ss ≤ 59 ∧
      yearsSpan 1970 (tm.y - 1970)
        + (daysBeforeMonth (isLeap tm.y) tm.mon + tm.mday - 1) = n / 86400 ∧
      3600 * tm.hh + 60 * tm.mm + tm.ss = n % 86400 := by
  obtain ⟨hy1, hylt, hspan⟩ := findYear_backward (n / 86400) 1970
  set yr := findYear 1970 (n / 86400) with hyr
  have hbound : daysBeforeMonth (isLeap yr.1) 1 + yr.2
      < daysBeforeMonth (isLeap yr.1) 12 + monthDays (isLeap yr.1) 12 := by
    have hfull := daysBeforeMonth_full (isLeap yr.1)
    have hyd : yearDays yr.1 = if isLeap yr.1 then 366 else 365 := rfl
    have hdbm1 : daysBeforeMonth (isLeap yr.1) 1 = 0 := rfl
    omega
  obtain ⟨hm1, hm2, hm3, hm4⟩ := findMonth_backward (isLeap yr.1) 11 1 yr.2
    (by omega) (by omega) (by omega) hbound
  set mr := findMonth (isLeap yr.1) 1 yr.2 with hmr
  have hgm : gmtime ((n : ℕ) : ℤ) = some ⟨yr.1, mr.1, mr.2 + 1, n % 86400 / 3600,
      n % 86400 % 3600 / 60, n % 86400 % 60⟩ := by
    unfold gmtime
    rw [if_neg (not_lt.mpr (Int.natCast_nonneg _))]
    rw [Int.toNat_natCast]
  have ha : 1 ≤ mr.2 + 1 := by omega
  have hb : mr.2 + 1 ≤ monthDays (isLeap yr.1) mr.1 := by omega
  have hc : n % 86400 / 3600 ≤ 23 := by omega
  have hd2 : n % 86400 % 3600 / 60 ≤ 59 := by omega
  have he2 : n % 86400 % 60 ≤ 59 := by omega
  have hf2 : yearsSpan 1970 (yr.1 - 1970)
      + (daysBeforeMonth (isLeap yr.1) mr.1 + (mr.2 + 1) - 1) = n / 86400 := by
    have hdbm1 : daysBeforeMonth (isLeap yr.1) 1 = 0 := rfl
    omega
  have hg2 : 3600 * (n % 86400 / 3600) + 60 * (n % 86400 % 3600 / 60)
      + n % 86400 % 60 = n % 86400 := by omega
  exact ⟨_, hgm, hy1, hm1, hm2, ha, hb, hc, hd2, he2, hf2, hg2⟩

/-- Below the start of year `ybound`, `gmtime` years stay below
`ybound`. -/
theorem gmtime_year_lt {n ybound : ℕ} (hy : 1970 ≤ ybound)
    (hn : n < 86400 * yearsSpan 1970 (ybound - 1970)) {tm : Tm}
    (hg : gmtime ((n : ℕ) : ℤ) = some tm) : tm.y < ybound := by
  obtain ⟨tm2, hg2, h1, h2, h3, h4, h5, h6, h7, h8, h9, h10⟩ := gmtime_spec n
  rw [hg2] at hg
  injection hg with hg
  subst hg
  by_contra hc
  push_neg at hc
  have hmono : yearsSpan 1970 (ybound - 1970) ≤ yearsSpan 1970 (tm2.y - 1970) :=
    yearsSpan_mono 1970 (by omega)
  have hle : yearsSpan 1970 (tm2.y - 1970) ≤ n / 86400 := by omega
  have hd : n / 86400 < yearsSpan 1970 (ybound - 1970) := by omega
  omega

theorem pyTrunc_natCast (n : ℕ) : pyTrunc ((n : ℕ) : ℚ) = (n : ℤ) := by
  unfold pyTrunc
  rw [if_pos (by positivity)]
  exact_mod_cast Int.floor_natCast n

theorem pyTrunc_nonneg_floor {q : ℚ} (h : 0 ≤ q) : pyTrunc q = ⌊q⌋ := by
  unfold pyTrunc
  rw [if_pos h]

/-- `day_start` on a non-negative rational below the year-10000 line:
flooring to the day boundary. -/
theorem day_start_eq {q : ℚ} (h0 : 0 ≤ q)
    (hb : q < ((86400 * yearsSpan 1970 8030 : ℕ) : ℚ)) :
    day_start q = some (((86400 * (⌊q⌋.toNat / 86400) : ℕ) : ℚ)) := by
  set n : ℕ := ⌊q⌋.toNat with hn
  have hfl : pyTrunc q = (n : ℤ) := by
    rw [pyTrunc_nonneg_floor h0, hn]
    exact (Int.toNat_of_nonneg (Int.floor_nonneg.mpr h0)).symm
  have hnb : n < 86400 * yearsSpan 1970 8030 := by
    have h2 : ((n : ℕ) : ℚ) ≤ q := by
      rw [hn]
      have h4 : ((⌊q⌋.toNat : ℤ) : ℚ) ≤ q := by
        rw [Int.toNat_of_nonneg (Int.floor_nonneg.mpr h0)]
        exact Int.floor_le q
      exact_mod_cast h4
    by_contra hc
    push_neg at hc
    have h3 : ((86400 * yearsSpan 1970 8030 : ℕ) : ℚ) ≤ ((n : ℕ) : ℚ) := by
      exact_mod_cast hc
    linarith
  obtain ⟨tm, hg, h1, h2, h3, h4, h5, h6, h7, h8, h9, h10⟩ := gmtime_spec n
  have hylt : tm.y < 10000 := gmtime_year_lt (by omega) (by norm_num; omega) hg
  unfold day_start
  rw [hfl, hg]
  have hvalid : ValidTm { tm with hh := 0, mm := 0, ss := 0 } :=
    ⟨h1, show tm.y ≤ 9999 from by omega, h2, h3, h4, h5,
      show (0 : ℕ) ≤ 23 from by omega, show (0 : ℕ) ≤ 59 from by omega,
      show (0 : ℕ) ≤ 59 from by omega⟩
  have htv := timegm_valid hvalid
  rw [Option.bind_eq_bind, Option.some_bind, htv]
  simp only [Option.some_bind, Option.pure_def, Option.some.injEq]
  rw [← h9]
  push_cast
  rw [Option.bind_eq_bind, Option.some_bind]
  congr 1
  push_cast
  ring

theorem monthDays_le (leap : Bool) {m : ℕ} (h1 : 1 ≤ m) (h2 : m ≤ 12) :
    monthDays leap m ≤ 31 := by
  interval_cases m <;> cases leap <;> decide

theorem monthDays_ge (leap : Bool) {m : ℕ} (h1 : 1 ≤ m) (h2 : m ≤ 12) :
    28 ≤ monthDays leap m := by
  interval_cases m <;> cases leap <;> decide

/-- `month_start` at the exact timestamp of midnight of day `d` of a
valid month: the month's start. -/
theorem month_start_at_exact {y mon d : ℕ} (h1 : 1970 ≤ y) (h2 : y ≤ 9999)
    (h3 : 1 ≤ mon) (h4 : mon ≤ 12) (h5 : 1 ≤ d)
    (h6 : d ≤ monthDays (isLeap y) mon) :
    month_start (((monthStartSec y mon + 86400 * (d - 1) : ℕ) : ℚ)) =
      some ((monthStartSec y mon : ℕ) : ℚ) := by
  have hvalid : ValidTm ⟨y, mon, d, 0, 0, 0⟩ :=
    ⟨h1, h2, h3, h4, h5, h6, show (0 : ℕ) ≤ 23 from by omega,
      show (0 : ℕ) ≤ 59 from by omega, show (0 : ℕ) ≤ 59 from by omega⟩
  have htv := timegm_valid hvalid
  have hval : 86400 * (yearsSpan 1970 ((⟨y, mon, d, 0, 0, 0⟩ : Tm).y - 1970)
      + (daysBeforeMonth (isLeap (⟨y, mon, d, 0, 0, 0⟩ : Tm).y)
          (⟨y, mon, d, 0, 0, 0⟩ : Tm).mon + (⟨y, mon, d, 0, 0, 0⟩ : Tm).mday - 1))
      + (3600 * (⟨y, mon, d, 0, 0, 0⟩ : Tm).hh + 60 * (⟨y, mon, d, 0, 0, 0⟩ : Tm).mm
        + (⟨y, mon, d, 0, 0, 0⟩ : Tm).ss)
      = monthStartSec y mon + 86400 * (d - 1) := by
    show 86400 * (yearsSpan 1970 (y - 1970)
        + (daysBeforeMonth (isLeap y) mon + d - 1)) + (3600 * 0 + 60 * 0 + 0)
      = monthStartSec y mon + 86400 * (d - 1)
    unfold monthStartSec
    omega
  rw [hval] at htv
  obtain ⟨T, hT1, hT2, hT3⟩ := gmtime_timegm hvalid
  rw [htv] at hT1
  injection hT1 with hT1
  subst hT1
  unfold month_start
  rw [pyTrunc_natCast, hT3]
  have hvalid2 : ValidTm ⟨y, mon, 1, 0, 0, 0⟩ :=
    ⟨h1, h2, h3, h4, show (1 : ℕ) ≤ 1 from by omega,
      monthDays_pos (isLeap y) h3 h4, show (0 : ℕ) ≤ 23 from by omega,
      show (0 : ℕ) ≤ 59 from by omega, show (0 : ℕ) ≤ 59 from by omega⟩
  have htv2 := timegm_valid hvalid2
  have hval2 : 86400 * (yearsSpan 1970 ((⟨y, mon, 1, 0, 0, 0⟩ : Tm).y - 1970)
      + (daysBeforeMonth (isLeap (⟨y, mon, 1, 0, 0, 0⟩ : Tm).y)
          (⟨y, mon, 1, 0, 0, 0⟩ : Tm).mon + (⟨y, mon, 1, 0, 0, 0⟩ : Tm).mday - 1))
      + (3600 * (⟨y, mon, 1, 0, 0, 0⟩ : Tm).hh + 60 * (⟨y, mon, 1, 0, 0, 0⟩ : Tm).mm
        + (⟨y, mon, 1, 0, 0, 0⟩ : Tm).ss)
      = monthStartSec y mon := by
    show 86400 * (yearsSpan 1970 (y - 1970)
        + (daysBeforeMonth (isLeap y) mon + 1 - 1)) + (3600 * 0 + 60 * 0 + 0)
      = monthStartSec y mon
    unfold monthStartSec
    omega
  rw [hval2] at htv2
  have hm : (⟨y, mon, d, 0, 0, 0⟩ : Tm) = { (⟨y, mon, d, 0, 0, 0⟩ : Tm) with
      mday := 1, hh := 0, mm := 0, ss := 0 } → True := fun _ => trivial
  rw [Option.bind_eq_bind, Option.some_bind]
  show (timegm ⟨y, mon, 1, 0, 0, 0⟩).bind (fun r => pure ((r : ℚ))) = _
  rw [htv2]
  rfl

/-- `year_start` at the exact timestamp of midnight of a valid date:
the year's start. -/
theorem year_start_at_exact {y mon d : ℕ} (h1 : 1970 ≤ y) (h2 : y ≤ 9999)
    (h3 : 1 ≤ mon) (h4 : mon ≤ 12) (h5 : 1 ≤ d)
    (h6 : d ≤ monthDays (isLeap y) mon) :
    year_start (((yearStartSec y
        + 86400 * (daysBeforeMonth (isLeap y) mon + (d - 1)) : ℕ) : ℚ)) =
      some ((yearStartSec y : ℕ) : ℚ) := by
  have hvalid : ValidTm ⟨y, mon, d, 0, 0, 0⟩ :=
    ⟨h1, h2, h3, h4, h5, h6, show (0 : ℕ) ≤ 23 from by omega,
      show (0 : ℕ) ≤ 59 from by omega, show (0 : ℕ) ≤ 59 from by omega⟩
  have htv := timegm_valid hvalid
  have hval : 86400 * (yearsSpan 1970 ((⟨y, mon, d, 0, 0, 0⟩ : Tm).y - 1970)
      + (daysBeforeMonth (isLeap (⟨y, mon, d, 0, 0, 0⟩ : Tm).y)
          (⟨y, mon, d, 0, 0, 0⟩ : Tm).mon + (⟨y, mon, d, 0, 0, 0⟩ : Tm).mday - 1))
      + (3600 * (⟨y, mon, d, 0, 0, 0⟩ : Tm).hh + 60 * (⟨y, mon, d, 0, 0, 0⟩ : Tm).mm
        + (⟨y, mon, d, 0, 0, 0⟩ : Tm).ss)
      = yearStartSec y + 86400 * (daysBeforeMonth (isLeap y) mon + (d - 1)) := by
    show 86400 * (yearsSpan 1970 (y - 1970)
        + (daysBeforeMonth (isLeap y) mon + d - 1)) + (3600 * 0 + 60 * 0 + 0)
      = yearStartSec y + 86400 * (daysBeforeMonth (isLeap y) mon + (d - 1))
    unfold yearStartSec
    omega
  rw [hval] at htv
  obtain ⟨T, hT1, hT2, hT3⟩ := gmtime_timegm hvalid
  rw [htv] at hT1
  injection hT1 with hT1
  subst hT1
  unfold year_start
  rw [pyTrunc_natCast, hT3]
  have hvalid2 : ValidTm ⟨y, 1, 1, 0, 0, 0⟩ :=
    ⟨h1, h2, show (1 : ℕ) ≤ 1 from by omega, show (1 : ℕ) ≤ 12 from by omega,
      show (1 : ℕ) ≤ 1 from by omega,
      show (1 : ℕ) ≤ monthDays (isLeap y) 1 from
        monthDays_pos (isLeap y) (by omega) (by omega),
      show (0 : ℕ) ≤ 23 from by omega, show (0 : ℕ) ≤ 59 from by omega,
      show (0 : ℕ) ≤ 59 from by omega⟩
  have htv2 := timegm_valid hvalid2
  have hval2 : 86400 * (yearsSpan 1970 ((⟨y, 1, 1, 0, 0, 0⟩ : Tm).y - 1970)
      + (daysBeforeMonth (isLeap (⟨y, 1, 1, 0, 0, 0⟩ : Tm).y)
          (⟨y, 1, 1, 0, 0, 0⟩ : Tm).mon + (⟨y, 1, 1, 0, 0, 0⟩ : Tm).mday - 1))
      + (3600 * (⟨y, 1, 1, 0, 0, 0⟩ : Tm).hh + 60 * (⟨y, 1, 1, 0, 0, 0⟩ : Tm).mm
        + (⟨y, 1, 1, 0, 0, 0⟩ : Tm).ss)
      = yearStartSec y := by
    show 86400 * (yearsSpan 1970 (y - 1970)
        + (daysBeforeMonth (isLeap y) 1 + 1 - 1)) + (3600 * 0 + 60 * 0 + 0)
      = yearStartSec y
    unfold yearStartSec
    have hdbm1 : daysBeforeMonth (isLeap y) 1 = 0 := rfl
    omega
  rw [hval2] at htv2
  rw [Option.bind_eq_bind, Option.some_bind]
  show (timegm ⟨y, 1, 1, 0, 0, 0⟩).bind (fun r => pure ((r : ℚ))) = _
  rw [htv2]
  rfl

theorem floorNat_le {q : ℚ} (h0 : 0 ≤ q) {m : ℕ} (h : m ≤ ⌊q⌋.toNat) :
    ((m : ℕ) : ℚ) ≤ q := by
  have h4 : ((⌊q⌋.toNat : ℤ) : ℚ) ≤ q := by
    rw [Int.toNat_of_nonneg (Int.floor_nonneg.mpr h0)]
    exact Int.floor_le q
  calc ((m : ℕ) : ℚ) ≤ ((⌊q⌋.toNat : ℕ) : ℚ) := by exact_mod_cast h
  _ ≤ q := by exact_mod_cast h4

/-- `month_start` on an arbitrary non-negative rational: the start of
the month containing it. -/
theorem month_start_eq {q : ℚ} (h0 : 0 ≤ q)
    (hb : q < ((86400 * yearsSpan 1970 8030 : ℕ) : ℚ)) :
    ∃ y mon : ℕ, 1970 ≤ y ∧ y < 10000 ∧ 1 ≤ mon ∧ mon ≤ 12 ∧
      month_start q = some ((monthStartSec y mon : ℕ) : ℚ) ∧
      ((monthStartSec y mon : ℕ) : ℚ) ≤ q := by
  set n : ℕ := ⌊q⌋.toNat with hn
  have hfl : pyTrunc q = (n : ℤ) := by
    rw [pyTrunc_nonneg_floor h0, hn]
    exact (Int.toNat_of_nonneg (Int.floor_nonneg.mpr h0)).symm
  have hnb : n < 86400 * yearsSpan 1970 8030 := by
    by_contra hc
    push_neg at hc
    exact absurd (lt_of_le_of_lt (floorNat_le h0 hc) hb) (lt_irrefl _)
  obtain ⟨tm, hg, h1, h2, h3, h4, h5, h6, h7, h8, h9, h10⟩ := gmtime_spec n
  have hylt : tm.y < 10000 := gmtime_year_lt (by omega) (by norm_num; omega) hg
  refine ⟨tm.y, tm.mon, h1, hylt, h2, h3, ?_, ?_⟩
  · unfold month_start
    rw [hfl, hg]
    have hvalid : ValidTm { tm with mday := 1, hh := 0, mm := 0, ss := 0 } :=
      ⟨h1, show tm.y ≤ 9999 from by omega, h2, h3,
        show (1 : ℕ) ≤ 1 from by omega,
        show (1 : ℕ) ≤ monthDays (isLeap tm.y) tm.mon from
          monthDays_pos (isLeap tm.y) h2 h3,
        show (0 : ℕ) ≤ 23 from by omega, show (0 : ℕ) ≤ 59 from by omega,
        show (0 : ℕ) ≤ 59 from by omega⟩
    have htv := timegm_valid hvalid
    rw [Option.bind_eq_bind, Option.some_bind, htv]
    rw [Option.bind_eq_bind, Option.some_bind]
    simp only [Option.pure_def, Option.some.injEq]
    have hval : (86400 * (yearsSpan 1970 (tm.y - 1970)
        + (daysBeforeMonth (isLeap tm.y) tm.mon + 1 - 1))
        + (3600 * 0 + 60 * 0 + 0) : ℕ) = monthStartSec tm.y tm.mon := by
      unfold monthStartSec
      omega
    exact_mod_cast hval
  · apply floorNat_le h0
    unfold monthStartSec
    omega

/-- `year_start` on an arbitrary non-negative rational: the start of
the year containing it. -/
theorem year_start_eq {q : ℚ} (h0 : 0 ≤ q)
    (hb : q < ((86400 * yearsSpan 1970 8030 : ℕ) : ℚ)) :
    ∃ y : ℕ, 1970 ≤ y ∧ y < 10000 ∧
      year_start q = some ((yearStartSec y : ℕ) : ℚ) ∧
      ((yearStartSec y : ℕ) : ℚ) ≤ q := by
  set n : ℕ := ⌊q⌋.toNat with hn
  have hfl : pyTrunc q = (n : ℤ) := by
    rw [pyTrunc_nonneg_floor h0, hn]
    exact (Int.toNat_of_nonneg (Int.floor_nonneg.mpr h0)).symm
  have hnb : n < 86400 * yearsSpan 1970 8030 := by
    by_contra hc
    push_neg at hc
    exact absurd (lt_of_le_of_lt (floorNat_le h0 hc) hb) (lt_irrefl _)
  obtain ⟨tm, hg, h1, h2, h3, h4, h5, h6, h7, h8, h9, h10⟩ := gmtime_spec n
  have hylt : tm.y < 10000 := gmtime_year_lt (by omega) (by norm_num; omega) hg
  refine ⟨tm.y, h1, hylt, ?_, ?_⟩
  · unfold year_start
    rw [hfl, hg]
    have hvalid : ValidTm { tm with mon := 1, mday := 1, hh := 0, mm := 0, ss := 0 } :=
      ⟨h1, show tm.y ≤ 9999 from by omega, show (1 : ℕ) ≤ 1 from by omega,
        show (1 : ℕ) ≤ 12 from by omega, show (1 : ℕ) ≤ 1 from by omega,
        show (1 : ℕ) ≤ monthDays (isLeap tm.y) 1 from
          monthDays_pos (isLeap tm.y) (by omega) (by omega),
        show (0 : ℕ) ≤ 23 from by omega, show (0 : ℕ) ≤ 59 from by omega,
        show (0 : ℕ) ≤ 59 from by omega⟩
    have htv := timegm_valid hvalid
    rw [Option.bind_eq_bind, Option.some_bind, htv]
    rw [Option.bind_eq_bind, Option.some_bind]
    simp only [Option.pure_def, Option.some.injEq]
    have hdbm1 : daysBeforeMonth (isLeap tm.y) 1 = 0 := rfl
    have hval : (86400 * (yearsSpan 1970 (tm.y - 1970)
        + (daysBeforeMonth (isLeap tm.y) 1 + 1 - 1))
        + (3600 * 0 + 60 * 0 + 0) : ℕ) = yearStartSec tm.y := by
      unfold yearStartSec
      omega
    exact_mod_cast hval
  · apply floorNat_le h0
    unfold yearStartSec
    omega

/-- The generic loop lemma for the three calendar-range iterators:
from an invariant start state with enough fuel, the loop produces
a chained, covering list of boundary pairs. -/
theorem iterGo_spec (us : ℚ → Option ℚ) (ov tmax : ℚ) (Inv : ℚ → Prop)
    (hstep : ∀ t, Inv t → t < tmax →
      ∃ tn, us (t + ov) = some tn ∧ Inv tn ∧ t + 86400 ≤ tn) :
    ∀ (fuel : ℕ) (t : ℚ), Inv t → tmax ≤ t + 86400 * fuel →
      ∃ L, iterGo us ov tmax t fuel = some L ∧
        (t < tmax → L.head?.map Prod.fst = some t) ∧
        (tmax ≤ t → L = []) ∧
        (∀ u : ℚ, t ≤ u → u < tmax → ∃ p ∈ L, p.1 ≤ u ∧ u < p.2) ∧
        (∀ p ∈ L, Inv p.1 ∧ Inv p.2 ∧ p.1 < tmax ∧ us (p.1 + ov) = some p.2) ∧
        List.Chain' (fun p q : ℚ × ℚ => p.2 = q.1) L := by
  intro fuel
  induction fuel with
  | zero =>
    intro t hInv hle
    norm_num at hle
    have hnlt : ¬ t < tmax := not_lt.mpr hle
    rw [iterGo, if_neg hnlt]
    refine ⟨[], rfl, fun hc => absurd hc hnlt, fun _ => rfl, ?_,
      fun p hp => absurd hp (List.not_mem_nil p), List.chain'_nil⟩
    intro u hu1 hu2
    exact absurd hu2 (not_lt.mpr (le_trans hle hu1))
  | succ fuel ih =>
    intro t hInv hle
    rw [iterGo]
    by_cases hlt : t < tmax
    · rw [if_pos hlt]
      obtain ⟨tn, hus, hInvn, hstep86⟩ := hstep t hInv hlt
      have hle2 : tmax ≤ tn + 86400 * fuel := by
        push_cast at hle ⊢
        linarith
      obtain ⟨L2, hL2, hhead, hempty, hcover, hprops, hchain⟩ := ih tn hInvn hle2
      simp only [hus, hL2, Option.map_some]
      refine ⟨(t, tn) :: L2, rfl, fun _ => rfl,
        fun hc => absurd hlt (not_lt.mpr hc), ?_, ?_, ?_⟩
      · intro u hu1 hu2
        by_cases hun : u < tn
        · exact ⟨(t, tn), List.mem_cons_self _ _, hu1, hun⟩
        · obtain ⟨p, hp1, hp2, hp3⟩ := hcover u (not_lt.mp hun) hu2
          exact ⟨p, List.mem_cons_of_mem _ hp1, hp2, hp3⟩
      · intro p hp
        rcases List.mem_cons.mp hp with rfl | hp2
        · exact ⟨hInv, hInvn, hlt, hus⟩
        · exact hprops p hp2
      · rw [List.chain'_cons']
        refine ⟨?_, hchain⟩
        intro b hb
        cases hL2e : L2 with
        | nil =>
          rw [hL2e] at hb
          cases hb
        | cons p2 L3 =>
          rw [hL2e] at hb
          simp only [List.head?_cons, Option.mem_def, Option.some.injEq] at hb
          subst hb
          by_cases htn : tn < tmax
          · have hh := hhead htn
            rw [hL2e] at hh
            simp only [List.head?_cons, Option.map_some] at hh
            injection hh with hh2
            exact hh2.symm
          · have he := hempty (not_lt.mp htn)
            rw [hL2e] at he
            cases he
    · rw [if_neg hlt]
      refine ⟨[], rfl, fun hc => absurd hc hlt, fun _ => rfl, ?_,
        fun p hp => absurd hp (List.not_mem_nil p), List.chain'_nil⟩
      intro u hu1 hu2
      exact absurd hu2 (not_lt.mpr (le_trans (not_lt.mp hlt) hu1))

theorem monthStartSec_next12 {y : ℕ} (h1 : 1970 ≤ y) :
    monthStartSec (y + 1) 1 = monthStartSec y 12 + 86400 * monthDays (isLeap y) 12 := by
  unfold monthStartSec
  have hspan : yearsSpan 1970 (y + 1 - 1970)
      = yearsSpan 1970 (y - 1970) + yearDays y := by
    rw [show y + 1 - 1970 = (y - 1970) + 1 from by omega]
    show yearsSpan 1970 (y - 1970) + yearDays (1970 + (y - 1970)) = _
    rw [show 1970 + (y - 1970) = y from by omega]
  have hdbm1 : daysBeforeMonth (isLeap (y + 1)) 1 = 0 := rfl
  have hfull := daysBeforeMonth_full (isLeap y)
  cases hL : isLeap y with
  | false =>
    rw [hL] at hfull
    have hyd2 : yearDays y = 365 := by unfold yearDays; rw [hL]; rfl
    simp only [Bool.false_eq_true, if_false] at hfull
    omega
  | true =>
    rw [hL] at hfull
    have hyd2 : yearDays y = 366 := by unfold yearDays; rw [hL]; rfl
    simp only [if_true] at hfull
    omega

theorem monthStartSec_nextlt {y mon : ℕ} (h2 : 1 ≤ mon) (h3 : mon < 12) :
    monthStartSec y (mon + 1) = monthStartSec y mon + 86400 * monthDays (isLeap y) mon := by
  unfold monthStartSec
  have hstep : daysBeforeMonth (isLeap y) (mon + 1)
      = daysBeforeMonth (isLeap y) mon + monthDays (isLeap y) mon := rfl
  omega

theorem yearStartSec_next {y : ℕ} (h1 : 1970 ≤ y) :
    yearStartSec (y + 1) = yearStartSec y + 86400 * yearDays y := by
  unfold yearStartSec
  have hspan : yearsSpan 1970 (y + 1 - 1970)
      = yearsSpan 1970 (y - 1970) + yearDays y := by
    rw [show y + 1 - 1970 = (y - 1970) + 1 from by omega]
    show yearsSpan 1970 (y - 1970) + yearDays (1970 + (y - 1970)) = _
    rw [show 1970 + (y - 1970) = y from by omega]
  omega

theorem yearsSpan_succ (y0 k : ℕ) :
    yearsSpan y0 (k + 1) = yearsSpan y0 k + yearDays (y0 + k) := rfl

theorem span8030_ge : 86400 * yearsSpan 1970 8029 + 365 * 86400
    ≤ 86400 * yearsSpan 1970 8030 := by
  have h1 : yearsSpan 1970 8030 = yearsSpan 1970 8029 + yearDays 9999 := by
    rw [show (8030 : ℕ) = 8029 + 1 from rfl, yearsSpan_succ]
  have h2 := yearDays_ge 9999
  omega

theorem secsToYear_9999 : secsToYear 9999 = 86400 * yearsSpan 1970 8029 := by
  rw [secsToYear_eq (by omega)]
  unfold yearStartSec
  norm_num

theorem floorNat_natCast (n : ℕ) : (⌊((n : ℕ) : ℚ)⌋).toNat = n := by
  rw [Int.floor_natCast]
  exact Int.toNat_natCast n

/-- The invariant of the day iterator: a non-negative multiple of
86400 below the year-10000 line. -/
def DayInv (t : ℚ) : Prop :=
  ∃ k : ℕ, 86400 * k < 86400 * yearsSpan 1970 8030 ∧ t = ((86400 * k : ℕ) : ℚ)

/-- The invariant of the month iterator: an exact month start of a
representable year. -/
def MonthInv (t : ℚ) : Prop :=
  ∃ y mon : ℕ, 1970 ≤ y ∧ y ≤ 9999 ∧ 1 ≤ mon ∧ mon ≤ 12 ∧
    t = ((monthStartSec y mon : ℕ) : ℚ)

/-- The invariant of the year iterator: an exact year start of a
representable year. -/
def YearInv (t : ℚ) : Prop :=
  ∃ y : ℕ, 1970 ≤ y ∧ y ≤ 9999 ∧ t = ((yearStartSec y : ℕ) : ℚ)

theorem day_floor {k : ℕ} (hk : 86400 * k < 86400 * yearsSpan 1970 8030) :
    day_start ((86400 * k : ℕ) : ℚ) = some ((86400 * k : ℕ) : ℚ) := by
  have h := day_start_eq (q := ((86400 * k : ℕ) : ℚ)) (Nat.cast_nonneg _)
    (by exact_mod_cast hk)
  rw [floorNat_natCast] at h
  rw [h]
  congr 2
  omega

theorem day_step {tmax : ℚ} (hcap : tmax ≤ ((secsToYear 9999 : ℕ) : ℚ)) :
    ∀ t : ℚ, DayInv t → t < tmax →
      ∃ tn, day_start (t + 26 * 60 * 60) = some tn ∧ DayInv tn ∧
        t + 86400 ≤ tn := by
  rintro t ⟨k, hk0, rfl⟩ hlt
  have hkb : 86400 * k < secsToYear 9999 := by
    exact_mod_cast lt_of_lt_of_le hlt hcap
  rw [secsToYear_9999] at hkb
  have harg : ((86400 * k : ℕ) : ℚ) + 26 * 60 * 60
      = ((86400 * k + 93600 : ℕ) : ℚ) := by push_cast; ring
  have hb2 : 86400 * k + 93600 < 86400 * yearsSpan 1970 8030 := by
    have := span8030_ge
    omega
  have h := day_start_eq (q := ((86400 * k + 93600 : ℕ) : ℚ)) (Nat.cast_nonneg _)
    (by exact_mod_cast hb2)
  rw [floorNat_natCast] at h
  have hnat : 86400 * ((86400 * k + 93600) / 86400) = 86400 * (k + 1) := by
    omega
  refine ⟨((86400 * (k + 1) : ℕ) : ℚ), ?_, ⟨k + 1, by omega, rfl⟩, ?_⟩
  · rw [harg, h, hnat]
  · push_cast
    linarith

theorem month_floor {y mon : ℕ} (h1 : 1970 ≤ y) (h2 : y ≤ 9999) (h3 : 1 ≤ mon)
    (h4 : mon ≤ 12) :
    month_start ((monthStartSec y mon : ℕ) : ℚ)
      = some ((monthStartSec y mon : ℕ) : ℚ) := by
  have h := month_start_at_exact h1 h2 h3 h4 (d := 1) (by omega)
    (monthDays_pos (isLeap y) h3 h4)
  norm_num at h
  exact h

theorem monthStartSec_lt_bound {y mon : ℕ} (h1 : 1970 ≤ y) (h3 : 1 ≤ mon)
    (h4 : mon ≤ 12) (hb : monthStartSec y mon < 86400 * yearsSpan 1970 8029) :
    y ≤ 9998 := by
  by_contra hc
  push_neg at hc
  have hm : yearsSpan 1970 8029 ≤ yearsSpan 1970 (y - 1970) :=
    yearsSpan_mono 1970 (by omega)
  have : 86400 * yearsSpan 1970 (y - 1970) ≤ monthStartSec y mon := by
    unfold monthStartSec
    omega
  omega

theorem month_step {tmax : ℚ} (hcap : tmax ≤ ((secsToYear 9999 : ℕ) : ℚ)) :
    ∀ t : ℚ, MonthInv t → t < tmax →
      ∃ tn, month_start (t + 24 * 60 * 60 * 33) = some tn ∧ MonthInv tn ∧
        t + 86400 ≤ tn := by
  rintro t ⟨y, mon, h1, h2, h3, h4, rfl⟩ hlt
  have hkb : monthStartSec y mon < secsToYear 9999 := by
    exact_mod_cast lt_of_lt_of_le hlt hcap
  rw [secsToYear_9999] at hkb
  have hy : y ≤ 9998 := monthStartSec_lt_bound h1 h3 h4 hkb
  have hmd1 := monthDays_ge (isLeap y) h3 h4
  have hmd2 := monthDays_le (isLeap y) h3 h4
  by_cases h12 : mon = 12
  · subst h12
    have hnext := monthStartSec_next12 (y := y) h1
    have harg : ((monthStartSec y 12 : ℕ) : ℚ) + 24 * 60 * 60 * 33
        = ((monthStartSec (y + 1) 1
            + 86400 * ((33 - monthDays (isLeap y) 12 + 1) - 1) : ℕ) : ℚ) := by
      push_cast [hnext]
      have : (((33 : ℕ) - monthDays (isLeap y) 12 : ℕ) : ℚ)
          = 33 - ((monthDays (isLeap y) 12 : ℕ) : ℚ) := by
        have hc : ((33 - monthDays (isLeap y) 12 : ℕ) : ℚ)
            = ((33 : ℕ) : ℚ) - ((monthDays (isLeap y) 12 : ℕ) : ℚ) := by
          rw [Nat.cast_sub (by omega)]
        push_cast at hc
        exact_mod_cast hc
      norm_num at this ⊢
      rw [this]
      ring
    have hstep := @month_start_at_exact (y + 1) 1
      (33 - monthDays (isLeap y) 12 + 1) (by omega) (by omega) (by omega)
      (by omega) (by omega)
      (by
        have := monthDays_ge (isLeap (y + 1)) (m := 1) (by omega) (by omega)
        omega)
    rw [harg, hstep]
    refine ⟨_, rfl, ⟨y + 1, 1, by omega, by omega, by omega, by omega, rfl⟩, ?_⟩
    push_cast [hnext]
    have : (86400 : ℚ) ≤ 86400 * ((monthDays (isLeap y) 12 : ℕ) : ℚ) := by
      have : (1 : ℚ) ≤ ((monthDays (isLeap y) 12 : ℕ) : ℚ) := by
        exact_mod_cast Nat.one_le_iff_ne_zero.mpr (by omega)
      linarith
    linarith
  · have hnext := monthStartSec_nextlt (y := y) h3 (by omega)
    have harg : ((monthStartSec y mon : ℕ) : ℚ) + 24 * 60 * 60 * 33
        = ((monthStartSec y (mon + 1)
            + 86400 * ((33 - monthDays (isLeap y) mon + 1) - 1) : ℕ) : ℚ) := by
      have hc : (monthStartSec y (mon + 1)
          + 86400 * ((33 - monthDays (isLeap y) mon + 1) - 1) : ℕ)
          = monthStartSec y mon + 86400 * 33 := by
        omega
      rw [hc]
      push_cast
      ring
    have hstep := @month_start_at_exact y (mon + 1)
      (33 - monthDays (isLeap y) mon + 1) h1 (by omega) (by omega)
      (by omega) (by omega)
      (by
        have := monthDays_ge (isLeap y) (m := mon + 1) (by omega) (by omega)
        omega)
    rw [harg, hstep]
    refine ⟨_, rfl, ⟨y, mon + 1, h1, h2, by omega, by omega, rfl⟩, ?_⟩
    have hc : monthStartSec y mon + 86400 ≤ monthStartSec y (mon + 1) := by
      omega
    have hc2 : ((monthStartSec y mon + 86400 : ℕ) : ℚ)
        ≤ ((monthStartSec y (mon + 1) : ℕ) : ℚ) := by exact_mod_cast hc
    push_cast at hc2
    linarith

theorem year_floor {y : ℕ} (h1 : 1970 ≤ y) (h2 : y ≤ 9999) :
    year_start ((yearStartSec y : ℕ) : ℚ) = some ((yearStartSec y : ℕ) : ℚ) := by
  have h := @year_start_at_exact y 1 1 h1 h2 (by omega)
    (by omega) (by omega) (monthDays_pos (isLeap y) (by omega) (by omega))
  norm_num at h
  have hdbm1 : daysBeforeMonth (isLeap y) 1 = 0 := rfl
  rw [hdbm1] at h
  norm_num at h
  exact h

theorem yearStartSec_lt_bound {y : ℕ} (h1 : 1970 ≤ y)
    (hb : yearStartSec y < 86400 * yearsSpan 1970 8029) : y ≤ 9998 := by
  by_contra hc
  push_neg at hc
  have hm : yearsSpan 1970 8029 ≤ yearsSpan 1970 (y - 1970) :=
    yearsSpan_mono 1970 (by omega)
  unfold yearStartSec at hb
  omega

theorem year_step {tmax : ℚ} (hcap : tmax ≤ ((secsToYear 9999 : ℕ) : ℚ)) :
    ∀ t : ℚ, YearInv t → t < tmax →
      ∃ tn, year_start (t + 24 * 60 * 60 * 369) = some tn ∧ YearInv tn ∧
        t + 86400 ≤ tn := by
  rintro t ⟨y, h1, h2, rfl⟩ hlt
  have hkb : yearStartSec y < secsToYear 9999 := by
    exact_mod_cast lt_of_lt_of_le hlt hcap
  rw [secsToYear_9999] at hkb
  have hy : y ≤ 9998 := yearStartSec_lt_bound h1 hkb
  have hyd1 := yearDays_ge y
  have hyd2 := yearDays_le y
  have hnext := yearStartSec_next (y := y) h1
  have harg : ((yearStartSec y : ℕ) : ℚ) + 24 * 60 * 60 * 369
      = ((yearStartSec (y + 1)
          + 86400 * (daysBeforeMonth (isLeap (y + 1)) 1
            + ((369 - yearDays y + 1) - 1)) : ℕ) : ℚ) := by
    have hdbm1 : daysBeforeMonth (isLeap (y + 1)) 1 = 0 := rfl
    have hc : (yearStartSec (y + 1)
        + 86400 * (daysBeforeMonth (isLeap (y + 1)) 1
          + ((369 - yearDays y + 1) - 1)) : ℕ)
        = yearStartSec y + 86400 * 369 := by
      rw [hdbm1]
      omega
    rw [hc]
    push_cast
    ring
  have hstep := @year_start_at_exact (y + 1) 1
    (369 - yearDays y + 1) (by omega) (by omega) (by omega) (by omega)
    (by omega)
    (by
      have := monthDays_ge (isLeap (y + 1)) (m := 1) (by omega) (by omega)
      omega)
  rw [harg, hstep]
  refine ⟨_, rfl, ⟨y + 1, by omega, by omega, rfl⟩, ?_⟩
  have hc : yearStartSec y + 86400 ≤ yearStartSec (y + 1) := by omega
  have hc2 : ((yearStartSec y + 86400 : ℕ) : ℚ)
      ≤ ((yearStartSec (y + 1) : ℕ) : ℚ) := by exact_mod_cast hc
  push_cast at hc2
  linarith

theorem day_inv_floor {t : ℚ} (h : DayInv t) : day_start t = some t := by
  obtain ⟨k, hb, rfl⟩ := h
  exact day_floor hb

theorem month_inv_floor {t : ℚ} (h : MonthInv t) : month_start t = some t := by
  obtain ⟨y, mon, h1, h2, h3, h4, rfl⟩ := h
  exact month_floor h1 h2 h3 h4

theorem year_inv_floor {t : ℚ} (h : YearInv t) : year_start t = some t := by
  obtain ⟨y, h1, h2, rfl⟩ := h
  exact year_floor h1 h2

/-- The properties the claim asserts of one calendar-range iterator
with unit-flooring function `us` and over-estimate `ov`: the run
succeeds with a list whose first start is the unit floor of `tmin`,
every start and end is a fixed point of the flooring, every end is the
floor of its start plus the over-estimate, consecutive pairs abut, and
the half-open pairs cover `[tmin, tmax)`. -/
def RangeIterOk (us : ℚ → Option ℚ) (ov tmin tmax : ℚ)
    (it : Option (List (ℚ × ℚ))) : Prop :=
  ∃ L, it = some L ∧
    L.head?.map Prod.fst = us tmin ∧
    (∀ p ∈ L, us p.1 = some p.1 ∧ us p.2 = some p.2 ∧
      us (p.1 + ov) = some p.2) ∧
    List.Chain' (fun p q : ℚ × ℚ => p.2 = q.1) L ∧
    ∀ u : ℚ, tmin ≤ u → u < tmax → ∃ p ∈ L, p.1 ≤ u ∧ u < p.2

theorem rangeIterOk_go (us : ℚ → Option ℚ) (ov tmin tmax t0 : ℚ)
    (Inv : ℚ → Prop) (hlt : tmin < tmax)
    (hfloor : ∀ t, Inv t → us t = some t)
    (hstep : ∀ t, Inv t → t < tmax →
      ∃ tn, us (t + ov) = some tn ∧ Inv tn ∧ t + 86400 ≤ tn)
    (hus : us tmin = some t0) (hInv0 : Inv t0) (ht0 : t0 ≤ tmin)
    (hfuel : tmax ≤ t0 + 86400 * (iterFuel tmax : ℚ)) :
    RangeIterOk us ov tmin tmax (iterGo us ov tmax t0 (iterFuel tmax)) := by
  obtain ⟨L, hL, hhead, hempty, hcover, hprops, hchain⟩ :=
    iterGo_spec us ov tmax Inv hstep (iterFuel tmax) t0 hInv0 hfuel
  refine ⟨L, hL, ?_, ?_, hchain, ?_⟩
  · rw [hhead (lt_of_le_of_lt ht0 hlt), hus]
  · intro p hp
    obtain ⟨hi1, hi2, _, hu⟩ := hprops p hp
    exact ⟨hfloor _ hi1, hfloor _ hi2, hu⟩
  · intro u hu1 hu2
    exact hcover u (le_trans ht0 hu1) hu2

theorem secsToYear9999_eval : secsToYear 9999 = 253370764800 := by decide

/-- Claim C8 (amended): for `0 ≤ tmin < tmax` with `tmax` at most the
start of year 9999, each of `iter_days`, `iter_months` and `iter_years`
yields a finite list of pairs whose first start is the unit floor of
`tmin`, in which every start and end is a fixed point of the unit
flooring, every end is the unit floor of its start plus the
over-estimate (26 hours, 33 days, 369 days respectively), consecutive
pairs abut, and whose half-open pairs cover `[tmin, tmax)`.  (The
original claim, quantified over every `tmin < tmax`, fails for negative
`tmin`, where `int()` truncation makes the floor round up.) -/
theorem iter_ranges_spec (tmin tmax : ℚ) (h0 : 0 ≤ tmin) (hlt : tmin < tmax)
    (hcap : tmax ≤ ((secsToYear 9999 : ℕ) : ℚ)) :
    RangeIterOk day_start (26 * 60 * 60) tmin tmax (iter_days tmin tmax) ∧
    RangeIterOk month_start (24 * 60 * 60 * 33) tmin tmax
      (iter_months tmin tmax) ∧
    RangeIterOk year_start (24 * 60 * 60 * 369) tmin tmax
      (iter_years tmin tmax) := by
  have hspanQ : ((secsToYear 9999 : ℕ) : ℚ)
      < ((86400 * yearsSpan 1970 8030 : ℕ) : ℚ) := by
    have hn : secsToYear 9999 < 86400 * yearsSpan 1970 8030 := by
      rw [secsToYear_9999]
      have := span8030_ge
      omega
    exact_mod_cast hn
  have hb : tmin < ((86400 * yearsSpan 1970 8030 : ℕ) : ℚ) :=
    lt_trans (lt_of_lt_of_le hlt hcap) hspanQ
  have hfuel0 : tmax ≤ 86400 * ((iterFuel tmax : ℕ) : ℚ) := by
    have h1 : tmax ≤ ((⌈tmax⌉₊ : ℕ) : ℚ) := Nat.le_ceil tmax
    have h2 : (⌈tmax⌉₊ : ℕ) ≤ 86400 * iterFuel tmax := by
      unfold iterFuel
      omega
    have h3 : ((⌈tmax⌉₊ : ℕ) : ℚ) ≤ ((86400 * iterFuel tmax : ℕ) : ℚ) := by
      exact_mod_cast h2
    push_cast at h3
    linarith
  refine ⟨?_, ?_, ?_⟩
  · have h := day_start_eq h0 hb
    set k0 : ℕ := ⌊tmin⌋.toNat / 86400 with hk0
    have hnb : ⌊tmin⌋.toNat < 86400 * yearsSpan 1970 8030 := by
      by_contra hc
      push_neg at hc
      exact absurd (lt_of_le_of_lt (floorNat_le h0 hc) hb) (lt_irrefl _)
    have hInv0 : DayInv ((86400 * k0 : ℕ) : ℚ) := ⟨k0, by omega, rfl⟩
    have ht0 : ((86400 * k0 : ℕ) : ℚ) ≤ tmin := floorNat_le h0 (by omega)
    have hgo : iter_days tmin tmax = iterGo day_start (26 * 60 * 60) tmax
        ((86400 * k0 : ℕ) : ℚ) (iterFuel tmax) := by
      unfold iter_days
      rw [h, Option.bind_eq_bind, Option.some_bind]
    rw [hgo]
    refine rangeIterOk_go day_start _ tmin tmax _ DayInv hlt
      (fun t ht => day_inv_floor ht) (day_step hcap) h hInv0 ht0 ?_
    have hge : (0 : ℚ) ≤ ((86400 * k0 : ℕ) : ℚ) := Nat.cast_nonneg _
    linarith
  · obtain ⟨y, mon, h1, h2, h3, h4, hms, hle⟩ := month_start_eq h0 hb
    have hInv0 : MonthInv ((monthStartSec y mon : ℕ) : ℚ) :=
      ⟨y, mon, h1, by omega, h3, h4, rfl⟩
    have hgo : iter_months tmin tmax = iterGo month_start (24 * 60 * 60 * 33)
        tmax ((monthStartSec y mon : ℕ) : ℚ) (iterFuel tmax) := by
      unfold iter_months
      rw [hms, Option.bind_eq_bind, Option.some_bind]
    rw [hgo]
    refine rangeIterOk_go month_start _ tmin tmax _ MonthInv hlt
      (fun t ht => month_inv_floor ht) (month_step hcap) hms hInv0 hle ?_
    have hge : (0 : ℚ) ≤ ((monthStartSec y mon : ℕ) : ℚ) := Nat.cast_nonneg _
    linarith
  · obtain ⟨y, h1, h2, hys, hle⟩ := year_start_eq h0 hb
    have hInv0 : YearInv ((yearStartSec y : ℕ) : ℚ) := ⟨y, h1, by omega, rfl⟩
    have hgo : iter_years tmin tmax = iterGo year_start (24 * 60 * 60 * 369)
        tmax ((yearStartSec y : ℕ) : ℚ) (iterFuel tmax) := by
      unfold iter_years
      rw [hys, Option.bind_eq_bind, Option.some_bind]
    rw [hgo]
    refine rangeIterOk_go year_start _ tmin tmax _ YearInv hlt
      (fun t ht => year_inv_floor ht) (year_step hcap) hys hInv0 hle ?_
    have hge : (0 : ℚ) ≤ ((yearStartSec y : ℕ) : ℚ) := Nat.cast_nonneg _
    linarith

theorem iter_ranges_spec_witness :
    (0 : ℚ) ≤ 0 ∧ (0 : ℚ) < 86400 ∧
    (86400 : ℚ) ≤ ((secsToYear 9999 : ℕ) : ℚ) ∧
    (RangeIterOk day_start (26 * 60 * 60) 0 86400 (iter_days 0 86400) ∧
     RangeIterOk month_start (24 * 60 * 60 * 33) 0 86400
       (iter_months 0 86400) ∧
     RangeIterOk year_start (24 * 60 * 60 * 369) 0 86400
       (iter_years 0 86400)) :=
  ⟨le_refl 0, by norm_num,
   by rw [secsToYear9999_eval]; norm_num,
   iter_ranges_spec 0 86400 (le_refl 0) (by norm_num)
     (by rw [secsToYear9999_eval]; norm_num)⟩

theorem span8030_pos : 0 < 86400 * yearsSpan 1970 8030 := by
  have := span8030_ge
  omega

theorem day_start_zero : day_start 0 = some 0 := by
  have hb : (0 : ℚ) < ((86400 * yearsSpan 1970 8030 : ℕ) : ℚ) := by
    exact_mod_cast span8030_pos
  have h := day_start_eq (le_refl (0 : ℚ)) hb
  norm_num at h
  exact h

theorem day_start_neg_half : day_start (-1/2) = some 0 := by
  have hfl : ⌊(1 : ℚ)/2⌋ = 0 := by
    rw [Int.floor_eq_zero_iff]
    constructor <;> norm_num
  have hpt : pyTrunc (-1/2) = pyTrunc 0 := by
    unfold pyTrunc
    rw [if_neg (by norm_num), if_pos (le_refl (0 : ℚ))]
    rw [show -(-1/2 : ℚ) = 1/2 from by norm_num, hfl]
    norm_num
  have hsame : day_start (-1/2) = day_start 0 := by
    unfold day_start
    rw [hpt]
  rw [hsame, day_start_zero]

theorem day_start_93600 : day_start 93600 = some 86400 := by
  have hb : ((93600 : ℕ) : ℚ) < ((86400 * yearsSpan 1970 8030 : ℕ) : ℚ) := by
    have hn : (93600 : ℕ) < 86400 * yearsSpan 1970 8030 := by
      have := span8030_ge
      omega
    exact_mod_cast hn
  have h := day_start_eq (q := ((93600 : ℕ) : ℚ)) (Nat.cast_nonneg _) hb
  rw [floorNat_natCast] at h
  rw [show (93600 : ℕ)/86400 = 1 from rfl] at h
  norm_num at h
  exact h

theorem iterFuel_one : iterFuel 1 = 2 := by
  unfold iterFuel
  norm_num

/-- Claim C8, counterexample to the original wording: for
`tmin = -1/2 < tmax = 1` the day iterator yields the single pair
`(0, 86400)`, which does not cover `tmin = -1/2`, because `day_start`
truncates the negative timestamp toward zero instead of flooring it. -/
theorem iter_days_claim_counterexample :
    iter_days (-1/2) 1 = some [((0 : ℚ), (86400 : ℚ))] ∧
    ¬ ∃ p ∈ [((0 : ℚ), (86400 : ℚ))], p.1 ≤ -1/2 ∧ (-1/2 : ℚ) < p.2 := by
  constructor
  · unfold iter_days
    rw [day_start_neg_half, Option.bind_eq_bind, Option.some_bind, iterFuel_one]
    rw [show (2 : ℕ) = 1 + 1 from rfl, iterGo,
      if_pos (show (0 : ℚ) < 1 from by norm_num)]
    rw [show (0 : ℚ) + 26 * 60 * 60 = 93600 from by norm_num]
    simp only [day_start_93600]
    rw [show (1 : ℕ) = 0 + 1 from rfl, iterGo,
      if_neg (show ¬ (86400 : ℚ) < 1 from by norm_num)]
    rfl
  · rintro ⟨p, hp, hp1, hp2⟩
    simp only [List.mem_singleton] at hp
    subst hp
    norm_num at hp1


theorem charDigit_ofNat {d : ℕ} (hd : d < 10) :
    charDigit (Char.ofNat (48 + d)) = d := by
  interval_cases d <;> decide

theorem isDigit_ofNat {d : ℕ} (hd : d < 10) :
    (Char.ofNat (48 + d)).isDigit = true := by
  interval_cases d <;> decide

theorem parseNat_digits_aux (ds : List ℕ) (hds : ∀ d ∈ ds, d < 10) :
    ∀ a : ℕ, ((ds.reverse.map (fun d => Char.ofNat (48 + d))).foldl
      (fun a c => 10 * a + charDigit c) a)
      = a * 10 ^ ds.length + Nat.ofDigits 10 ds := by
  induction ds with
  | nil => intro a; simp [Nat.ofDigits]
  | cons d ds ih =>
    intro a
    rw [List.reverse_cons, List.map_append, List.foldl_append]
    simp only [List.map_cons, List.map_nil, List.foldl_cons, List.foldl_nil]
    rw [ih (fun x hx => hds x (List.mem_cons_of_mem _ hx)) a]
    rw [charDigit_ofNat (hds d (List.mem_cons_self _ _))]
    rw [Nat.ofDigits_cons]
    simp only [List.length_cons]
    ring

theorem parseNat_natStr (n : ℕ) : parseNat (natStr n) = n := by
  by_cases h : n = 0
  · subst h; decide
  · unfold natStr parseNat
    rw [if_neg h]
    rw [parseNat_digits_aux (Nat.digits 10 n)
      (fun d hd => Nat.digits_lt_base (by norm_num) hd) 0]
    simp [Nat.ofDigits_digits]

theorem natStr_len_four {y : ℕ} (h1 : 1000 ≤ y) (h2 : y ≤ 9999) :
    (natStr y).length = 4 := by
  unfold natStr
  rw [if_neg (by omega)]
  simp only [List.length_map, List.length_reverse]
  rw [Nat.digits_len 10 y (by norm_num) (by omega)]
  have hlog : Nat.log 10 y = 3 :=
    Nat.log_eq_of_pow_le_of_lt_pow (by norm_num; omega) (by norm_num; omega)
  omega

theorem natStr_digits (n : ℕ) : ∀ c ∈ natStr n, c.isDigit = true := by
  unfold natStr
  by_cases h : n = 0
  · rw [if_pos h]; intro c hc; simp at hc; subst hc; decide
  · rw [if_neg h]
    intro c hc
    simp only [List.mem_map, List.mem_reverse] at hc
    obtain ⟨d, hd, rfl⟩ := hc
    exact isDigit_ofNat (Nat.digits_lt_base (by norm_num) hd)

theorem exists_four {l : Str} (h : l.length = 4) :
    ∃ a b c d, l = [a, b, c, d] := by
  rcases l with _ | ⟨a, _ | ⟨b, _ | ⟨c, _ | ⟨d, _ | ⟨e, l⟩⟩⟩⟩⟩ <;> simp at h
  exact ⟨a, b, c, d, rfl⟩

theorem parse4_natStr {y : ℕ} (h1 : 1000 ≤ y) (h2 : y ≤ 9999) (rest : Str) :
    parse4 (natStr y ++ rest) = some (y, rest) := by
  obtain ⟨a, b, c, d, habcd⟩ := exists_four (natStr_len_four h1 h2)
  have hdig := natStr_digits y
  rw [habcd] at hdig ⊢
  have hpn : parseNat [a, b, c, d] = y := by
    rw [← habcd]; exact parseNat_natStr y
  simp only [List.cons_append, List.nil_append]
  unfold parse4
  dsimp only
  rw [if_pos ⟨hdig a (by simp), hdig b (by simp), hdig c (by simp),
    hdig d (by simp)⟩]
  rw [hpn]

theorem natStrPad2_eq {m : ℕ} (hm : m ≤ 99) :
    natStrPad 2 m = [Char.ofNat (48 + m / 10), Char.ofNat (48 + m % 10)] := by
  unfold natStrPad
  by_cases h0 : m = 0
  · subst h0; decide
  · by_cases h10 : m < 10
    · have hds : Nat.digits 10 m = [m] := by
        rw [Nat.digits_def' (by norm_num : 1 < 10) (by omega)]
        rw [Nat.mod_eq_of_lt h10, Nat.div_eq_of_lt h10]
        simp
      unfold natStr
      rw [if_neg h0, hds]
      simp only [List.reverse_cons, List.reverse_nil, List.nil_append,
        List.map_cons, List.map_nil, List.length_cons, List.length_nil]
      rw [show (2 : ℕ) - 1 = 1 from rfl]
      rw [Nat.div_eq_of_lt h10, Nat.mod_eq_of_lt h10]
      rfl
    · have hds : Nat.digits 10 m = [m % 10, m / 10] := by
        rw [Nat.digits_def' (by norm_num : 1 < 10) (by omega)]
        rw [Nat.digits_def' (by norm_num : 1 < 10) (by omega)]
        rw [Nat.mod_eq_of_lt (by omega : m / 10 < 10),
          Nat.div_eq_of_lt (by omega : m / 10 < 10)]
        simp
      unfold natStr
      rw [if_neg h0, hds]
      simp

theorem parse2Flex_pad {m lo hi : ℕ} (hm : m ≤ 99) (hlo : lo ≤ m) (hhi : m ≤ hi)
    (rest : Str) :
    parse2Flex lo hi (natStrPad 2 m ++ rest) = some (m, rest) := by
  rw [natStrPad2_eq hm]
  simp only [List.cons_append, List.nil_append]
  unfold parse2Flex
  dsimp only
  rw [if_pos ⟨isDigit_ofNat (by omega), isDigit_ofNat (by omega)⟩]
  simp only [charDigit_ofNat (show m / 10 < 10 from by omega),
    charDigit_ofNat (show m % 10 < 10 from by omega)]
  rw [show 10 * (m / 10) + m % 10 = m from by omega]
  rw [if_pos ⟨hlo, hhi⟩]


theorem strftime_base (tm : Tm) :
    strftime ("%Y-%m-%d %H:%M:%S".toList) tm
      = natStr tm.y ++ '-' :: (natStrPad 2 tm.mon ++ '-' :: (natStrPad 2 tm.mday
        ++ ' ' :: (natStrPad 2 tm.hh ++ ':' :: (natStrPad 2 tm.mm
        ++ ':' :: (natStrPad 2 tm.ss ++ []))))) := rfl

theorem strptimeLoop_Y {fr s rest : Str} {tm : Tm} {v : ℕ}
    (h : parse4 s = some (v, rest)) :
    strptimeLoop ('%' :: 'Y' :: fr) s tm
      = strptimeLoop fr rest { tm with y := v } := by
  have e : strptimeLoop ('%' :: 'Y' :: fr) s tm
      = (match parse4 s with
         | some (v, rest) => strptimeLoop fr rest { tm with y := v }
         | none => none) := rfl
  rw [e, h]

theorem strptimeLoop_m {fr s rest : Str} {tm : Tm} {v : ℕ}
    (h : parse2Flex 1 12 s = some (v, rest)) :
    strptimeLoop ('%' :: 'm' :: fr) s tm
      = strptimeLoop fr rest { tm with mon := v } := by
  have e : strptimeLoop ('%' :: 'm' :: fr) s tm
      = (match parse2Flex 1 12 s with
         | some (v, rest) => strptimeLoop fr rest { tm with mon := v }
         | none => none) := rfl
  rw [e, h]

theorem strptimeLoop_d {fr s rest : Str} {tm : Tm} {v : ℕ}
    (h : parse2Flex 1 31 s = some (v, rest)) :
    strptimeLoop ('%' :: 'd' :: fr) s tm
      = strptimeLoop fr rest { tm with mday := v } := by
  have e : strptimeLoop ('%' :: 'd' :: fr) s tm
      = (match parse2Flex 1 31 s with
         | some (v, rest) => strptimeLoop fr rest { tm with mday := v }
         | none => none) := rfl
  rw [e, h]

theorem strptimeLoop_H {fr s rest : Str} {tm : Tm} {v : ℕ}
    (h : parse2Flex 0 23 s = some (v, rest)) :
    strptimeLoop ('%' :: 'H' :: fr) s tm
      = strptimeLoop fr rest { tm with hh := v } := by
  have e : strptimeLoop ('%' :: 'H' :: fr) s tm
      = (match parse2Flex 0 23 s with
         | some (v, rest) => strptimeLoop fr rest { tm with hh := v }
         | none => none) := rfl
  rw [e, h]

theorem strptimeLoop_M {fr s rest : Str} {tm : Tm} {v : ℕ}
    (h : parse2Flex 0 59 s = some (v, rest)) :
    strptimeLoop ('%' :: 'M' :: fr) s tm
      = strptimeLoop fr rest { tm with mm := v } := by
  have e : strptimeLoop ('%' :: 'M' :: fr) s tm
      = (match parse2Flex 0 59 s with
         | some (v, rest) => strptimeLoop fr rest { tm with mm := v }
         | none => none) := rfl
  rw [e, h]

theorem strptimeLoop_S {fr s rest : Str} {tm : Tm} {v : ℕ}
    (h : parse2Flex 0 61 s = some (v, rest)) :
    strptimeLoop ('%' :: 'S' :: fr) s tm
      = strptimeLoop fr rest { tm with ss := v } := by
  have e : strptimeLoop ('%' :: 'S' :: fr) s tm
      = (match parse2Flex 0 61 s with
         | some (v, rest) => strptimeLoop fr rest { tm with ss := v }
         | none => none) := rfl
  rw [e, h]

theorem strptimeLoop_dash {fr sr : Str} {tm : Tm} :
    strptimeLoop ('-' :: fr) ('-' :: sr) tm = strptimeLoop fr sr tm := by
  have e : strptimeLoop ('-' :: fr) ('-' :: sr) tm
      = if ('-' : Char) = '-' then strptimeLoop fr sr tm else none := rfl
  rw [e, if_pos rfl]

theorem strptimeLoop_space {fr sr : Str} {tm : Tm} :
    strptimeLoop (' ' :: fr) (' ' :: sr) tm = strptimeLoop fr sr tm := by
  have e : strptimeLoop (' ' :: fr) (' ' :: sr) tm
      = if (' ' : Char) = ' ' then strptimeLoop fr sr tm else none := rfl
  rw [e, if_pos rfl]

theorem strptimeLoop_colon {fr sr : Str} {tm : Tm} :
    strptimeLoop (':' :: fr) (':' :: sr) tm = strptimeLoop fr sr tm := by
  have e : strptimeLoop (':' :: fr) (':' :: sr) tm
      = if (':' : Char) = ':' then strptimeLoop fr sr tm else none := rfl
  rw [e, if_pos rfl]

theorem strptime_strftime {tm : Tm} (h : ValidTm tm) :
    strptime (strftime ("%Y-%m-%d %H:%M:%S".toList) tm)
      ("%Y-%m-%d %H:%M:%S".toList) = some tm := by
  obtain ⟨y, mon, mday, hh, mm, ss⟩ := tm
  obtain ⟨h1, h2, h3, h4, h5, h6, h7, h8, h9⟩ := h
  simp only at h1 h2 h3 h4 h5 h6 h7 h8 h9
  have h6b : mday ≤ 31 := le_trans h6 (monthDays_le (isLeap y) h3 h4)
  rw [strftime_base]
  unfold strptime
  simp only
  rw [show ("%Y-%m-%d %H:%M:%S".toList)
      = '%' :: 'Y' :: '-' :: '%' :: 'm' :: '-' :: '%' :: 'd' :: ' ' :: '%'
        :: 'H' :: ':' :: '%' :: 'M' :: ':' :: '%' :: 'S' :: [] from rfl]
  rw [strptimeLoop_Y (parse4_natStr (by omega) (by omega) _)]
  rw [strptimeLoop_dash]
  rw [strptimeLoop_m (parse2Flex_pad (by omega) h3 h4 _)]
  rw [strptimeLoop_dash]
  rw [strptimeLoop_d (parse2Flex_pad (by omega) h5 h6b _)]
  rw [strptimeLoop_space]
  rw [strptimeLoop_H (parse2Flex_pad (by omega) (by omega) h7 _)]
  rw [strptimeLoop_colon]
  rw [strptimeLoop_M (parse2Flex_pad (by omega) (by omega) h8 _)]
  rw [strptimeLoop_colon]
  rw [strptimeLoop_S (parse2Flex_pad (by omega) (by omega) (by omega) _)]
  rfl


theorem strftime_cons_ne {c : Char} {fr : Str} {tm : Tm} (hc : ¬ c = '%') :
    strftime (c :: fr) tm = c :: strftime fr tm := by
  rw [strftime.eq_def]
  split
  next heq => cases heq
  next c2 fr2 heq =>
    injection heq with h1 h2
    exact absurd h1 hc
  next x ch fr2 hne heq =>
    injection heq with h1 h2
    subst h1
    subst h2
    rfl

theorem strftime_digits (tm : Tm) : ∀ (l : Str), (∀ c ∈ l, c.isDigit = true) →
    strftime l tm = l := by
  intro l
  induction l with
  | nil => intro _; rfl
  | cons c fr ih =>
    intro hd
    have hc : ¬ c = '%' := by
      intro hcc
      have := hd c (List.mem_cons_self _ _)
      rw [hcc] at this
      exact absurd this (by decide)
    rw [strftime_cons_ne hc, ih (fun x hx => hd x (List.mem_cons_of_mem _ hx))]

theorem strftime_base_append (tm : Tm) (b : Str) :
    strftime ("%Y-%m-%d %H:%M:%S".toList ++ b) tm
      = strftime ("%Y-%m-%d %H:%M:%S".toList) tm ++ strftime b tm := by
  have e : strftime ("%Y-%m-%d %H:%M:%S".toList ++ b) tm
      = natStr tm.y ++ '-' :: (natStrPad 2 tm.mon ++ '-' :: (natStrPad 2 tm.mday
        ++ ' ' :: (natStrPad 2 tm.hh ++ ':' :: (natStrPad 2 tm.mm
        ++ ':' :: (natStrPad 2 tm.ss ++ strftime b tm))))) := rfl
  rw [e, strftime_base]
  simp [List.append_assoc]

theorem natStrPad_digits (w m : ℕ) : ∀ c ∈ natStrPad w m, c.isDigit = true := by
  intro c hc
  unfold natStrPad at hc
  rcases List.mem_append.mp hc with hr | hn
  · rw [List.eq_of_mem_replicate hr]
    decide
  · exact natStr_digits m c hn

theorem natStr_len_le {m n : ℕ} (h : m < 10 ^ n) (hn : 0 < n) :
    (natStr m).length ≤ n := by
  by_cases h0 : m = 0
  · subst h0
    simpa [natStr] using hn
  · unfold natStr
    rw [if_neg h0]
    simp only [List.length_map, List.length_reverse]
    rw [Nat.digits_len 10 m (by norm_num) h0]
    have := Nat.log_lt_of_lt_pow h0 h
    omega

theorem natStrPad_length {m n : ℕ} (h : m < 10 ^ n) (hn : 0 < n) :
    (natStrPad n m).length = n := by
  unfold natStrPad
  rw [List.length_append, List.length_replicate]
  have := natStr_len_le h hn
  omega

theorem foldl_parse_replicate_zero : ∀ r : ℕ,
    (List.replicate r '0').foldl (fun a c => 10 * a + charDigit c) 0 = 0 := by
  intro r
  induction r with
  | zero => rfl
  | succ r ih =>
    rw [List.replicate_succ, List.foldl_cons]
    simpa using ih

theorem parseNat_natStrPad (w m : ℕ) : parseNat (natStrPad w m) = m := by
  unfold natStrPad parseNat
  rw [List.foldl_append, foldl_parse_replicate_zero]
  exact parseNat_natStr m

theorem rfind_append_dot_frac (s0 ds : Str) (hds : '.' ∉ ds) :
    rfind (s0 ++ '.' :: ds) '.' = some s0.length := by
  unfold rfind
  rw [List.reverse_append, List.reverse_cons]
  rw [List.findIdx?_append]
  have h1 : ds.reverse.findIdx? (· == '.') = none := by
    rw [List.findIdx?_eq_none_iff]
    intro x hx
    simp only [beq_eq_false_iff_ne, ne_eq]
    rintro rfl
    exact hds (List.mem_reverse.mp hx)
  rw [List.findIdx?_append, h1,
    show ([('.' : Char)].findIdx? (· == '.')) = some 0 from by decide]
  simp only [Option.map_some', Option.none_or, Option.or_some]
  simp only [List.length_append, List.length_cons, List.length_reverse,
    List.length_nil]
  congr 1
  omega


theorem time_to_str_nofrac {t : ℚ} {fmt : Str} (h : reFracSearch fmt = none) :
    time_to_str t fmt = (gmtime ⌊t⌋).map (strftime fmt) := by
  unfold time_to_str
  simp only [h]

theorem roundtrip_base {tm : Tm} (h : ValidTm tm) :
    ∃ t : ℚ, str_to_time (strftime ("%Y-%m-%d %H:%M:%S".toList) tm)
        ("%Y-%m-%d %H:%M:%S".toList) = .ok t ∧
      time_to_str t ("%Y-%m-%d %H:%M:%S".toList)
        = some (strftime ("%Y-%m-%d %H:%M:%S".toList) tm) := by
  obtain ⟨T, hT, hT0, hg⟩ := gmtime_timegm h
  refine ⟨(T : ℚ), ?_, ?_⟩
  · unfold str_to_time
    simp only [show endswithN ("%Y-%m-%d %H:%M:%S".toList) fixedEndings = none
      from by decide]
    rw [if_neg (show ¬ ((".OPTFRAC".toList).isSuffixOf
      ("%Y-%m-%d %H:%M:%S".toList)) = true from by decide)]
    unfold stCore
    simp only [strptime_strftime h, hT]
    norm_num
  · rw [time_to_str_nofrac (by decide)]
    rw [show ⌊(T : ℚ)⌋ = T from Int.floor_intCast T, hg]
    rfl


theorem roundtrip_frac_aux {tm : Tm} (h : ValidTm tm) {n k : ℕ} {en : Str}
    (hn : 0 < n) (hk : k < 10 ^ n)
    (hen : fixedEndings.get! n = en)
    (hlen6 : en.length = 6)
    (hend : endswithN ("%Y-%m-%d %H:%M:%S".toList ++ en) fixedEndings = some n)
    (hrfs : reFracSearch ("%Y-%m-%d %H:%M:%S".toList ++ en) = some (17, n)) :
    ∃ t : ℚ,
      str_to_time (strftime ("%Y-%m-%d %H:%M:%S".toList) tm
          ++ '.' :: natStrPad n k) ("%Y-%m-%d %H:%M:%S".toList ++ en)
        = .ok t ∧
      time_to_str t ("%Y-%m-%d %H:%M:%S".toList ++ en)
        = some (strftime ("%Y-%m-%d %H:%M:%S".toList) tm
            ++ '.' :: natStrPad n k) := by
  obtain ⟨T, hT, hT0, hg⟩ := gmtime_timegm h
  have hdsd : ∀ c ∈ natStrPad n k, c.isDigit = true := natStrPad_digits n k
  have hdot : '.' ∉ natStrPad n k := by
    intro hc
    exact absurd (hdsd _ hc) (by decide)
  have hdslen : (natStrPad n k).length = n := natStrPad_length hk hn
  have hrfind : rfind (strftime ("%Y-%m-%d %H:%M:%S".toList) tm
      ++ '.' :: natStrPad n k) '.'
      = some (strftime ("%Y-%m-%d %H:%M:%S".toList) tm).length :=
    rfind_append_dot_frac _ _ hdot
  have hpdf : parseDotFrac ('.' :: natStrPad n k)
      = some ((k : ℚ) / 10 ^ n) := by
    unfold parseDotFrac
    show (if natStrPad n k ≠ [] ∧ ((natStrPad n k).all fun c => c.isDigit) = true
        then some (((parseNat (natStrPad n k) : ℕ) : ℚ) / 10 ^ (natStrPad n k).length)
        else none) = some ((k : ℚ) / 10 ^ n)
    rw [if_pos ⟨by
        intro hnil
        rw [hnil] at hdslen
        simp at hdslen
        omega, by
        rw [List.all_eq_true]
        exact fun c hc => hdsd c hc⟩]
    rw [hdslen, parseNat_natStrPad]
  refine ⟨(T : ℚ) + (k : ℚ) / 10 ^ n, ?_, ?_⟩
  · unfold str_to_time
    simp only [hend, hrfind]
    rw [if_neg (fun hc => hc.2 (by
      simp only [List.length_append, List.length_cons]
      omega))]
    have hdrop : (strftime ("%Y-%m-%d %H:%M:%S".toList) tm
        ++ '.' :: natStrPad n k).drop
          (strftime ("%Y-%m-%d %H:%M:%S".toList) tm).length
        = '.' :: natStrPad n k := by
      rw [List.drop_append_eq_append_drop, List.drop_length, Nat.sub_self,
        List.drop_zero, List.nil_append]
    have htake : (strftime ("%Y-%m-%d %H:%M:%S".toList) tm
        ++ '.' :: natStrPad n k).take
          (strftime ("%Y-%m-%d %H:%M:%S".toList) tm).length
        = strftime ("%Y-%m-%d %H:%M:%S".toList) tm := List.take_left _ _
    rw [hdrop]
    simp only [hpdf]
    rw [htake]
    have htkf : ("%Y-%m-%d %H:%M:%S".toList ++ en).take
        (("%Y-%m-%d %H:%M:%S".toList ++ en).length
          - (fixedEndings.get! n).length)
        = "%Y-%m-%d %H:%M:%S".toList := by
      rw [hen, List.length_append, hlen6,
        show ("%Y-%m-%d %H:%M:%S".toList).length = 17 from by decide,
        show (17 + 6 - 6 : ℕ) = 17 from rfl,
        show (17 : ℕ) = ("%Y-%m-%d %H:%M:%S".toList).length from by decide]
      exact List.take_left _ en
    rw [htkf]
    unfold stCore
    simp only [strptime_strftime h, hT]
  · simp only [time_to_str, hrfs]
    have hq0 : (0 : ℚ) ≤ (k : ℚ) / 10 ^ n := by positivity
    have hq1 : (k : ℚ) / 10 ^ n < 1 := by
      rw [div_lt_one (by positivity)]
      exact_mod_cast hk
    have hfloor : ⌊(T : ℚ) + (k : ℚ) / 10 ^ n⌋ = T := by
      rw [add_comm, Int.floor_add_int,
        Int.floor_eq_zero_iff.mpr (Set.mem_Ico.mpr ⟨hq0, hq1⟩), zero_add]
    rw [hfloor, add_sub_cancel_left]
    have hff : formatFrac n ((k : ℚ) / 10 ^ n)
        = '0' :: '.' :: natStrPad n k := by
      unfold formatFrac
      have harg : (k : ℚ) / 10 ^ n * 10 ^ n = ((k : ℕ) : ℚ) :=
        div_mul_cancel₀ _ (by positivity)
      rw [harg]
      have hrhe : rhe ((k : ℕ) : ℚ) = (k : ℤ) := by
        unfold rhe
        rw [Int.fract_natCast, if_pos (by norm_num)]
        exact Int.floor_natCast k
      rw [hrhe, Int.toNat_natCast]
      show natStr (k / 10 ^ n) ++ '.' :: natStrPad n (k % 10 ^ n)
        = '0' :: '.' :: natStrPad n k
      rw [Nat.div_eq_of_lt hk, Nat.mod_eq_of_lt hk]
      rfl
    rw [hff]
    rw [if_neg (show ¬ (('0' :: '.' :: natStrPad n k).head? = some '1')
      from by simp)]
    have htk18 : ("%Y-%m-%d %H:%M:%S".toList ++ en).take 17
        = "%Y-%m-%d %H:%M:%S".toList := by
      rw [show (17 : ℕ) = ("%Y-%m-%d %H:%M:%S".toList).length from by decide]
      exact List.take_left _ en
    have hdp24 : ("%Y-%m-%d %H:%M:%S".toList ++ en).drop (17 + 6) = [] := by
      apply List.drop_eq_nil_of_le
      rw [List.length_append, hlen6]
      norm_num
    rw [htk18, hdp24]
    have hdrop1 : ('0' :: '.' :: natStrPad n k).drop 1 = '.' :: natStrPad n k := rfl
    rw [hdrop1, List.append_nil, hg]
    rw [Option.map_some']
    congr 1
    rw [strftime_base_append]
    congr 1
    rw [strftime_cons_ne (by decide)]
    rw [strftime_digits tm _ hdsd]


/-- Claim C5 (amended): round trip for the base format and its
`.1FRAC`/`.2FRAC`/`.3FRAC` extensions. -/
theorem time_str_roundtrip {tm : Tm} (h : ValidTm tm) {k1 k2 k3 : ℕ}
    (hk1 : k1 < 10) (hk2 : k2 < 100) (hk3 : k3 < 1000) :
    (∃ t, str_to_time (strftime ("%Y-%m-%d %H:%M:%S".toList) tm)
        ("%Y-%m-%d %H:%M:%S".toList) = .ok t ∧
      time_to_str t ("%Y-%m-%d %H:%M:%S".toList)
        = some (strftime ("%Y-%m-%d %H:%M:%S".toList) tm)) ∧
    (∃ t, str_to_time (strftime ("%Y-%m-%d %H:%M:%S".toList) tm
          ++ '.' :: natStrPad 1 k1) ("%Y-%m-%d %H:%M:%S.1FRAC".toList)
        = .ok t ∧
      time_to_str t ("%Y-%m-%d %H:%M:%S.1FRAC".toList)
        = some (strftime ("%Y-%m-%d %H:%M:%S".toList) tm
            ++ '.' :: natStrPad 1 k1)) ∧
    (∃ t, str_to_time (strftime ("%Y-%m-%d %H:%M:%S".toList) tm
          ++ '.' :: natStrPad 2 k2) ("%Y-%m-%d %H:%M:%S.2FRAC".toList)
        = .ok t ∧
      time_to_str t ("%Y-%m-%d %H:%M:%S.2FRAC".toList)
        = some (strftime ("%Y-%m-%d %H:%M:%S".toList) tm
            ++ '.' :: natStrPad 2 k2)) ∧
    (∃ t, str_to_time (strftime ("%Y-%m-%d %H:%M:%S".toList) tm
          ++ '.' :: natStrPad 3 k3) ("%Y-%m-%d %H:%M:%S.3FRAC".toList)
        = .ok t ∧
      time_to_str t ("%Y-%m-%d %H:%M:%S.3FRAC".toList)
        = some (strftime ("%Y-%m-%d %H:%M:%S".toList) tm
            ++ '.' :: natStrPad 3 k3)) := by
  refine ⟨roundtrip_base h, ?_, ?_, ?_⟩
  · rw [show ("%Y-%m-%d %H:%M:%S.1FRAC".toList)
      = "%Y-%m-%d %H:%M:%S".toList ++ ".1FRAC".toList from by decide]
    exact roundtrip_frac_aux h (by omega) (by simpa using hk1) (by decide)
      (by decide) (endswithN_fixed1 _) (by decide)
  · rw [show ("%Y-%m-%d %H:%M:%S.2FRAC".toList)
      = "%Y-%m-%d %H:%M:%S".toList ++ ".2FRAC".toList from by decide]
    exact roundtrip_frac_aux h (by omega) (by simpa using hk2) (by decide)
      (by decide) (endswithN_fixed2 _) (by decide)
  · rw [show ("%Y-%m-%d %H:%M:%S.3FRAC".toList)
      = "%Y-%m-%d %H:%M:%S".toList ++ ".3FRAC".toList from by decide]
    exact roundtrip_frac_aux h (by omega) (by simpa using hk3) (by decide)
      (by decide) (endswithN_fixed3 _) (by decide)

theorem time_str_roundtrip_witness :
    ValidTm ⟨2020, 1, 2, 3, 4, 5⟩ ∧ (5 : ℕ) < 10 ∧ (25 : ℕ) < 100 ∧
    (125 : ℕ) < 1000 ∧
    (∃ t, str_to_time (strftime ("%Y-%m-%d %H:%M:%S".toList)
          ⟨2020, 1, 2, 3, 4, 5⟩) ("%Y-%m-%d %H:%M:%S".toList) = .ok t ∧
      time_to_str t ("%Y-%m-%d %H:%M:%S".toList)
        = some (strftime ("%Y-%m-%d %H:%M:%S".toList) ⟨2020, 1, 2, 3, 4, 5⟩)) :=
  ⟨by unfold ValidTm; decide, by decide, by decide, by decide,
    (time_str_roundtrip (by unfold ValidTm; decide) (by decide : (5 : ℕ) < 10)
      (by decide : (25 : ℕ) < 100) (by decide : (125 : ℕ) < 1000)).1⟩

theorem digits10_2020 : Nat.digits 10 2020 = [0, 2, 0, 2] := by
  rw [Nat.digits_def' (show (1:ℕ) < 10 from by norm_num)
    (show (0:ℕ) < 2020 from by norm_num)]
  norm_num

theorem strftime_optfrac_2020 :
    strftime ("%Y-%m-%d %H:%M:%S.OPTFRAC".toList) ⟨2020, 1, 2, 3, 4, 5⟩
      = "2020-01-02 03:04:05.OPTFRAC".toList := by
  have hn2020 : natStr 2020 = ['2', '0', '2', '0'] := by
    unfold natStr
    rw [if_neg (by norm_num), digits10_2020]
    decide
  have e : strftime ("%Y-%m-%d %H:%M:%S.OPTFRAC".toList) ⟨2020, 1, 2, 3, 4, 5⟩
      = natStr 2020 ++ '-' :: (natStrPad 2 1 ++ '-' :: (natStrPad 2 2
        ++ ' ' :: (natStrPad 2 3 ++ ':' :: (natStrPad 2 4
        ++ ':' :: (natStrPad 2 5 ++ ".OPTFRAC".toList))))) := rfl
  rw [e, hn2020, natStrPad2_eq (show (1:ℕ) ≤ 99 from by norm_num),
    natStrPad2_eq (show (2:ℕ) ≤ 99 from by norm_num),
    natStrPad2_eq (show (3:ℕ) ≤ 99 from by norm_num),
    natStrPad2_eq (show (4:ℕ) ≤ 99 from by norm_num),
    natStrPad2_eq (show (5:ℕ) ≤ 99 from by norm_num)]
  decide

theorem gmtime_1577934245 : gmtime 1577934245 = some ⟨2020, 1, 2, 3, 4, 5⟩ := by
  obtain ⟨T, hT, hT0, hg⟩ := @gmtime_timegm ⟨2020, 1, 2, 3, 4, 5⟩
    (by unfold ValidTm; decide)
  rw [show timegm ⟨2020, 1, 2, 3, 4, 5⟩ = some 1577934245 from by decide] at hT
  injection hT with h2
  rw [← h2] at hg
  exact hg

/-- Claim C5, counterexample to the original wording: with the
`.OPTFRAC` variant the round trip fails, because `time_to_str`
substitutes only `\.[1-9]FRAC` patterns and leaves `.OPTFRAC` verbatim
in its output. -/
theorem time_roundtrip_claim_counterexample :
    str_to_time ("2020-01-02 03:04:05".toList)
      ("%Y-%m-%d %H:%M:%S.OPTFRAC".toList) = .ok 1577934245 ∧
    time_to_str 1577934245 ("%Y-%m-%d %H:%M:%S.OPTFRAC".toList)
      = some ("2020-01-02 03:04:05.OPTFRAC".toList) ∧
    "2020-01-02 03:04:05.OPTFRAC".toList ≠ "2020-01-02 03:04:05".toList := by
  refine ⟨?_, ?_, by decide⟩
  · unfold str_to_time
    simp only [show endswithN ("%Y-%m-%d %H:%M:%S.OPTFRAC".toList) fixedEndings
        = none from by decide,
      show ((".OPTFRAC".toList).isSuffixOf
        ("%Y-%m-%d %H:%M:%S.OPTFRAC".toList)) = true from by decide,
      if_true,
      show rfind ("2020-01-02 03:04:05".toList) '.' = none from by decide]
    rw [show ("%Y-%m-%d %H:%M:%S.OPTFRAC".toList).take
        (("%Y-%m-%d %H:%M:%S.OPTFRAC".toList).length - 8)
        = "%Y-%m-%d %H:%M:%S".toList from by decide]
    unfold stCore
    simp only [show strptime ("2020-01-02 03:04:05".toList)
        ("%Y-%m-%d %H:%M:%S".toList) = some ⟨2020, 1, 2, 3, 4, 5⟩ from by decide,
      show timegm ⟨2020, 1, 2, 3, 4, 5⟩ = some 1577934245 from by decide]
    norm_num
  · rw [time_to_str_nofrac (by decide)]
    rw [show ⌊(1577934245 : ℚ)⌋ = (1577934245 : ℤ) from by norm_num]
    rw [gmtime_1577934245, Option.map_some']
    congr 1
    exact strftime_optfrac_2020

/-! ### Claim C6: `util.gform` -/

/-- Digit/dot rendering of a mantissa `n` with `dd` digits after the
dot; `keepDot` models the `#` alternate form, which keeps the dot even
with no digits after it. -/
def mantissaRender (dd : ℕ) (n : ℕ) (keepDot : Bool) : Str :=
  natStr (n / 10 ^ dd)
    ++ (if dd = 0 then (if keepDot then ['.'] else [])
        else '.' :: natStrPad dd (n % 10 ^ dd))

/-- Round a positive rational to `p` significant decimal digits:
mantissa (with `10 ^ (p-1) ≤ n < 10 ^ p`) and decimal exponent. -/
def sigRound (p : ℕ) (x : ℚ) : ℕ × ℤ :=
  let e := Int.log 10 x
  let n := (rhe (x * (10 : ℚ) ^ ((p : ℤ) - 1 - e))).toNat
  if n = 10 ^ p then (10 ^ (p - 1), e + 1) else (n, e)

/-- Exponent field of C `%e`/`%E` style formatting: at least two
exponent digits with a mandatory sign. -/
def expRender (ec : Char) (e : ℤ) : Str :=
  ec :: (if e < 0 then '-' else '+') :: natStrPad 2 e.natAbs

/-- Fixed-notation rendering of `n·10^(e-(p-1))` with `p-1-e` digits
after the dot (the `%#g` fixed branch). -/
def fixedRender (p : ℕ) (n : ℕ) (e : ℤ) : Str :=
  if 0 ≤ e then mantissaRender (p - 1 - e.toNat) n true
  else '0' :: '.' :: (List.replicate ((-e).toNat - 1) '0' ++ natStrPad p n)

/-- Model of ``'%#.*g' % (p, x)``: fixed notation when the rounded
decimal exponent lies in `[-4, p)`, exponent notation otherwise; the
alternate form keeps the dot and trailing zeros. -/
def pctG (p : ℕ) (x : ℚ) : Str :=
  if x = 0 then '0' :: '.' :: List.replicate (p - 1) '0'
  else
    (if x < 0 then ['-'] else [])
      ++ (if -4 ≤ (sigRound p |x|).2 ∧ (sigRound p |x|).2 < (p : ℤ) then
            fixedRender p (sigRound p |x|).1 (sigRound p |x|).2
          else
            mantissaRender (p - 1) (sigRound p |x|).1 true
              ++ expRender 'e' (sigRound p |x|).2)

/-- Model of ``'%.*E' % (prec, x)``. -/
def pctE (prec : ℕ) (x : ℚ) : Str :=
  if x = 0 then mantissaRender prec 0 false ++ expRender 'E' 0
  else
    (if x < 0 then ['-'] else [])
      ++ mantissaRender prec (sigRound (prec + 1) |x|).1 false
      ++ expRender 'E' (sigRound (prec + 1) |x|).2

/-- Python `s.rstrip('0')`. -/
def rstrip0 (s : Str) : Str := (s.reverse.dropWhile (· == '0')).reverse

/-- Python `s.find(c)`: first index or `-1`. -/
def pyFind (s : Str) (c : Char) : ℤ :=
  match s.findIdx? (· == c) with
  | some i => (i : ℤ)
  | none => -1

/-- `util.gform(number, significant_digits)`. -/
def gform (x : ℚ) (sd : ℕ) : Str :=
  let width := sd + sd - 1 + 1 + 1 + 5
  let s := if (1 / 10 ≤ |x| ∧ |x| < 10 ^ sd) ∨ x = 0
    then rstrip0 (pctG sd x)
    else pctE (sd - 1) x
  let s2 := List.replicate (((sd : ℤ) + 1 - pyFind s '.').toNat) ' ' ++ s
  s2 ++ List.replicate (width - s2.length) ' '

theorem floor_le_rhe (q : ℚ) : ⌊q⌋ ≤ rhe q := by
  unfold rhe
  split_ifs <;> omega

theorem rhe_le_floor_add_one (q : ℚ) : rhe q ≤ ⌊q⌋ + 1 := by
  unfold rhe
  split_ifs <;> omega

theorem rhe_intCast (z : ℤ) : rhe ((z : ℤ) : ℚ) = z := by
  unfold rhe
  rw [Int.fract_intCast, if_pos (by norm_num)]
  exact Int.floor_intCast z

theorem natStr_len {m p : ℕ} (hp : 1 ≤ p) (h1 : 10 ^ (p - 1) ≤ m)
    (h2 : m < 10 ^ p) : (natStr m).length = p := by
  have hm0 : m ≠ 0 := by
    have : 0 < 10 ^ (p - 1) := Nat.pos_pow_of_pos _ (by norm_num)
    omega
  unfold natStr
  rw [if_neg hm0]
  simp only [List.length_map, List.length_reverse]
  rw [Nat.digits_len 10 m (by norm_num) hm0]
  have h2' : m < 10 ^ (p - 1 + 1) := by
    rwa [Nat.sub_add_cancel hp]
  have := Nat.log_eq_of_pow_le_of_lt_pow h1 h2'
  omega

theorem rstrip0_append_dot (A B : Str) :
    rstrip0 (A ++ '.' :: B) = A ++ '.' :: rstrip0 B := by
  unfold rstrip0
  rw [List.reverse_append, List.reverse_cons, List.append_assoc,
    List.singleton_append, List.dropWhile_append]
  by_cases hB : B.reverse.dropWhile (· == '0') = []
  · rw [hB]
    simp only [List.isEmpty_nil, if_true]
    rw [List.dropWhile_cons_of_neg (by decide)]
    simp
  · rw [if_neg (by simpa [List.isEmpty_iff] using hB)]
    rw [List.reverse_append]
    simp

theorem rstrip0_length_le (s : Str) : (rstrip0 s).length ≤ s.length := by
  unfold rstrip0
  rw [List.length_reverse]
  calc (s.reverse.dropWhile (· == '0')).length ≤ s.reverse.length :=
        (List.dropWhile_sublist _).length_le
  _ = s.length := List.length_reverse s

theorem rstrip0_subset {s : Str} : ∀ c ∈ rstrip0 s, c ∈ s := by
  intro c hc
  unfold rstrip0 at hc
  rw [List.mem_reverse] at hc
  have := (List.dropWhile_sublist (· == '0')).subset hc
  exact List.mem_reverse.mp this

theorem pyFind_append_cons (A B : Str) (c : Char) (hA : c ∉ A) :
    pyFind (A ++ c :: B) c = A.length := by
  unfold pyFind
  rw [List.findIdx?_append]
  have h1 : A.findIdx? (· == c) = none := by
    rw [List.findIdx?_eq_none_iff]
    intro x hx
    simp only [beq_eq_false_iff_ne, ne_eq]
    rintro rfl
    exact hA hx
  rw [h1]
  simp only [Option.none_or]
  rw [List.findIdx?_cons]
  simp only [beq_self_eq_true, cond_true, Option.map_some']
  norm_num

theorem pyFind_of_not_mem {s : Str} {c : Char} (h : c ∉ s) :
    pyFind s c = -1 := by
  unfold pyFind
  have h1 : s.findIdx? (· == c) = none := by
    rw [List.findIdx?_eq_none_iff]
    intro x hx
    simp only [beq_eq_false_iff_ne, ne_eq]
    rintro rfl
    exact h hx
  rw [h1]

theorem sigRound_bounds {p : ℕ} (hp : 1 ≤ p) {x : ℚ} (hx : 0 < x) :
    10 ^ (p - 1) ≤ (sigRound p x).1 ∧ (sigRound p x).1 < 10 ^ p := by
  have hq1 : ((10 ^ (p - 1) : ℕ) : ℚ) ≤ x * (10 : ℚ) ^ ((p : ℤ) - 1 - Int.log 10 x) := by
    have hlow : (10 : ℚ) ^ (Int.log 10 x) ≤ x :=
      Int.zpow_log_le_self (by norm_num) hx
    have hmul : (10 : ℚ) ^ (Int.log 10 x) * (10 : ℚ) ^ ((p : ℤ) - 1 - Int.log 10 x)
        ≤ x * (10 : ℚ) ^ ((p : ℤ) - 1 - Int.log 10 x) := by
      apply mul_le_mul_of_nonneg_right hlow
      positivity
    calc ((10 ^ (p - 1) : ℕ) : ℚ)
        = (10 : ℚ) ^ ((p : ℤ) - 1) := by
          push_cast
          rw [← zpow_natCast]
          congr 1
          omega
      _ = (10 : ℚ) ^ (Int.log 10 x) * (10 : ℚ) ^ ((p : ℤ) - 1 - Int.log 10 x) := by
          rw [← zpow_add₀ (by norm_num : (10 : ℚ) ≠ 0)]
          congr 1
          ring
      _ ≤ _ := hmul
  have hq2 : x * (10 : ℚ) ^ ((p : ℤ) - 1 - Int.log 10 x) < ((10 ^ p : ℕ) : ℚ) := by
    have hhigh : x < (10 : ℚ) ^ (Int.log 10 x + 1) :=
      Int.lt_zpow_succ_log_self (by norm_num) x
    have hmul : x * (10 : ℚ) ^ ((p : ℤ) - 1 - Int.log 10 x)
        < (10 : ℚ) ^ (Int.log 10 x + 1) * (10 : ℚ) ^ ((p : ℤ) - 1 - Int.log 10 x) := by
      apply mul_lt_mul_of_pos_right hhigh
      positivity
    calc x * (10 : ℚ) ^ ((p : ℤ) - 1 - Int.log 10 x)
        < (10 : ℚ) ^ (Int.log 10 x + 1) * (10 : ℚ) ^ ((p : ℤ) - 1 - Int.log 10 x) := hmul
      _ = (10 : ℚ) ^ (p : ℤ) := by
          rw [← zpow_add₀ (by norm_num : (10 : ℚ) ≠ 0)]
          congr 1
          ring
      _ = ((10 ^ p : ℕ) : ℚ) := by
          push_cast
          rw [← zpow_natCast]
  have hfl : ((10 ^ (p - 1) : ℕ) : ℤ) ≤ ⌊x * (10 : ℚ) ^ ((p : ℤ) - 1 - Int.log 10 x)⌋ :=
    Int.le_floor.mpr (by exact_mod_cast hq1)
  have hfu : ⌊x * (10 : ℚ) ^ ((p : ℤ) - 1 - Int.log 10 x)⌋ < ((10 ^ p : ℕ) : ℤ) :=
    Int.floor_lt.mpr (by exact_mod_cast hq2)
  have hr1 := floor_le_rhe (x * (10 : ℚ) ^ ((p : ℤ) - 1 - Int.log 10 x))
  have hr2 := rhe_le_floor_add_one (x * (10 : ℚ) ^ ((p : ℤ) - 1 - Int.log 10 x))
  unfold sigRound
  set n := (rhe (x * (10 : ℚ) ^ ((p : ℤ) - 1 - Int.log 10 x))).toNat with hn
  have h3 : ((10 ^ (p - 1) : ℕ) : ℤ)
      ≤ rhe (x * (10 : ℚ) ^ ((p : ℤ) - 1 - Int.log 10 x)) := le_trans hfl hr1
  have hge0 : 0 ≤ rhe (x * (10 : ℚ) ^ ((p : ℤ) - 1 - Int.log 10 x)) :=
    le_trans (Int.natCast_nonneg _) h3
  have hn1 : 10 ^ (p - 1) ≤ n := by
    rw [hn]
    exact (Int.le_toNat hge0).mpr h3
  have hn2 : n ≤ 10 ^ p := by
    rw [hn]
    exact Int.toNat_le.mpr (le_trans hr2 (Int.add_one_le_iff.mpr hfu))
  by_cases hcar : n = 10 ^ p
  · rw [if_pos hcar]
    constructor
    · exact le_refl _
    · exact Nat.pow_lt_pow_right (by norm_num) (by omega)
  · rw [if_neg hcar]
    exact ⟨hn1, by omega⟩

theorem sigRound_exp_lower {p : ℕ} {x : ℚ} (h1 : 1 / 10 ≤ x) (hx : 0 < x) :
    -1 ≤ (sigRound p x).2 := by
  have hlog : -1 ≤ Int.log 10 x := by
    rw [← Int.zpow_le_iff_le_log (by norm_num) hx, zpow_neg_one,
      show (((10 : ℕ) : ℚ))⁻¹ = 1 / 10 from by norm_num]
    exact h1
  simp only [sigRound]
  split_ifs <;> dsimp only <;> omega
theorem rstrip0_replicate (k : ℕ) : rstrip0 (List.replicate k '0') = [] := by
  unfold rstrip0
  rw [List.reverse_replicate]
  have h : (List.replicate k '0').dropWhile (· == '0') = [] := by
    induction k with
    | zero => rfl
    | succ n ih =>
      rw [List.replicate_succ, List.dropWhile_cons_of_pos (by decide)]
      exact ih
  rw [h]
  rfl

theorem gform_assemble {x : ℚ} {sd : ℕ} {A B : Str}
    (hs : (if (1 / 10 ≤ |x| ∧ |x| < 10 ^ sd) ∨ x = 0
        then rstrip0 (pctG sd x) else pctE (sd - 1) x) = A ++ '.' :: B)
    (hA : '.' ∉ A) (ha1 : 1 ≤ A.length) (ha2 : A.length ≤ sd + 1)
    (hb : B.length ≤ sd + 4) (hsd : 1 ≤ sd) :
    (gform x sd).length = 2 * sd + 6 ∧
    (gform x sd)[sd + 1]? = some '.' ∧
    (∀ c ∈ gform x sd, c = ' ' ∨ c = '.' ∨ c ∈ A ∨ c ∈ B) ∧
    (∀ c ∈ B, c ∈ gform x sd) ∧
    (∃ j, gform x sd = List.replicate (sd + 1 - A.length) ' '
      ++ (A ++ '.' :: B) ++ List.replicate j ' ') := by
  have hfind : pyFind (A ++ '.' :: B) '.' = A.length := pyFind_append_cons A B '.' hA
  have hw : sd + sd - 1 + 1 + 1 + 5 = 2 * sd + 6 := by omega
  simp only [gform, hs, hfind, hw]
  have hsp : ((sd : ℤ) + 1 - (A.length : ℤ)).toNat = sd + 1 - A.length := by omega
  rw [hsp]
  have hs2len : (List.replicate (sd + 1 - A.length) ' ' ++ (A ++ '.' :: B)).length
      = (sd + 1 - A.length) + (A.length + 1 + B.length) := by
    simp only [List.length_append, List.length_replicate, List.length_cons]
    omega
  rw [hs2len]
  refine ⟨?_, ?_, ?_, ?_, ?_⟩
  · simp only [List.length_append, List.length_replicate, List.length_cons]
    omega
  · have hassoc : List.replicate (sd + 1 - A.length) ' ' ++ (A ++ '.' :: B)
        ++ List.replicate (2 * sd + 6
            - ((sd + 1 - A.length) + (A.length + 1 + B.length))) ' '
        = (List.replicate (sd + 1 - A.length) ' ' ++ A)
          ++ '.' :: (B ++ List.replicate (2 * sd + 6
            - ((sd + 1 - A.length) + (A.length + 1 + B.length))) ' ') := by
      simp [List.append_assoc]
    rw [hassoc]
    have hylen : (List.replicate (sd + 1 - A.length) ' ' ++ A).length = sd + 1 := by
      simp only [List.length_append, List.length_replicate]
      omega
    rw [List.getElem?_append_right (by omega)]
    rw [hylen]
    simp
  · intro c hc
    rcases List.mem_append.mp hc with hc1 | hc2
    · rcases List.mem_append.mp hc1 with hc3 | hc4
      · exact Or.inl (List.eq_of_mem_replicate hc3)
      · rcases List.mem_append.mp hc4 with hc5 | hc6
        · exact Or.inr (Or.inr (Or.inl hc5))
        · rcases List.mem_cons.mp hc6 with hc7 | hc8
          · exact Or.inr (Or.inl hc7)
          · exact Or.inr (Or.inr (Or.inr hc8))
    · exact Or.inl (List.eq_of_mem_replicate hc2)
  · intro c hc
    exact List.mem_append.mpr (Or.inl (List.mem_append.mpr (Or.inr
      (List.mem_append.mpr (Or.inr (List.mem_cons_of_mem _ hc))))))
  · exact ⟨_, rfl⟩

theorem gform_assemble_nodot {x : ℚ} {sd : ℕ} {S : Str}
    (hs : (if (1 / 10 ≤ |x| ∧ |x| < 10 ^ sd) ∨ x = 0
        then rstrip0 (pctG sd x) else pctE (sd - 1) x) = S)
    (hS : '.' ∉ S) (hlen : S.length ≤ sd + 4) (hsd : 1 ≤ sd) :
    (gform x sd).length = 2 * sd + 6 ∧
    (∀ c ∈ S, c ∈ gform x sd) := by
  have hfind : pyFind S '.' = -1 := pyFind_of_not_mem hS
  have hw : sd + sd - 1 + 1 + 1 + 5 = 2 * sd + 6 := by omega
  simp only [gform, hs, hfind, hw]
  have hsp : ((sd : ℤ) + 1 - (-1)).toNat = sd + 2 := by omega
  rw [hsp]
  have hs2len : (List.replicate (sd + 2) ' ' ++ S).length = (sd + 2) + S.length := by
    simp [List.length_append, List.length_replicate]
  rw [hs2len]
  constructor
  · simp only [List.length_append, List.length_replicate]
    omega
  · intro c hc
    exact List.mem_append.mpr (Or.inl (List.mem_append.mpr (Or.inr hc)))

theorem not_e_of_digits {A B g : Str}
    (hclass : ∀ c ∈ g, c = ' ' ∨ c = '.' ∨ c ∈ A ∨ c ∈ B)
    (hAdig : ∀ c ∈ A, c.isDigit = true) (hBdig : ∀ c ∈ B, c.isDigit = true) :
    'e' ∉ g ∧ 'E' ∉ g := by
  constructor <;> intro hc <;> rcases hclass _ hc with h | h | h | h
  · exact absurd h (by decide)
  · exact absurd h (by decide)
  · exact absurd (hAdig _ h) (by decide)
  · exact absurd (hBdig _ h) (by decide)
  · exact absurd h (by decide)
  · exact absurd h (by decide)
  · exact absurd (hAdig _ h) (by decide)
  · exact absurd (hBdig _ h) (by decide)

theorem not_e_of_sign_digits {A B g : Str}
    (hclass : ∀ c ∈ g, c = ' ' ∨ c = '.' ∨ c ∈ A ∨ c ∈ B)
    (hAdig : ∀ c ∈ A, c.isDigit = true ∨ c = '-')
    (hBdig : ∀ c ∈ B, c.isDigit = true) :
    'e' ∉ g ∧ 'E' ∉ g := by
  constructor <;> intro hc
  · rcases hclass _ hc with h | h | h | h
    · exact absurd h (by decide)
    · exact absurd h (by decide)
    · rcases hAdig _ h with hd | hd
      · exact absurd hd (by decide)
      · exact absurd hd (by decide)
    · exact absurd (hBdig _ h) (by decide)
  · rcases hclass _ hc with h | h | h | h
    · exact absurd h (by decide)
    · exact absurd h (by decide)
    · rcases hAdig _ h with hd | hd
      · exact absurd hd (by decide)
      · exact absurd hd (by decide)
    · exact absurd (hBdig _ h) (by decide)

theorem gform_zero {sd : ℕ} (hsd : 1 ≤ sd) :
    (gform 0 sd).length = 2 * sd + 6 ∧
    (gform 0 sd)[sd + 1]? = some '.' ∧
    'e' ∉ gform 0 sd ∧ 'E' ∉ gform 0 sd := by
  have hpg : pctG sd (0 : ℚ) = '0' :: '.' :: List.replicate (sd - 1) '0' := by
    unfold pctG
    rw [if_pos rfl]
  have hs : (if (1 / 10 ≤ |(0 : ℚ)| ∧ |(0 : ℚ)| < 10 ^ sd) ∨ (0 : ℚ) = 0
      then rstrip0 (pctG sd 0) else pctE (sd - 1) 0)
      = ['0'] ++ '.' :: ([] : Str) := by
    rw [if_pos (Or.inr rfl), hpg]
    rw [show ('0' :: '.' :: List.replicate (sd - 1) '0' : Str)
        = ['0'] ++ '.' :: List.replicate (sd - 1) '0' from rfl]
    rw [rstrip0_append_dot, rstrip0_replicate]
  obtain ⟨hg1, hg2, hg3, _⟩ := gform_assemble hs (by decide) (by decide)
    (by simp only [List.length_singleton]; omega)
    (by simp only [List.length_nil]; omega) hsd
  have hne := not_e_of_digits hg3
    (by
      intro c hc
      simp only [List.mem_singleton] at hc
      subst hc
      decide)
    (fun c hc => absurd hc (List.not_mem_nil c))
  exact ⟨hg1, hg2, hne.1, hne.2⟩

theorem gform_plain {x : ℚ} {sd : ℕ} (hsd : 1 ≤ sd) (hx : x ≠ 0)
    (h1 : 1 / 10 ≤ |x|) (h2 : |x| < 10 ^ sd)
    (hnc : (sigRound sd |x|).2 < (sd : ℤ)) :
    (gform x sd).length = 2 * sd + 6 ∧
    (gform x sd)[sd + 1]? = some '.' ∧
    'e' ∉ gform x sd ∧ 'E' ∉ gform x sd := by
  have hapos : 0 < |x| := abs_pos.mpr hx
  have hel : -1 ≤ (sigRound sd |x|).2 := sigRound_exp_lower h1 hapos
  obtain ⟨hb1, hb2⟩ := sigRound_bounds hsd hapos
  have hcond : (1 / 10 ≤ |x| ∧ |x| < 10 ^ sd) ∨ x = 0 := Or.inl ⟨h1, h2⟩
  have hsgn_nd : '.' ∉ (if x < 0 then (['-'] : Str) else []) := by
    split_ifs <;> decide
  have hsgn_dig : ∀ c ∈ (if x < 0 then (['-'] : Str) else []),
      c.isDigit = true ∨ c = '-' := by
    split_ifs
    · intro c hc
      simp only [List.mem_singleton] at hc
      exact Or.inr hc
    · intro c hc
      exact absurd hc (List.not_mem_nil c)
  have hsgl : (if x < 0 then (['-'] : Str) else []).length ≤ 1 := by
    split_ifs <;> simp
  have hin : -4 ≤ (sigRound sd |x|).2 ∧ (sigRound sd |x|).2 < (sd : ℤ) :=
    ⟨by omega, hnc⟩
  have hpg : pctG sd x = (if x < 0 then ['-'] else [])
      ++ fixedRender sd (sigRound sd |x|).1 (sigRound sd |x|).2 := by
    unfold pctG
    rw [if_neg hx, if_pos hin]
  have hdig : ∀ c ∈ natStr (sigRound sd |x|).1, c.isDigit = true :=
    natStr_digits _
  by_cases hepos : 0 ≤ (sigRound sd |x|).2
  · set E := (sigRound sd |x|).2.toNat with hE
    have hEsd : E ≤ sd - 1 := by omega
    have hfr : fixedRender sd (sigRound sd |x|).1 (sigRound sd |x|).2
        = mantissaRender (sd - 1 - E) (sigRound sd |x|).1 true := by
      unfold fixedRender
      rw [if_pos hepos]
    by_cases hdd : sd - 1 - E = 0
    · have hmr : mantissaRender (sd - 1 - E) (sigRound sd |x|).1 true
          = natStr (sigRound sd |x|).1 ++ '.' :: [] := by
        unfold mantissaRender
        rw [hdd, if_pos rfl, if_pos rfl, pow_zero, Nat.div_one]
      have hs : (if (1 / 10 ≤ |x| ∧ |x| < 10 ^ sd) ∨ x = 0
          then rstrip0 (pctG sd x) else pctE (sd - 1) x)
          = ((if x < 0 then ['-'] else []) ++ natStr (sigRound sd |x|).1)
            ++ '.' :: [] := by
        rw [if_pos hcond, hpg, hfr, hmr, ← List.append_assoc,
          rstrip0_append_dot]
        rfl
      have hlenA : (natStr (sigRound sd |x|).1).length = sd :=
        natStr_len hsd hb1 hb2
      have hAnd : '.' ∉ (if x < 0 then (['-'] : Str) else [])
          ++ natStr (sigRound sd |x|).1 := by
        intro hc
        rcases List.mem_append.mp hc with hc1 | hc2
        · exact hsgn_nd hc1
        · exact absurd (hdig _ hc2) (by decide)
      obtain ⟨hg1, hg2, hg3, _, _⟩ := gform_assemble hs hAnd
        (by simp only [List.length_append, hlenA]; omega)
        (by simp only [List.length_append, hlenA]; omega)
        (by simp only [List.length_nil]; omega) hsd
      have hAsd : ∀ c ∈ (if x < 0 then (['-'] : Str) else [])
          ++ natStr (sigRound sd |x|).1, c.isDigit = true ∨ c = '-' := by
        intro c hc
        rcases List.mem_append.mp hc with hc1 | hc2
        · exact hsgn_dig c hc1
        · exact Or.inl (hdig _ hc2)
      have hne := not_e_of_sign_digits hg3 hAsd
        (fun c hc => absurd hc (List.not_mem_nil c))
      exact ⟨hg1, hg2, hne.1, hne.2⟩
    · have hpow0 : (0 : ℕ) < 10 ^ (sd - 1 - E) :=
        Nat.pos_pow_of_pos _ (by norm_num)
      have hmr : mantissaRender (sd - 1 - E) (sigRound sd |x|).1 true
          = natStr ((sigRound sd |x|).1 / 10 ^ (sd - 1 - E))
            ++ '.' :: natStrPad (sd - 1 - E)
              ((sigRound sd |x|).1 % 10 ^ (sd - 1 - E)) := by
        unfold mantissaRender
        rw [if_neg hdd]
      have hs : (if (1 / 10 ≤ |x| ∧ |x| < 10 ^ sd) ∨ x = 0
          then rstrip0 (pctG sd x) else pctE (sd - 1) x)
          = ((if x < 0 then ['-'] else [])
              ++ natStr ((sigRound sd |x|).1 / 10 ^ (sd - 1 - E)))
            ++ '.' :: rstrip0 (natStrPad (sd - 1 - E)
              ((sigRound sd |x|).1 % 10 ^ (sd - 1 - E))) := by
        rw [if_pos hcond, hpg, hfr, hmr, ← List.append_assoc,
          rstrip0_append_dot]
      have hq1 : 10 ^ (sd - 1 - (sd - 1 - E))
          ≤ (sigRound sd |x|).1 / 10 ^ (sd - 1 - E) := by
        rw [Nat.le_div_iff_mul_le hpow0, ← pow_add]
        calc 10 ^ (sd - 1 - (sd - 1 - E) + (sd - 1 - E)) = 10 ^ (sd - 1) := by
              congr 1
              omega
        _ ≤ (sigRound sd |x|).1 := hb1
      have hq2 : (sigRound sd |x|).1 / 10 ^ (sd - 1 - E)
          < 10 ^ (sd - (sd - 1 - E)) := by
        rw [Nat.div_lt_iff_lt_mul hpow0, ← pow_add]
        calc (sigRound sd |x|).1 < 10 ^ sd := hb2
        _ = 10 ^ (sd - (sd - 1 - E) + (sd - 1 - E)) := by
              congr 1
              omega
      have hq2' : (sigRound sd |x|).1 / 10 ^ (sd - 1 - E)
          < 10 ^ (sd - (sd - 1 - E) - 1 + 1) := by
        calc (sigRound sd |x|).1 / 10 ^ (sd - 1 - E)
            < 10 ^ (sd - (sd - 1 - E)) := hq2
        _ = 10 ^ (sd - (sd - 1 - E) - 1 + 1) := by
              congr 1
              omega
      have hq1' : 10 ^ (sd - (sd - 1 - E) - 1)
          ≤ (sigRound sd |x|).1 / 10 ^ (sd - 1 - E) := by
        calc 10 ^ (sd - (sd - 1 - E) - 1) = 10 ^ (sd - 1 - (sd - 1 - E)) := by
              congr 1
              omega
        _ ≤ _ := hq1
      have hlenA : (natStr ((sigRound sd |x|).1 / 10 ^ (sd - 1 - E))).length
          = sd - (sd - 1 - E) := by
        apply natStr_len (by omega) hq1'
        rwa [Nat.sub_add_cancel (by omega)] at hq2'
      have hAdig : ∀ c ∈ natStr ((sigRound sd |x|).1 / 10 ^ (sd - 1 - E)),
          c.isDigit = true := natStr_digits _
      have hAnd : '.' ∉ (if x < 0 then (['-'] : Str) else [])
          ++ natStr ((sigRound sd |x|).1 / 10 ^ (sd - 1 - E)) := by
        intro hc
        rcases List.mem_append.mp hc with hc1 | hc2
        · exact hsgn_nd hc1
        · exact absurd (hAdig _ hc2) (by decide)
      have hBdig : ∀ c ∈ rstrip0 (natStrPad (sd - 1 - E)
          ((sigRound sd |x|).1 % 10 ^ (sd - 1 - E))), c.isDigit = true :=
        fun c hc => natStrPad_digits _ _ c (rstrip0_subset c hc)
      have hBlen : (rstrip0 (natStrPad (sd - 1 - E)
          ((sigRound sd |x|).1 % 10 ^ (sd - 1 - E)))).length ≤ sd - 1 - E := by
        calc (rstrip0 (natStrPad (sd - 1 - E)
            ((sigRound sd |x|).1 % 10 ^ (sd - 1 - E)))).length
            ≤ (natStrPad (sd - 1 - E)
              ((sigRound sd |x|).1 % 10 ^ (sd - 1 - E))).length :=
              rstrip0_length_le _
        _ = sd - 1 - E := natStrPad_length (Nat.mod_lt _ hpow0) (by omega)
      obtain ⟨hg1, hg2, hg3, _, _⟩ := gform_assemble hs hAnd
        (by simp only [List.length_append, hlenA]; omega)
        (by simp only [List.length_append, hlenA]; omega)
        (by omega) hsd
      have hAsd : ∀ c ∈ (if x < 0 then (['-'] : Str) else [])
          ++ natStr ((sigRound sd |x|).1 / 10 ^ (sd - 1 - E)),
          c.isDigit = true ∨ c = '-' := by
        intro c hc
        rcases List.mem_append.mp hc with hc1 | hc2
        · exact hsgn_dig c hc1
        · exact Or.inl (hAdig _ hc2)
      have hne := not_e_of_sign_digits hg3 hAsd hBdig
      exact ⟨hg1, hg2, hne.1, hne.2⟩
  · have hem1 : (sigRound sd |x|).2 = -1 := by omega
    have hfr : fixedRender sd (sigRound sd |x|).1 (sigRound sd |x|).2
        = ['0'] ++ '.' :: natStrPad sd (sigRound sd |x|).1 := by
      unfold fixedRender
      rw [if_neg (by omega), hem1]
      norm_num
    have hs : (if (1 / 10 ≤ |x| ∧ |x| < 10 ^ sd) ∨ x = 0
        then rstrip0 (pctG sd x) else pctE (sd - 1) x)
        = ((if x < 0 then ['-'] else []) ++ ['0'])
          ++ '.' :: rstrip0 (natStrPad sd (sigRound sd |x|).1) := by
      rw [if_pos hcond, hpg, hfr, ← List.append_assoc, rstrip0_append_dot]
    have hAsd : ∀ c ∈ (if x < 0 then (['-'] : Str) else []) ++ ['0'],
        c.isDigit = true ∨ c = '-' := by
      intro c hc
      rcases List.mem_append.mp hc with hc1 | hc2
      · exact hsgn_dig c hc1
      · simp only [List.mem_singleton] at hc2
        subst hc2
        exact Or.inl (by decide)
    have hAnd : '.' ∉ (if x < 0 then (['-'] : Str) else []) ++ ['0'] := by
      intro hc
      rcases List.mem_append.mp hc with hc1 | hc2
      · exact hsgn_nd hc1
      · exact absurd hc2 (by decide)
    have hBdig : ∀ c ∈ rstrip0 (natStrPad sd (sigRound sd |x|).1),
        c.isDigit = true :=
      fun c hc => natStrPad_digits _ _ c (rstrip0_subset c hc)
    have hBlen : (rstrip0 (natStrPad sd (sigRound sd |x|).1)).length ≤ sd := by
      calc (rstrip0 (natStrPad sd (sigRound sd |x|).1)).length
          ≤ (natStrPad sd (sigRound sd |x|).1).length := rstrip0_length_le _
      _ = sd := natStrPad_length hb2 hsd
    obtain ⟨hg1, hg2, hg3, _, _⟩ := gform_assemble hs hAnd
      (by simp only [List.length_append, List.length_singleton]; omega)
      (by simp only [List.length_append, List.length_singleton]; omega)
      (by omega) hsd
    have hne := not_e_of_sign_digits hg3 hAsd hBdig
    exact ⟨hg1, hg2, hne.1, hne.2⟩

theorem gform_sci {x : ℚ} {sd : ℕ} (hsd : 1 ≤ sd) (hx : x ≠ 0)
    (hr : |x| < 1 / 10 ∨ 10 ^ sd ≤ |x|)
    (hexp : (sigRound sd |x|).2.natAbs ≤ 999)
    (hcase : 2 ≤ sd ∨ (0 < x ∧ (sigRound sd |x|).2.natAbs ≤ 99)) :
    (gform x sd).length = 2 * sd + 6 ∧ 'E' ∈ gform x sd ∧
    (2 ≤ sd → ∃ k j, gform x sd
      = List.replicate k ' '
        ++ (((if x < 0 then ['-'] else [])
            ++ natStr ((sigRound sd |x|).1 / 10 ^ (sd - 1)))
          ++ '.' :: (natStrPad (sd - 1) ((sigRound sd |x|).1 % 10 ^ (sd - 1))
            ++ expRender 'E' (sigRound sd |x|).2))
        ++ List.replicate j ' ' ∧
      (natStr ((sigRound sd |x|).1 / 10 ^ (sd - 1))).length = 1 ∧
      (natStrPad (sd - 1) ((sigRound sd |x|).1 % 10 ^ (sd - 1))).length
        = sd - 1) := by
  have hapos : 0 < |x| := abs_pos.mpr hx
  obtain ⟨hb1, hb2⟩ := sigRound_bounds hsd hapos
  have hcond : ¬ ((1 / 10 ≤ |x| ∧ |x| < 10 ^ sd) ∨ x = 0) := by
    rintro (⟨hc1, hc2⟩ | hc0)
    · rcases hr with h | h
      · linarith
      · linarith
    · exact hx hc0
  have hsub : sd - 1 + 1 = sd := Nat.sub_add_cancel hsd
  have hpe : pctE (sd - 1) x
      = (if x < 0 then ['-'] else [])
        ++ mantissaRender (sd - 1) (sigRound sd |x|).1 false
        ++ expRender 'E' (sigRound sd |x|).2 := by
    unfold pctE
    rw [if_neg hx, hsub]
  have hpadE3 : (natStrPad 2 (sigRound sd |x|).2.natAbs).length ≤ 3 := by
    have hL : (natStr (sigRound sd |x|).2.natAbs).length ≤ 3 :=
      natStr_len_le
        (show (sigRound sd |x|).2.natAbs < 10 ^ 3 by
          have h3 : (10 : ℕ) ^ 3 = 1000 := by norm_num
          omega)
        (by norm_num)
    unfold natStrPad
    simp only [List.length_append, List.length_replicate]
    omega
  have hpadEdig : ∀ c ∈ natStrPad 2 (sigRound sd |x|).2.natAbs,
      c.isDigit = true := natStrPad_digits _ _
  have hexplen : (expRender 'E' (sigRound sd |x|).2).length ≤ 5 := by
    unfold expRender
    simp only [List.length_cons]
    omega
  have hsgn_nd : '.' ∉ (if x < 0 then (['-'] : Str) else []) := by
    split_ifs <;> decide
  by_cases hsd2 : 2 ≤ sd
  · have hsd1 : sd - 1 ≠ 0 := by omega
    have hpow0 : (0 : ℕ) < 10 ^ (sd - 1) := Nat.pos_pow_of_pos _ (by norm_num)
    have hmr : mantissaRender (sd - 1) (sigRound sd |x|).1 false
        = natStr ((sigRound sd |x|).1 / 10 ^ (sd - 1))
          ++ '.' :: natStrPad (sd - 1) ((sigRound sd |x|).1 % 10 ^ (sd - 1)) := by
      unfold mantissaRender
      rw [if_neg hsd1]
    have hS : (if (1 / 10 ≤ |x| ∧ |x| < 10 ^ sd) ∨ x = 0
        then rstrip0 (pctG sd x) else pctE (sd - 1) x)
        = ((if x < 0 then ['-'] else [])
            ++ natStr ((sigRound sd |x|).1 / 10 ^ (sd - 1)))
          ++ '.' :: (natStrPad (sd - 1) ((sigRound sd |x|).1 % 10 ^ (sd - 1))
            ++ expRender 'E' (sigRound sd |x|).2) := by
      rw [if_neg hcond, hpe, hmr]
      simp [List.append_assoc]
    have hq1 : 1 ≤ (sigRound sd |x|).1 / 10 ^ (sd - 1) :=
      (Nat.one_le_div_iff hpow0).mpr hb1
    have hq2 : (sigRound sd |x|).1 / 10 ^ (sd - 1) < 10 := by
      rw [Nat.div_lt_iff_lt_mul hpow0]
      calc (sigRound sd |x|).1 < 10 ^ sd := hb2
      _ = 10 * 10 ^ (sd - 1) := by
            rw [← pow_succ']
            congr 1
            omega
    have hlenA0 : (natStr ((sigRound sd |x|).1 / 10 ^ (sd - 1))).length = 1 := by
      apply natStr_len (by omega)
      · simpa using hq1
      · simpa using hq2
    have hlenPad : (natStrPad (sd - 1)
        ((sigRound sd |x|).1 % 10 ^ (sd - 1))).length = sd - 1 :=
      natStrPad_length (Nat.mod_lt _ hpow0) (by omega)
    have hAdig : ∀ c ∈ natStr ((sigRound sd |x|).1 / 10 ^ (sd - 1)),
        c.isDigit = true := natStr_digits _
    have hAnd : '.' ∉ (if x < 0 then (['-'] : Str) else [])
        ++ natStr ((sigRound sd |x|).1 / 10 ^ (sd - 1)) := by
      intro hc
      rcases List.mem_append.mp hc with hc1 | hc2
      · exact hsgn_nd hc1
      · exact absurd (hAdig _ hc2) (by decide)
    have hsgl : (if x < 0 then (['-'] : Str) else []).length ≤ 1 := by
      split_ifs <;> simp
    have hBlen : (natStrPad (sd - 1) ((sigRound sd |x|).1 % 10 ^ (sd - 1))
        ++ expRender 'E' (sigRound sd |x|).2).length ≤ sd + 4 := by
      simp only [List.length_append, hlenPad]
      omega
    obtain ⟨hg1, hg2, hg3, hg4, hg5⟩ := gform_assemble hS hAnd
      (by simp only [List.length_append, hlenA0]; omega)
      (by simp only [List.length_append, hlenA0]; omega)
      hBlen hsd
    refine ⟨hg1, hg4 'E' ?_, fun _ => ?_⟩
    · exact List.mem_append.mpr (Or.inr (List.mem_cons_self _ _))
    · obtain ⟨j, hj⟩ := hg5
      exact ⟨_, j, hj, hlenA0, hlenPad⟩
  · obtain ⟨hxpos, hexp99⟩ := hcase.resolve_left hsd2
    have hsd1 : sd - 1 = 0 := by omega
    have hxneg : ¬ x < 0 := not_lt.mpr (le_of_lt hxpos)
    have hmr : mantissaRender (sd - 1) (sigRound sd |x|).1 false
        = natStr (sigRound sd |x|).1 := by
      unfold mantissaRender
      rw [hsd1, if_pos rfl, if_neg (by decide), pow_zero, Nat.div_one,
        List.append_nil]
    have hS : (if (1 / 10 ≤ |x| ∧ |x| < 10 ^ sd) ∨ x = 0
        then rstrip0 (pctG sd x) else pctE (sd - 1) x)
        = natStr (sigRound sd |x|).1 ++ expRender 'E' (sigRound sd |x|).2 := by
      rw [if_neg hcond, hpe, hmr, if_neg hxneg, List.nil_append]
    have hlenA : (natStr (sigRound sd |x|).1).length = sd :=
      natStr_len hsd hb1 hb2
    have hpadE2 : (natStrPad 2 (sigRound sd |x|).2.natAbs).length = 2 :=
      natStrPad_length
        (show (sigRound sd |x|).2.natAbs < 10 ^ 2 by
          have h2 : (10 : ℕ) ^ 2 = 100 := by norm_num
          omega)
        (by omega)
    have hnd : '.' ∉ natStr (sigRound sd |x|).1
        ++ expRender 'E' (sigRound sd |x|).2 := by
      intro hc
      rcases List.mem_append.mp hc with hc1 | hc2
      · exact absurd (natStr_digits _ _ hc1) (by decide)
      · unfold expRender at hc2
        rcases List.mem_cons.mp hc2 with hc3 | hc4
        · exact absurd hc3 (by decide)
        · rcases List.mem_cons.mp hc4 with hc5 | hc6
          · rcases lt_or_ge (sigRound sd |x|).2 0 with he | he
            · rw [if_pos he] at hc5
              exact absurd hc5 (by decide)
            · rw [if_neg (not_lt.mpr he)] at hc5
              exact absurd hc5 (by decide)
          · exact absurd (hpadEdig _ hc6) (by decide)
    have hSlen : (natStr (sigRound sd |x|).1
        ++ expRender 'E' (sigRound sd |x|).2).length ≤ sd + 4 := by
      rw [List.length_append, hlenA]
      unfold expRender
      simp only [List.length_cons, hpadE2]
      omega
    obtain ⟨hg1, hg2⟩ := gform_assemble_nodot hS hnd hSlen hsd
    refine ⟨hg1, hg2 'E' ?_, fun h => absurd h hsd2⟩
    exact List.mem_append.mpr (Or.inr (List.mem_cons_self _ _))

/-- Claim C6 (amended): for every number — zero, positive or negative —
and every `significant_digits ≥ 1`, `gform` pads to a fixed total
width of `2·significant_digits + 6` (not `+ 5`).  Plain notation, with
the dot at column `significant_digits + 1` and no exponent character,
is produced for zero and whenever `0.1 ≤ |x| < 10^significant_digits`
and rounding to `significant_digits` significant digits does not carry
out of that range.  Otherwise the output is scientific notation — one
leading mantissa digit and, for `significant_digits ≥ 2`, a dot and
exactly `significant_digits - 1` further mantissa digits, followed by
an `E` exponent — at the same fixed width, provided the decimal
exponent has at most three digits (always the case for IEEE doubles)
and, when `significant_digits = 1` (where the mantissa has no dot),
the number is positive with a two-digit exponent. -/
theorem gform_spec (x : ℚ) (sd : ℕ) (hsd : 1 ≤ sd) :
    (x = 0 →
      (gform x sd).length = 2 * sd + 6 ∧
      (gform x sd)[sd + 1]? = some '.' ∧
      'e' ∉ gform x sd ∧ 'E' ∉ gform x sd) ∧
    (x ≠ 0 → 1 / 10 ≤ |x| → |x| < 10 ^ sd → (sigRound sd |x|).2 < (sd : ℤ) →
      (gform x sd).length = 2 * sd + 6 ∧
      (gform x sd)[sd + 1]? = some '.' ∧
      'e' ∉ gform x sd ∧ 'E' ∉ gform x sd) ∧
    (x ≠ 0 → (|x| < 1 / 10 ∨ 10 ^ sd ≤ |x|) →
      (sigRound sd |x|).2.natAbs ≤ 999 →
      (2 ≤ sd ∨ (0 < x ∧ (sigRound sd |x|).2.natAbs ≤ 99)) →
      (gform x sd).length = 2 * sd + 6 ∧ 'E' ∈ gform x sd ∧
      (2 ≤ sd → ∃ k j, gform x sd
        = List.replicate k ' '
          ++ (((if x < 0 then ['-'] else [])
              ++ natStr ((sigRound sd |x|).1 / 10 ^ (sd - 1)))
            ++ '.' :: (natStrPad (sd - 1)
                ((sigRound sd |x|).1 % 10 ^ (sd - 1))
              ++ expRender 'E' (sigRound sd |x|).2))
          ++ List.replicate j ' ' ∧
        (natStr ((sigRound sd |x|).1 / 10 ^ (sd - 1))).length = 1 ∧
        (natStrPad (sd - 1) ((sigRound sd |x|).1 % 10 ^ (sd - 1))).length
          = sd - 1)) := by
  refine ⟨fun h0 => ?_, fun hx h1 h2 hnc => gform_plain hsd hx h1 h2 hnc,
    fun hx hr hexp hcase => gform_sci hsd hx hr hexp hcase⟩
  subst h0
  exact gform_zero hsd

theorem digits10_1 : Nat.digits 10 1 = [1] := by norm_num

theorem log10_123 : Int.log 10 (123 : ℚ) = 2 := by
  rw [show (123 : ℚ) = ((123 : ℕ) : ℚ) from by norm_num, Int.log_natCast]
  have : Nat.log 10 123 = 2 :=
    Nat.log_eq_of_pow_le_of_lt_pow (by norm_num) (by norm_num)
  exact_mod_cast this

theorem sigRound_123 : sigRound 3 (123 : ℚ) = (123, 2) := by
  simp only [sigRound, log10_123]
  rw [show (((3 : ℕ) : ℤ)) - 1 - 2 = 0 from by norm_num, zpow_zero, mul_one]
  rw [show (123 : ℚ) = ((123 : ℤ) : ℚ) from by norm_num, rhe_intCast]
  rw [show Int.toNat 123 = 123 from rfl]
  norm_num

theorem log10_9995e_1 : Int.log 10 (1999 / 2 : ℚ) = 2 := by
  rw [Int.log_of_one_le_right 10 (by norm_num)]
  have hfl : ⌊(1999 / 2 : ℚ)⌋₊ = 999 := by
    rw [Nat.floor_eq_iff (by positivity)]
    norm_num
  rw [hfl]
  have : Nat.log 10 999 = 2 :=
    Nat.log_eq_of_pow_le_of_lt_pow (by norm_num) (by norm_num)
  exact_mod_cast this

theorem rhe_9995e_1 : rhe (1999 / 2 : ℚ) = 1000 := by
  have hfl : ⌊(1999 / 2 : ℚ)⌋ = 999 := by
    rw [Int.floor_eq_iff]
    norm_num
  unfold rhe
  rw [Int.fract, hfl]
  norm_num

theorem sigRound_9995e_1 : sigRound 3 (1999 / 2 : ℚ) = (100, 3) := by
  simp only [sigRound, log10_9995e_1]
  rw [show (((3 : ℕ) : ℤ)) - 1 - 2 = 0 from by norm_num, zpow_zero, mul_one,
    rhe_9995e_1]
  rw [show Int.toNat 1000 = 1000 from rfl]
  norm_num

theorem natStr_123 : natStr 123 = ['1', '2', '3'] := by
  unfold natStr
  rw [if_neg (by norm_num), show Nat.digits 10 123 = [3, 2, 1] from by norm_num]
  decide

theorem natStr_1 : natStr 1 = ['1'] := by
  unfold natStr
  rw [if_neg (by norm_num), digits10_1]
  decide

theorem pctG_9995e_1 : pctG 3 (1999 / 2 : ℚ)
    = "1.00e+03".toList := by
  unfold pctG
  rw [if_neg (by norm_num), if_neg (by norm_num),
    show |(1999 / 2 : ℚ)| = 1999 / 2 from by rw [abs_of_pos]; norm_num,
    sigRound_9995e_1]
  rw [if_neg (by norm_num)]
  unfold mantissaRender expRender
  norm_num
  rw [natStr_1, natStrPad2_eq (show (0 : ℕ) ≤ 99 from by norm_num),
    natStrPad2_eq (show (3 : ℕ) ≤ 99 from by norm_num)]
  decide

theorem log10_100000 : Int.log 10 (100000 : ℚ) = 5 := by
  rw [show (100000 : ℚ) = ((100000 : ℕ) : ℚ) from by norm_num, Int.log_natCast]
  have : Nat.log 10 100000 = 5 :=
    Nat.log_eq_of_pow_le_of_lt_pow (by norm_num) (by norm_num)
  exact_mod_cast this

theorem sigRound_100000 : sigRound 1 (100000 : ℚ) = (1, 5) := by
  simp only [sigRound, log10_100000]
  rw [show (((1 : ℕ) : ℤ)) - 1 - 5 = -5 from by norm_num]
  rw [show (100000 : ℚ) * (10 : ℚ) ^ (-5 : ℤ) = ((1 : ℤ) : ℚ) from by
    rw [show (-5 : ℤ) = -((5 : ℕ) : ℤ) from rfl, zpow_neg, zpow_natCast]
    norm_num]
  rw [rhe_intCast, show Int.toNat 1 = 1 from rfl]
  norm_num

theorem pctE_neg100000 : pctE 0 (-(100000 : ℚ)) = "-1E+05".toList := by
  have habs : |(-(100000 : ℚ))| = 100000 := by
    rw [abs_neg, abs_of_pos (by norm_num : (0 : ℚ) < 100000)]
  unfold pctE
  rw [if_neg (by norm_num : ¬ (-(100000 : ℚ)) = 0),
    if_pos (by norm_num : (-(100000 : ℚ)) < 0), habs,
    show (0 : ℕ) + 1 = 1 from rfl, sigRound_100000]
  dsimp only
  rw [show mantissaRender 0 1 false = ['1'] from by
    unfold mantissaRender
    rw [if_pos rfl, if_neg (by decide), pow_zero, Nat.div_one, natStr_1,
      List.append_nil]]
  unfold expRender
  rw [if_neg (by norm_num : ¬ ((5 : ℤ) < 0)),
    show (5 : ℤ).natAbs = 5 from rfl,
    natStrPad2_eq (show (5 : ℕ) ≤ 99 from by norm_num)]
  decide

theorem gform_neg100000 : gform (-(100000 : ℚ)) 1 = "   -1E+05".toList := by
  have habs : |(-(100000 : ℚ))| = 100000 := by
    rw [abs_neg, abs_of_pos (by norm_num : (0 : ℚ) < 100000)]
  have hcond : ¬ ((1 / 10 ≤ |(-(100000 : ℚ))| ∧ |(-(100000 : ℚ))| < 10 ^ 1)
      ∨ (-(100000 : ℚ)) = 0) := by
    rw [habs]
    norm_num
  simp only [gform, if_neg hcond]
  rw [show pctE (1 - 1) (-(100000 : ℚ)) = "-1E+05".toList from pctE_neg100000]
  rw [show pyFind ("-1E+05".toList) '.' = -1 from by decide]
  decide

/-- Claim C6, counterexample to the original wording: the fixed width
is `2·significant_digits + 6`, not `2·significant_digits + 5`
(`gform(123, 3)` is 12 characters wide); a number inside the
plain-notation range can still be printed in exponent notation when
rounding carries it to `10^significant_digits` (`gform(999.5, 3)`
contains `'e'`); and with `significant_digits = 1` a negative number
in scientific mode overruns even the corrected fixed width
(`gform(-1e5, 1)` is 9 characters, not `2·1 + 6 = 8`). -/
theorem gform_claim_counterexample :
    (gform 123 3).length = 12 ∧ 2 * 3 + 5 ≠ 12 ∧
    (1 / 10 ≤ |(1999 / 2 : ℚ)| ∧ |(1999 / 2 : ℚ)| < 10 ^ 3) ∧
    'e' ∈ gform (1999 / 2) 3 ∧
    (gform (-(100000 : ℚ)) 1).length = 9 ∧ (2 * 1 + 6 : ℕ) ≠ 9 := by
  refine ⟨?_, by norm_num, ⟨by rw [abs_of_pos] <;> norm_num,
    by rw [abs_of_pos] <;> norm_num⟩, ?_, ?_, by norm_num⟩
  · have h := @gform_plain 123 3 (by norm_num) (by norm_num)
      (by rw [show |(123 : ℚ)| = 123 from abs_of_pos (by norm_num)]; norm_num)
      (by rw [show |(123 : ℚ)| = 123 from abs_of_pos (by norm_num)]; norm_num)
      (by
        rw [show |(123 : ℚ)| = 123 from abs_of_pos (by norm_num), sigRound_123]
        norm_num)
    rw [h.1]
  · have hcond : (1 / 10 ≤ |(1999 / 2 : ℚ)| ∧ |(1999 / 2 : ℚ)| < 10 ^ 3)
        ∨ (1999 / 2 : ℚ) = 0 := by
      rw [abs_of_pos (by norm_num)]
      norm_num
    simp only [gform, if_pos hcond, pctG_9995e_1]
    rw [show rstrip0 ("1.00e+03".toList) = "1.00e+03".toList from by decide]
    rw [show pyFind ("1.00e+03".toList) '.' = 1 from by decide]
    decide
  · rw [gform_neg100000]
    decide

theorem gform_spec_witness :
    (1 : ℕ) ≤ 3 ∧
    ((123 : ℚ) ≠ 0 ∧ 1 / 10 ≤ |(123 : ℚ)| ∧ |(123 : ℚ)| < 10 ^ 3 ∧
      (sigRound 3 |(123 : ℚ)|).2 < (3 : ℤ)) ∧
    ((gform 123 3).length = 2 * 3 + 6 ∧
      (gform 123 3)[3 + 1]? = some '.' ∧
      'e' ∉ gform 123 3 ∧ 'E' ∉ gform 123 3) :=
  ⟨by norm_num,
    ⟨by norm_num,
      by rw [show |(123 : ℚ)| = 123 from abs_of_pos (by norm_num)]; norm_num,
      by rw [show |(123 : ℚ)| = 123 from abs_of_pos (by norm_num)]; norm_num,
      by
        rw [show |(123 : ℚ)| = 123 from abs_of_pos (by norm_num), sigRound_123]
        norm_num⟩,
    (gform_spec 123 3 (by norm_num)).2.1 (by norm_num)
      (by rw [show |(123 : ℚ)| = 123 from abs_of_pos (by norm_num)]; norm_num)
      (by rw [show |(123 : ℚ)| = 123 from abs_of_pos (by norm_num)]; norm_num)
      (by
        rw [show |(123 : ℚ)| = 123 from abs_of_pos (by norm_num), sigRound_123]
        norm_num)⟩


/-! ### Claim C1: `enhanced_sacpz.dummy_aware_str_to_time` -/

/-- Python `int(s[:4])` on the strings reaching it here: the value of
the first four characters when they are digits, `none` (ValueError)
otherwise. -/
def pyInt4 (s : Str) : Option ℕ :=
  if s.take 4 ≠ [] ∧ (s.take 4).all (fun c => c.isDigit) then
    some (parseNat (s.take 4))
  else none

/-- `enhanced_sacpz.dummy_aware_str_to_time`, parameterized by
`this_year` (`time.gmtime()[0]` at import time).  The `try` body calls
`util.str_to_time(s, ...)` without a `return`, so on a successful
parse the function falls through and returns `None`; `TimeStrError`
(and its fractional-second subclasses) is caught and tolerated exactly
when the declared year is more than 100 years past `this_year`. -/
def dummy_aware_str_to_time (thisYear : ℕ) (s : Str) :
    Except TimeErr (Option ℚ) :=
  match str_to_time s ("%Y-%m-%dT%H:%M:%S".toList) with
  | .ok _ => .ok none
  | .error .valueError => .error .valueError
  | .error e =>
    match pyInt4 s with
    | none => .error .valueError
    | some year => if thisYear + 100 < year then .ok none else .error e

/-- Claim C1 (code bug): `dummy_aware_str_to_time` is missing the
`return` in its `try` body, so whenever the `end` field parses
successfully the yielded record's `tmax` is `None`, not the parsed
timestamp.  Concretely, `"2000-01-01T00:00:00"` parses to 946684800.0,
which is in no sense a dummy far-future end date, yet the function
returns `None`. -/
theorem dummy_aware_bug :
    (∀ (thisYear : ℕ) (s : Str) (t : ℚ),
      str_to_time s ("%Y-%m-%dT%H:%M:%S".toList) = .ok t →
      dummy_aware_str_to_time thisYear s = .ok none) ∧
    str_to_time ("2000-01-01T00:00:00".toList)
      ("%Y-%m-%dT%H:%M:%S".toList) = .ok 946684800 ∧
    dummy_aware_str_to_time 2015 ("2000-01-01T00:00:00".toList) = .ok none := by
  have hgen : ∀ (thisYear : ℕ) (s : Str) (t : ℚ),
      str_to_time s ("%Y-%m-%dT%H:%M:%S".toList) = .ok t →
      dummy_aware_str_to_time thisYear s = .ok none := by
    intro thisYear s t h
    unfold dummy_aware_str_to_time
    rw [h]
  have hconc : str_to_time ("2000-01-01T00:00:00".toList)
      ("%Y-%m-%dT%H:%M:%S".toList) = .ok 946684800 := by
    unfold str_to_time
    simp only [show endswithN ("%Y-%m-%dT%H:%M:%S".toList) fixedEndings
        = none from by decide,
      show ((".OPTFRAC".toList).isSuffixOf ("%Y-%m-%dT%H:%M:%S".toList))
        = false from by decide]
    rw [if_neg (by simp)]
    unfold stCore
    simp only [show strptime ("2000-01-01T00:00:00".toList)
        ("%Y-%m-%dT%H:%M:%S".toList) = some ⟨2000, 1, 1, 0, 0, 0⟩
        from by decide,
      show timegm ⟨2000, 1, 1, 0, 0, 0⟩ = some 946684800 from by decide]
    norm_num
  exact ⟨hgen, hconc, hgen 2015 _ 946684800 hconc⟩

theorem dummy_aware_bug_witness :
    str_to_time ("2000-01-01T00:00:00".toList)
      ("%Y-%m-%dT%H:%M:%S".toList) = .ok 946684800 ∧
    dummy_aware_str_to_time 2015 ("2000-01-01T00:00:00".toList) = .ok none :=
  ⟨dummy_aware_bug.2.1,
    dummy_aware_bug.1 2015 ("2000-01-01T00:00:00".toList) 946684800
      dummy_aware_bug.2.1⟩

/-! ### Claim C2: `enhanced_sacpz.make_stationxml`

The `fs` (StationXML), `trace` and `pz` modules live outside `src/`;
their data classes are modelled from the specification as plain
records, and the float complex arithmetic of
`presponse.evaluate(num.array([1.0]))` is abstracted into an `evalAbs`
parameter. -/

/-- A complex number of the SACPZ pole/zero lists. -/
structure Cplx where
  re : ℚ
  im : ℚ
deriving DecidableEq

/-- `trace.PoleZeroResponse` (spec-modelled): zeros, poles and the
real SACPZ constant. -/
structure PoleZeroResponse where
  zeros : List Cplx
  poles : List Cplx
  constant : ℚ
deriving DecidableEq

/-- `fs.ResponseStage` (spec-modelled): stage number and gain. -/
structure ResponseStage where
  number : ℕ
  gain : ℚ
deriving DecidableEq

/-- `fs.Response` (spec-modelled): sensitivity and the stage list. -/
structure FResponse where
  sensitivity_value : ℚ
  input_units : Str
  output_units : Str
  stage_list : List ResponseStage
deriving DecidableEq

/-- `enhanced_sacpz.make_stationxml_response`, with
`abs(evaluate([1.0])[0]/constant)` abstracted as `evalAbs presponse`:
a single-stage response whose stage gain is `constant/norm_factor`. -/
def make_stationxml_response (evalAbs : PoleZeroResponse → ℚ)
    (presponse : PoleZeroResponse) (input_unit output_unit : Str) :
    FResponse :=
  let norm_factor := 1 / evalAbs presponse
  let stage : ResponseStage := ⟨1, presponse.constant / norm_factor⟩
  { sensitivity_value := stage.gain
    input_units := input_unit
    output_units := output_unit
    stage_list := [stage] }

/-- `fs.Channel` (spec-modelled). -/
structure Channel where
  code : Str
  location_code : Str
  start_date : Option ℚ
  end_date : Option ℚ
  latitude : ℚ
  longitude : ℚ
  elevation : ℚ
  depth : ℚ
  response : FResponse
deriving DecidableEq

/-- `fs.Station` (spec-modelled). -/
structure Station where
  code : Str
  latitude : ℚ
  longitude : ℚ
  elevation : ℚ
  channel_list : List Channel
deriving DecidableEq

/-- `fs.Network` (spec-modelled). -/
structure Network where
  code : Str
  station_list : List Station
deriving DecidableEq

/-- `fs.FDSNStationXML` (spec-modelled); only the network list is
relevant to the claim. -/
structure FDSNStationXML where
  network_list : List Network
deriving DecidableEq

/-- `EnhancedSacPzResponse` (the fields `make_stationxml` reads). -/
structure ESPResponse where
  codes : Str × Str × Str × Str
  tmin : Option ℚ
  tmax : Option ℚ
  lat : ℚ
  lon : ℚ
  elevation : ℚ
  depth : ℚ
  dip : ℚ
  azimuth : ℚ
  input_unit : Str
  output_unit : Str
  response : PoleZeroResponse

/-- `collections.defaultdict(list)` append, preserving first-seen key
order (Python dict iteration order is modelled as insertion order,
which only matters up to the subsequent explicit `sorted`). -/
def grpAppend {K A : Type} [DecidableEq K] (m : List (K × List A))
    (k : K) (a : A) : List (K × List A) :=
  if (m.lookup k).isSome then
    m.map (fun p => if p.1 = k then (p.1, p.2 ++ [a]) else p)
  else m ++ [(k, [a])]

/-- Python string comparison: lexicographic on code points. -/
def strLtB : Str → Str → Bool
  | [], [] => false
  | [], _ :: _ => true
  | _ :: _, [] => false
  | a :: as, b :: bs =>
    if a.toNat < b.toNat then true
    else if b.toNat < a.toNat then false
    else strLtB as bs

/-- Python comparison of string pairs (tuples compare lexicographically). -/
def keyLtB (a b : Str × Str) : Bool :=
  if strLtB a.1 b.1 then true
  else if strLtB b.1 a.1 then false
  else strLtB a.2 b.2

/-- Stable insertion of `a` into a sorted list: after all elements not
strictly greater, as Python's stable `sorted` places it. -/
def insertStable {A : Type} (lt : A → A → Bool) (a : A) : List A → List A
  | [] => [a]
  | b :: bs => if lt a b then a :: b :: bs else b :: insertStable lt a bs

/-- Python `sorted(l, key=...)` as a stable insertion sort. -/
def sortedBy {A : Type} (lt : A → A → Bool) (l : List A) : List A :=
  l.foldl (fun acc a => insertStable lt a acc) []

/-- The `fs.Channel` built for one record inside `make_stationxml`. -/
def mkChannel (evalAbs : PoleZeroResponse → ℚ) (cr : ESPResponse) : Channel :=
  { code := cr.codes.2.2.2
    location_code := cr.codes.2.2.1
    start_date := cr.tmin
    end_date := cr.tmax
    latitude := cr.lat
    longitude := cr.lon
    elevation := cr.elevation
    depth := cr.depth
    response := make_stationxml_response evalAbs cr.response
      cr.input_unit cr.output_unit }

/-- The station-building loop of `make_stationxml`: for each
`(net, sta)` group in sorted order, merge the coordinate records and
build the `fs.Station` with its sorted channel list; any exception
(`Inconsistency` under `error='raise'`) propagates. -/
def buildStations (schans : List ((Str × Str) × List Channel))
    (inconsistencies : ErrorPolicy) :
    List ((Str × Str) × List ((Str × Str × Str × Str) × List ℚ)) →
    Except MergeErr (List (Str × Station))
  | [] => .ok []
  | g :: gs =>
    match consistency_merge g.2 inconsistencies (mostfrequentD 0) with
    | .error e => .error e
    | .ok r =>
      match r.1 with
      | [lat, lon, elevation] =>
        match buildStations schans inconsistencies gs with
        | .error e => .error e
        | .ok rest =>
          .ok ((g.1.1, Station.mk g.1.2 lat lon elevation
            (sortedBy (fun c1 c2 => keyLtB (c1.location_code, c1.code)
              (c2.location_code, c2.code)) ((schans.lookup g.1).getD []))) :: rest)
      | _ => .error .genericError

/-- `enhanced_sacpz.make_stationxml(responses, inconsistencies)`. -/
def make_stationxml (evalAbs : PoleZeroResponse → ℚ)
    (responses : List ESPResponse) (inconsistencies : ErrorPolicy) :
    Except MergeErr FDSNStationXML :=
  let scoords := responses.foldl (fun m cr =>
    grpAppend m (cr.codes.1, cr.codes.2.1)
      ((cr.codes, [cr.lat, cr.lon, cr.elevation]))) []
  let schans := responses.foldl (fun m cr =>
    grpAppend m (cr.codes.1, cr.codes.2.1) (mkChannel evalAbs cr)) []
  match buildStations schans inconsistencies
      (sortedBy (fun a b => keyLtB a.1 b.1) scoords) with
  | .error e => .error e
  | .ok stations =>
    .ok ⟨(sortedBy (fun a b => strLtB a.1 b.1)
        (stations.foldl (fun m p => grpAppend m p.1 p.2) [])).map
      (fun p => Network.mk p.1 p.2)⟩

theorem cm_pair_same {L : Type} (c1 c2 : L) (v : List ℚ) (pol : ErrorPolicy) :
    consistency_merge [(c1, v), (c2, v)] pol (mostfrequentD 0)
      = .ok (v, false) := by
  unfold consistency_merge consistency_check
  dsimp only
  rw [if_pos (by
    intro t ht
    simp only [List.mem_singleton] at ht
    subst ht
    rfl)]

theorem cm_pair_diff {L : Type} (c1 c2 : L) (a1 b1 c1' a2 b2 c2' : ℚ)
    (h : a1 ≠ a2) :
    consistency_merge [(c1, [a1, b1, c1']), (c2, [a2, b2, c2'])] .warn
      (mostfrequentD 0)
      = .ok ([mostfrequentD 0 [a1, a2], mostfrequentD 0 [b1, b2],
          mostfrequentD 0 [c1', c2']], true) := by
  unfold consistency_merge consistency_check
  dsimp only
  rw [if_neg (by
    intro hc
    have h2 := hc ((c2, [a2, b2, c2'])) (List.mem_singleton_self _)
    simp only [List.cons.injEq] at h2
    exact h (h2.1).symm)]
  rfl

theorem make_stationxml_two (evalAbs : PoleZeroResponse → ℚ)
    (r1 r2 : ESPResponse) (pol : ErrorPolicy)
    (h1 : r1.codes = ("NE".toList, "STA".toList, "".toList, "BHZ".toList))
    (h2 : r2.codes = ("NE".toList, "STA".toList, "".toList, "BHN".toList))
    (hla : r1.lat = r2.lat) (hlo : r1.lon = r2.lon)
    (hel : r1.elevation = r2.elevation) :
    make_stationxml evalAbs [r1, r2] pol = .ok
      ⟨[⟨"NE".toList,
        [⟨"STA".toList, r1.lat, r1.lon, r1.elevation,
          [mkChannel evalAbs r2, mkChannel evalAbs r1]⟩]⟩]⟩ := by
  obtain ⟨c1, m1, x1, la1, lo1, e1, d1, di1, az1, iu1, ou1, rs1⟩ := r1
  obtain ⟨c2, m2, x2, la2, lo2, e2, d2, di2, az2, iu2, ou2, rs2⟩ := r2
  simp only at h1 h2 hla hlo hel
  subst h1
  subst h2
  subst hla
  subst hlo
  subst hel
  unfold make_stationxml
  dsimp only
  rw [show (List.foldl (fun m cr =>
      grpAppend m (cr.codes.1, cr.codes.2.1)
        ((cr.codes, [cr.lat, cr.lon, cr.elevation]))) []
      [(⟨("NE".toList, "STA".toList, "".toList, "BHZ".toList),
        m1, x1, la1, lo1, e1, d1, di1, az1, iu1, ou1, rs1⟩ : ESPResponse),
       ⟨("NE".toList, "STA".toList, "".toList, "BHN".toList),
        m2, x2, la1, lo1, e1, d2, di2, az2, iu2, ou2, rs2⟩])
      = [(("NE".toList, "STA".toList),
          [((("NE".toList, "STA".toList, "".toList, "BHZ".toList) :
              Str × Str × Str × Str), [la1, lo1, e1]),
           (("NE".toList, "STA".toList, "".toList, "BHN".toList),
            [la1, lo1, e1])])] from rfl]
  rw [show (List.foldl (fun m cr =>
      grpAppend m (cr.codes.1, cr.codes.2.1) (mkChannel evalAbs cr)) []
      [(⟨("NE".toList, "STA".toList, "".toList, "BHZ".toList),
        m1, x1, la1, lo1, e1, d1, di1, az1, iu1, ou1, rs1⟩ : ESPResponse),
       ⟨("NE".toList, "STA".toList, "".toList, "BHN".toList),
        m2, x2, la1, lo1, e1, d2, di2, az2, iu2, ou2, rs2⟩])
      = [(("NE".toList, "STA".toList),
          [mkChannel evalAbs
            ⟨("NE".toList, "STA".toList, "".toList, "BHZ".toList),
             m1, x1, la1, lo1, e1, d1, di1, az1, iu1, ou1, rs1⟩,
           mkChannel evalAbs
            ⟨("NE".toList, "STA".toList, "".toList, "BHN".toList),
             m2, x2, la1, lo1, e1, d2, di2, az2, iu2, ou2, rs2⟩])]
      from rfl]
  rw [show sortedBy (fun a b : (Str × Str) ×
        List ((Str × Str × Str × Str) × List ℚ) => keyLtB a.1 b.1)
      [(("NE".toList, "STA".toList),
        [((("NE".toList, "STA".toList, "".toList, "BHZ".toList) :
            Str × Str × Str × Str), [la1, lo1, e1]),
         (("NE".toList, "STA".toList, "".toList, "BHN".toList),
          [la1, lo1, e1])])]
      = [(("NE".toList, "STA".toList),
          [((("NE".toList, "STA".toList, "".toList, "BHZ".toList) :
              Str × Str × Str × Str), [la1, lo1, e1]),
           (("NE".toList, "STA".toList, "".toList, "BHN".toList),
            [la1, lo1, e1])])] from rfl]
  have hB : buildStations
      [(("NE".toList, "STA".toList),
        [mkChannel evalAbs
          ⟨("NE".toList, "STA".toList, "".toList, "BHZ".toList),
           m1, x1, la1, lo1, e1, d1, di1, az1, iu1, ou1, rs1⟩,
         mkChannel evalAbs
          ⟨("NE".toList, "STA".toList, "".toList, "BHN".toList),
           m2, x2, la1, lo1, e1, d2, di2, az2, iu2, ou2, rs2⟩])] pol
      [(("NE".toList, "STA".toList),
        [((("NE".toList, "STA".toList, "".toList, "BHZ".toList) :
            Str × Str × Str × Str), [la1, lo1, e1]),
         (("NE".toList, "STA".toList, "".toList, "BHN".toList),
          [la1, lo1, e1])])]
      = .ok [(("NE".toList : Str), Station.mk ("STA".toList) la1 lo1 e1
          [mkChannel evalAbs
            ⟨("NE".toList, "STA".toList, "".toList, "BHN".toList),
             m2, x2, la1, lo1, e1, d2, di2, az2, iu2, ou2, rs2⟩,
           mkChannel evalAbs
            ⟨("NE".toList, "STA".toList, "".toList, "BHZ".toList),
             m1, x1, la1, lo1, e1, d1, di1, az1, iu1, ou1, rs1⟩])] := by
    rw [show buildStations
        [(("NE".toList, "STA".toList),
          [mkChannel evalAbs
            ⟨("NE".toList, "STA".toList, "".toList, "BHZ".toList),
             m1, x1, la1, lo1, e1, d1, di1, az1, iu1, ou1, rs1⟩,
           mkChannel evalAbs
            ⟨("NE".toList, "STA".toList, "".toList, "BHN".toList),
             m2, x2, la1, lo1, e1, d2, di2, az2, iu2, ou2, rs2⟩])] pol
        [(("NE".toList, "STA".toList),
          [((("NE".toList, "STA".toList, "".toList, "BHZ".toList) :
              Str × Str × Str × Str), [la1, lo1, e1]),
           (("NE".toList, "STA".toList, "".toList, "BHN".toList),
            [la1, lo1, e1])])]
        = (match consistency_merge
            [((("NE".toList, "STA".toList, "".toList, "BHZ".toList) :
                Str × Str × Str × Str), [la1, lo1, e1]),
             (("NE".toList, "STA".toList, "".toList, "BHN".toList),
              [la1, lo1, e1])] pol (mostfrequentD 0) with
          | .error e => (.error e : Except MergeErr (List (Str × Station)))
          | .ok r =>
            match r.1 with
            | [lat, lon, elevation] =>
              .ok [(("NE".toList : Str), Station.mk ("STA".toList) lat lon
                elevation
                [mkChannel evalAbs
                  ⟨("NE".toList, "STA".toList, "".toList, "BHN".toList),
                   m2, x2, la1, lo1, e1, d2, di2, az2, iu2, ou2, rs2⟩,
                 mkChannel evalAbs
                  ⟨("NE".toList, "STA".toList, "".toList, "BHZ".toList),
                   m1, x1, la1, lo1, e1, d1, di1, az1, iu1, ou1, rs1⟩])]
            | _ => .error .genericError) from rfl]
    rw [cm_pair_same]
  rw [hB]
  rfl


theorem make_stationxml_warn (evalAbs : PoleZeroResponse → ℚ)
    (r1 r2 : ESPResponse)
    (h1 : r1.codes = ("NE".toList, "STA".toList, "".toList, "BHZ".toList))
    (h2 : r2.codes = ("NE".toList, "STA".toList, "".toList, "BHN".toList))
    (hne : r1.lat ≠ r2.lat) :
    make_stationxml evalAbs [r1, r2] .warn = .ok
      ⟨[⟨"NE".toList,
        [⟨"STA".toList,
          mostfrequentD 0 [r1.lat, r2.lat],
          mostfrequentD 0 [r1.lon, r2.lon],
          mostfrequentD 0 [r1.elevation, r2.elevation],
          [mkChannel evalAbs r2, mkChannel evalAbs r1]⟩]⟩]⟩ := by
  obtain ⟨c1, m1, x1, la1, lo1, e1, d1, di1, az1, iu1, ou1, rs1⟩ := r1
  obtain ⟨c2, m2, x2, la2, lo2, e2, d2, di2, az2, iu2, ou2, rs2⟩ := r2
  simp only at h1 h2 hne
  subst h1
  subst h2
  unfold make_stationxml
  dsimp only
  rw [show (List.foldl (fun m cr =>
      grpAppend m (cr.codes.1, cr.codes.2.1)
        ((cr.codes, [cr.lat, cr.lon, cr.elevation]))) []
      [(⟨("NE".toList, "STA".toList, "".toList, "BHZ".toList),
        m1, x1, la1, lo1, e1, d1, di1, az1, iu1, ou1, rs1⟩ : ESPResponse),
       ⟨("NE".toList, "STA".toList, "".toList, "BHN".toList),
        m2, x2, la2, lo2, e2, d2, di2, az2, iu2, ou2, rs2⟩])
      = [(("NE".toList, "STA".toList),
          [((("NE".toList, "STA".toList, "".toList, "BHZ".toList) :
              Str × Str × Str × Str), [la1, lo1, e1]),
           (("NE".toList, "STA".toList, "".toList, "BHN".toList),
            [la2, lo2, e2])])] from rfl]
  rw [show (List.foldl (fun m cr =>
      grpAppend m (cr.codes.1, cr.codes.2.1) (mkChannel evalAbs cr)) []
      [(⟨("NE".toList, "STA".toList, "".toList, "BHZ".toList),
        m1, x1, la1, lo1, e1, d1, di1, az1, iu1, ou1, rs1⟩ : ESPResponse),
       ⟨("NE".toList, "STA".toList, "".toList, "BHN".toList),
        m2, x2, la2, lo2, e2, d2, di2, az2, iu2, ou2, rs2⟩])
      = [(("NE".toList, "STA".toList),
          [mkChannel evalAbs
            ⟨("NE".toList, "STA".toList, "".toList, "BHZ".toList),
             m1, x1, la1, lo1, e1, d1, di1, az1, iu1, ou1, rs1⟩,
           mkChannel evalAbs
            ⟨("NE".toList, "STA".toList, "".toList, "BHN".toList),
             m2, x2, la2, lo2, e2, d2, di2, az2, iu2, ou2, rs2⟩])]
      from rfl]
  rw [show sortedBy (fun a b : (Str × Str) ×
        List ((Str × Str × Str × Str) × List ℚ) => keyLtB a.1 b.1)
      [(("NE".toList, "STA".toList),
        [((("NE".toList, "STA".toList, "".toList, "BHZ".toList) :
            Str × Str × Str × Str), [la1, lo1, e1]),
         (("NE".toList, "STA".toList, "".toList, "BHN".toList),
          [la2, lo2, e2])])]
      = [(("NE".toList, "STA".toList),
          [((("NE".toList, "STA".toList, "".toList, "BHZ".toList) :
              Str × Str × Str × Str), [la1, lo1, e1]),
           (("NE".toList, "STA".toList, "".toList, "BHN".toList),
            [la2, lo2, e2])])] from rfl]
  have hB : buildStations
      [(("NE".toList, "STA".toList),
        [mkChannel evalAbs
          ⟨("NE".toList, "STA".toList, "".toList, "BHZ".toList),
           m1, x1, la1, lo1, e1, d1, di1, az1, iu1, ou1, rs1⟩,
         mkChannel evalAbs
          ⟨("NE".toList, "STA".toList, "".toList, "BHN".toList),
           m2, x2, la2, lo2, e2, d2, di2, az2, iu2, ou2, rs2⟩])] .warn
      [(("NE".toList, "STA".toList),
        [((("NE".toList, "STA".toList, "".toList, "BHZ".toList) :
            Str × Str × Str × Str), [la1, lo1, e1]),
         (("NE".toList, "STA".toList, "".toList, "BHN".toList),
          [la2, lo2, e2])])]
      = .ok [(("NE".toList : Str), Station.mk ("STA".toList)
          (mostfrequentD 0 [la1, la2]) (mostfrequentD 0 [lo1, lo2])
          (mostfrequentD 0 [e1, e2])
          [mkChannel evalAbs
            ⟨("NE".toList, "STA".toList, "".toList, "BHN".toList),
             m2, x2, la2, lo2, e2, d2, di2, az2, iu2, ou2, rs2⟩,
           mkChannel evalAbs
            ⟨("NE".toList, "STA".toList, "".toList, "BHZ".toList),
             m1, x1, la1, lo1, e1, d1, di1, az1, iu1, ou1, rs1⟩])] := by
    rw [show buildStations
        [(("NE".toList, "STA".toList),
          [mkChannel evalAbs
            ⟨("NE".toList, "STA".toList, "".toList, "BHZ".toList),
             m1, x1, la1, lo1, e1, d1, di1, az1, iu1, ou1, rs1⟩,
           mkChannel evalAbs
            ⟨("NE".toList, "STA".toList, "".toList, "BHN".toList),
             m2, x2, la2, lo2, e2, d2, di2, az2, iu2, ou2, rs2⟩])] .warn
        [(("NE".toList, "STA".toList),
          [((("NE".toList, "STA".toList, "".toList, "BHZ".toList) :
              Str × Str × Str × Str), [la1, lo1, e1]),
           (("NE".toList, "STA".toList, "".toList, "BHN".toList),
            [la2, lo2, e2])])]
        = (match consistency_merge
            [((("NE".toList, "STA".toList, "".toList, "BHZ".toList) :
                Str × Str × Str × Str), [la1, lo1, e1]),
             (("NE".toList, "STA".toList, "".toList, "BHN".toList),
              [la2, lo2, e2])] .warn (mostfrequentD 0) with
          | .error e => (.error e : Except MergeErr (List (Str × Station)))
          | .ok r =>
            match r.1 with
            | [lat, lon, elevation] =>
              .ok [(("NE".toList : Str), Station.mk ("STA".toList) lat lon
                elevation
                [mkChannel evalAbs
                  ⟨("NE".toList, "STA".toList, "".toList, "BHN".toList),
                   m2, x2, la2, lo2, e2, d2, di2, az2, iu2, ou2, rs2⟩,
                 mkChannel evalAbs
                  ⟨("NE".toList, "STA".toList, "".toList, "BHZ".toList),
                   m1, x1, la1, lo1, e1, d1, di1, az1, iu1, ou1, rs1⟩])]
            | _ => .error .genericError) from rfl]
    rw [cm_pair_diff _ _ _ _ _ _ _ _ hne]
  rw [hB]
  rfl

/-- Claim C2: two enhanced-SACPZ records for `NE.STA..BHZ` and
`NE.STA..BHN` with identical station coordinates produce exactly one
network `NE` with exactly one station `STA`, whose channel list is
sorted by (location code, channel code) — `BHN` before `BHZ` — each
channel carrying its own single-stage response; and when the two
records disagree on latitude, the `inconsistencies='warn'` policy
still yields that single merged station without raising. -/
theorem make_stationxml_spec (evalAbs : PoleZeroResponse → ℚ)
    (r1 r2 : ESPResponse) (pol : ErrorPolicy)
    (h1 : r1.codes = ("NE".toList, "STA".toList, "".toList, "BHZ".toList))
    (h2 : r2.codes = ("NE".toList, "STA".toList, "".toList, "BHN".toList)) :
    (r1.lat = r2.lat → r1.lon = r2.lon → r1.elevation = r2.elevation →
      make_stationxml evalAbs [r1, r2] pol = .ok
        ⟨[⟨"NE".toList,
          [⟨"STA".toList, r1.lat, r1.lon, r1.elevation,
            [mkChannel evalAbs r2, mkChannel evalAbs r1]⟩]⟩]⟩) ∧
    (r1.lat ≠ r2.lat →
      make_stationxml evalAbs [r1, r2] .warn = .ok
        ⟨[⟨"NE".toList,
          [⟨"STA".toList,
            mostfrequentD 0 [r1.lat, r2.lat],
            mostfrequentD 0 [r1.lon, r2.lon],
            mostfrequentD 0 [r1.elevation, r2.elevation],
            [mkChannel evalAbs r2, mkChannel evalAbs r1]⟩]⟩]⟩) ∧
    (∀ cr : ESPResponse,
      (mkChannel evalAbs cr).response.stage_list
        = [⟨1, cr.response.constant / (1 / evalAbs cr.response)⟩]) :=
  ⟨fun ha hb hc => make_stationxml_two evalAbs r1 r2 pol h1 h2 ha hb hc,
   fun hne => make_stationxml_warn evalAbs r1 r2 h1 h2 hne,
   fun cr => rfl⟩

/-- A concrete `NE.STA..BHZ` record for the witness. -/
def crZ : ESPResponse :=
  ⟨("NE".toList, "STA".toList, "".toList, "BHZ".toList), some 0, none,
    10, 20, 30, 1, 2, 3, "M".toList, "COUNTS".toList, ⟨[], [], 5⟩⟩

/-- A concrete `NE.STA..BHN` record for the witness. -/
def crN : ESPResponse :=
  ⟨("NE".toList, "STA".toList, "".toList, "BHN".toList), some 0, none,
    10, 20, 30, 1, 2, 3, "M".toList, "COUNTS".toList, ⟨[], [], 5⟩⟩

theorem make_stationxml_spec_witness :
    crZ.codes = ("NE".toList, "STA".toList, "".toList, "BHZ".toList) ∧
    crN.codes = ("NE".toList, "STA".toList, "".toList, "BHN".toList) ∧
    crZ.lat = crN.lat ∧ crZ.lon = crN.lon ∧ crZ.elevation = crN.elevation ∧
    make_stationxml (fun _ => 1) [crZ, crN] .warn = .ok
      ⟨[⟨"NE".toList,
        [⟨"STA".toList, crZ.lat, crZ.lon, crZ.elevation,
          [mkChannel (fun _ => 1) crN, mkChannel (fun _ => 1) crZ]⟩]⟩]⟩ :=
  ⟨rfl, rfl, rfl, rfl, rfl,
    (make_stationxml_spec (fun _ => 1) crZ crN .warn rfl rfl).1 rfl rfl rfl⟩

end Pyrocko
